import Mathlib

/-!
# Verification of the OfficeX drive canister (`officex-canisters-backend/src/lib.rs`)

This file contains a shallow embedding, in Lean 4, of the metadata engine of the
OfficeX drive canister: the folder/file records, the two path indices, and the
exposed operations (`create_folder`, `upsert_file_to_hash_tables`, `rename_folder`,
`rename_file`, `delete_folder`, `delete_file`, the two cloud-sync upserts, the
query functions and `fetch_files_at_folder_path`), together with theorems that
settle the specification claims about it.

Modelling conventions:
* Rust `String` is a list of characters (`Str`).
* Rust `HashMap` is an association list; the operations never observe iteration
  order, so first-match association lists are a faithful model.  `insertA`
  replaces any previous binding of the key, like `HashMap::insert`.
* Machine integers (`u32` file versions, the `u64` id counter) are natural
  numbers reduced modulo `2 ^ 32` / `2 ^ 64` where the code increments them,
  matching release-mode wrapping arithmetic.
* A Rust panic (`unwrap` on `None`, slice index out of range, vector index out
  of bounds) traps the canister and rolls the message back; fallible functions
  therefore return `Option`, with `none` for a trap, and the transition
  semantics (`step`) restores the pre-call state on `none`.
* Unbounded recursion (`update_subfolder_paths`, `delete_folder`, the version
  chain walk) is given explicit fuel.  The fuel is an artifact of the
  embedding: it is chosen large enough for every structurally well-formed
  state, and running out of fuel is modelled as a trap (`none`), matching the
  stack exhaustion / cycle-limit trap the real code would hit on a state whose
  folder graph is cyclic.
-/

set_option maxHeartbeats 1000000

namespace OfficeX

/-- Rust `String`, modelled as a list of characters. -/
abbrev Str := List Char

/-! ## Association-list model of `HashMap` -/

/-- `HashMap::get`: first matching binding. -/
def lookupA {κ α : Type} [DecidableEq κ] : List (κ × α) → κ → Option α
  | [], _ => none
  | (k, v) :: rest, q => if k = q then some v else lookupA rest q

/-- `HashMap::insert`: replaces any existing binding of the key. -/
def insertA {κ α : Type} [DecidableEq κ] (m : List (κ × α)) (k : κ) (v : α) :
    List (κ × α) :=
  (k, v) :: m.filter (fun kv => kv.1 ≠ k)

/-- `HashMap::remove` (the returned value is read through `lookupA` separately). -/
def eraseA {κ α : Type} [DecidableEq κ] (m : List (κ × α)) (k : κ) : List (κ × α) :=
  m.filter (fun kv => kv.1 ≠ k)

/-! ## String helpers used by the source -/

/-- The `"::"` separator between storage namespace and path. -/
def dcolon : Str := [':', ':']

/-- `str::splitn(2, pat)`: split at the first occurrence of `pat`.
`none` means `pat` does not occur (Rust then yields a single part). -/
def splitOnceSub (pat : Str) : Str → Option (Str × Str)
  | [] => none
  | c :: rest =>
    if pat.isPrefixOf (c :: rest) then some ([], (c :: rest).drop pat.length)
    else (splitOnceSub pat rest).map (fun ab => (c :: ab.1, ab.2))

/-- Split at the first occurrence of a single character. -/
def splitOnceChar (c : Char) : Str → Option (Str × Str)
  | [] => none
  | d :: rest =>
    if d = c then some ([], rest)
    else (splitOnceChar c rest).map (fun ab => (d :: ab.1, ab.2))

/-- `str::rsplitn(2, c)`: split at the last occurrence of `c`;
the pair is (part before, part after). -/
def rsplitOnceChar (c : Char) (s : Str) : Option (Str × Str) :=
  (splitOnceChar c s.reverse).map (fun ab => (ab.2.reverse, ab.1.reverse))

/-- `s.rsplit(c).next().unwrap_or("")`: the segment after the last `c`,
or the whole string when `c` does not occur. -/
def lastSegmentAfter (c : Char) (s : Str) : Str :=
  match rsplitOnceChar c s with
  | some ab => ab.2
  | none => s

/-- Fueled worker for `str::split(pat)` (the fuel only needs to exceed the
string length; see `splitSub`). -/
def splitSubGo (pat : Str) : Nat → Str → List Str
  | 0, s => [s]
  | fuel + 1, s =>
    match splitOnceSub pat s with
    | none => [s]
    | some (a, b) => a :: splitSubGo pat fuel b

/-- `str::split(pat).collect()`: all parts, non-overlapping, left to right. -/
def splitSub (pat s : Str) : List Str := splitSubGo pat (s.length + 1) s

/-- `str::split(c).collect()` for a single character. -/
def splitChar (c : Char) : Str → List Str
  | [] => [[]]
  | d :: rest =>
    if d = c then [] :: splitChar c rest
    else
      match splitChar c rest with
      | [] => [[d]]
      | p :: ps => (d :: p) :: ps

/-- Worker for the `Regex::new(r"/+")` collapse: the flag records whether the
previous character was a slash. -/
def collapseGo : Bool → Str → Str
  | _, [] => []
  | prevSlash, c :: rest =>
    if c = '/' then
      if prevSlash then collapseGo true rest else '/' :: collapseGo true rest
    else c :: collapseGo false rest

/-- `re.replace_all(s, "/")` for the regex `/+`: collapse runs of slashes. -/
def collapseSlashes (s : Str) : Str := collapseGo false s

/-- `str::trim_matches('/')`. -/
def trimSlashes (s : Str) : Str :=
  ((s.dropWhile (· = '/')).reverse.dropWhile (· = '/')).reverse

/-- `str::trim_end_matches('/')`. -/
def trimEndSlashes (s : Str) : Str := (s.reverse.dropWhile (· = '/')).reverse

/-- Fueled worker for `str::replace` (fuel beyond the string length is enough;
see `replaceStr`). -/
def replaceGo (pat rep : Str) : Nat → Str → Str
  | 0, s => s
  | fuel + 1, s =>
    match s with
    | [] => []
    | c :: rest =>
      if pat ≠ [] ∧ pat.isPrefixOf s then
        rep ++ replaceGo pat rep fuel (s.drop pat.length)
      else c :: replaceGo pat rep fuel rest

/-- `str::replace(pat, rep)`: replace all non-overlapping occurrences,
scanning left to right. -/
def replaceStr (pat rep s : Str) : Str := replaceGo pat rep s.length s

/-! ## Data model (`FolderMetadata`, `FileMetadata`, `State`) -/

abbrev FolderUUID := Nat
abbrev FileUUID := Nat
abbrev UserID := Nat
abbrev Tag := Str
abbrev DriveFullFilePath := Str

inductive StorageLocationEnum : Type where
  | BrowserCache
  | HardDrive
  | Web3Storj
  deriving DecidableEq

/-- `impl Display for StorageLocationEnum`. -/
def StorageLocationEnum.toStr : StorageLocationEnum → Str
  | .BrowserCache => "BrowserCache".data
  | .HardDrive => "HardDrive".data
  | .Web3Storj => "Web3Storj".data

structure FolderMetadata : Type where
  id : FolderUUID
  original_folder_name : Str
  parent_folder_uuid : Option FolderUUID
  subfolder_uuids : List FolderUUID
  file_uuids : List FileUUID
  full_folder_path : DriveFullFilePath
  tags : List Tag
  owner : UserID
  created_date : Nat
  storage_location : StorageLocationEnum
  last_changed_unix_ms : Nat
  deleted : Bool
  deriving DecidableEq

structure FileMetadata : Type where
  id : FileUUID
  original_file_name : Str
  folder_uuid : FolderUUID
  file_version : Nat
  prior_version : Option FileUUID
  next_version : Option FileUUID
  extension : Str
  full_file_path : DriveFullFilePath
  tags : List Tag
  owner : UserID
  created_date : Nat
  storage_location : StorageLocationEnum
  file_size : Nat
  raw_url : Str
  last_changed_unix_ms : Nat
  deleted : Bool
  deriving DecidableEq

/-- The canister state: the four thread-local hash maps of `lib.rs` plus the
`ID_COUNTER` cell.  (`owner`/`username` take no part in any claim and are
omitted.) -/
structure State : Type where
  folder_uuid_to_metadata : List (FolderUUID × FolderMetadata)
  file_uuid_to_metadata : List (FileUUID × FileMetadata)
  full_folder_path_to_uuid : List (DriveFullFilePath × FolderUUID)
  full_file_path_to_uuid : List (DriveFullFilePath × FileUUID)
  id_counter : Nat
  deriving DecidableEq

/-- The state at `init`: all maps empty, counter zero. -/
def initState : State := ⟨[], [], [], [], 0⟩

/-- `generate_unique_id` hashes the tuple (canister id, time, caller, counter)
with SHA-256, where `ID_COUNTER` is a per-instance `u64` incremented on every
call, so distinct calls hash distinct input strings.  The embedding uses the
observed counter value as the identifier (SHA-256 collisions on distinct
inputs are assumed absent; claim C9 is exactly about that assumption and is
treated separately).  The `u64` counter wraps modulo `2 ^ 64`. -/
def generateUniqueId (counter : Nat) : Nat × Nat :=
  (counter, (counter + 1) % 2 ^ 64)

/-! ## The operations -/

namespace State

/-- `get_mut` on the folder map followed by a field update; a missing id is a
no-op, matching `if let Some(x) = map.get_mut(..)`. -/
def modifyFolder (s : State) (id : FolderUUID) (f : FolderMetadata → FolderMetadata) :
    State :=
  match lookupA s.folder_uuid_to_metadata id with
  | none => s
  | some r =>
    { s with folder_uuid_to_metadata := insertA s.folder_uuid_to_metadata id (f r) }

/-- `get_mut` on the file map followed by a field update. -/
def modifyFile (s : State) (id : FileUUID) (f : FileMetadata → FileMetadata) :
    State :=
  match lookupA s.file_uuid_to_metadata id with
  | none => s
  | some r =>
    { s with file_uuid_to_metadata := insertA s.file_uuid_to_metadata id (f r) }

/-- `sanitize_file_path`. -/
def sanitizeFilePath (file_path : Str) : Str :=
  let storage_part := match splitOnceSub dcolon file_path with
    | some ab => ab.1
    | none => file_path
  let path_part := match splitOnceSub dcolon file_path with
    | some ab => ab.2
    | none => []
  let sanitized := path_part.map (fun c => if c = ':' then ';' else c)
  let sanitized := collapseSlashes sanitized
  let sanitized := trimSlashes sanitized
  storage_part ++ dcolon ++ sanitized

/-- `split_path`. -/
def splitPath (full_path : Str) : Str × Str :=
  match rsplitOnceChar '/' full_path with
  | some ab => (ab.1, ab.2)
  | none =>
    match splitOnceSub dcolon full_path with
    | some ab => (ab.1 ++ dcolon, ab.2)
    | none => ([], full_path)

/-- `ensure_root_folder`. -/
def ensureRootFolder (s : State) (storage_location : StorageLocationEnum)
    (user_id : UserID) (now : Nat) : FolderUUID × State :=
  let root_path := storage_location.toStr ++ dcolon
  match lookupA s.full_folder_path_to_uuid root_path with
  | some uuid => (uuid, s)
  | none =>
    let gen := generateUniqueId s.id_counter
    let root_folder : FolderMetadata :=
      { id := gen.1, original_folder_name := [], parent_folder_uuid := none,
        subfolder_uuids := [], file_uuids := [], full_folder_path := root_path,
        tags := [], owner := user_id, created_date := now,
        storage_location := storage_location,
        last_changed_unix_ms := now / 1000000, deleted := false }
    (gen.1,
      { s with
        full_folder_path_to_uuid := insertA s.full_folder_path_to_uuid root_path gen.1,
        folder_uuid_to_metadata := insertA s.folder_uuid_to_metadata gen.1 root_folder,
        id_counter := gen.2 })

/-- The `for (i, part) in path_parts.iter().enumerate()` loop of
`create_folder`; falling off the end means the folder already existed. -/
def createFolderLoop (storage_location : StorageLocationEnum) (user_id : UserID)
    (now : Nat) :
    List Str → Str → FolderUUID → State → Except String FolderMetadata × State
  | [], _, _, s => (.error "Folder already exists", s)
  | part :: rest, current_path, parent_folder_uuid, s =>
    let current_path := current_path ++ part ++ ['/']
    match lookupA s.full_folder_path_to_uuid current_path with
    | none =>
      let gen := generateUniqueId s.id_counter
      let new_folder : FolderMetadata :=
        { id := gen.1, original_folder_name := part,
          parent_folder_uuid := some parent_folder_uuid,
          subfolder_uuids := [], file_uuids := [], full_folder_path := current_path,
          tags := [], owner := user_id, created_date := now,
          storage_location := storage_location,
          last_changed_unix_ms := now / 1000000, deleted := false }
      let s :=
        { s with
          full_folder_path_to_uuid :=
            insertA s.full_folder_path_to_uuid current_path gen.1,
          folder_uuid_to_metadata :=
            insertA s.folder_uuid_to_metadata gen.1 new_folder,
          id_counter := gen.2 }
      let s := s.modifyFolder parent_folder_uuid (fun parent =>
        { parent with subfolder_uuids := parent.subfolder_uuids ++ [gen.1] })
      if rest.isEmpty then (.ok new_folder, s)
      else createFolderLoop storage_location user_id now rest current_path gen.1 s
    | some uuid =>
      createFolderLoop storage_location user_id now rest current_path uuid s

/-- The body of `create_folder` after the path has been sanitized and given
its trailing slash. -/
def createFolderSan (s : State) (sanitized_path : Str)
    (storage_location : StorageLocationEnum) (user_id : UserID) (now : Nat) :
    Except String FolderMetadata × State :=
  if sanitized_path.isEmpty then (.error "Invalid folder path", s)
  else
    match splitSub dcolon sanitized_path with
    | p0 :: p1 :: ps =>
      let storage_part := p0
      let folder_path := List.intercalate dcolon (p1 :: ps)
      if storage_part ≠ storage_location.toStr then
        (.error "Storage location mismatch", s)
      else
        let path_parts := (splitChar '/' folder_path).filter (fun x => ¬ x.isEmpty)
        let rootRes := s.ensureRootFolder storage_location user_id now
        let parent_folder_uuid := rootRes.1
        let s := rootRes.2
        let current_path := storage_part ++ dcolon
        if path_parts.isEmpty then
          match lookupA s.folder_uuid_to_metadata parent_folder_uuid with
          | some f => (.ok f, s)
          | none => (.error "Parent folder not found", s)
        else
          createFolderLoop storage_location user_id now path_parts current_path
            parent_folder_uuid s
    | _ => (.error "Invalid folder path format", s)

/-- `create_folder`.  (`split("::")` followed by `join("::")` of the tail is
split-at-first-occurrence, which is what `splitSub`/`intercalate` compute.) -/
def createFolder (s : State) (full_folder_path : Str)
    (storage_location : StorageLocationEnum) (user_id : UserID) (now : Nat) :
    Except String FolderMetadata × State :=
  let sanitized_path := sanitizeFilePath full_folder_path
  let sanitized_path :=
    if sanitized_path.getLast? = some '/' then sanitized_path
    else sanitized_path ++ ['/']
  s.createFolderSan sanitized_path storage_location user_id now

/-- `update_folder_file_uuids`. -/
def updateFolderFileUuids (s : State) (folder_uuid : FolderUUID)
    (file_uuid : FileUUID) (is_add : Bool) : State :=
  s.modifyFolder folder_uuid (fun folder =>
    if is_add then
      if folder.file_uuids.contains file_uuid then folder
      else { folder with file_uuids := folder.file_uuids ++ [file_uuid] }
    else
      { folder with file_uuids := folder.file_uuids.filter (fun uuid => uuid ≠ file_uuid) })

/-- The `for part in path_parts[1].split('/')` loop of `ensure_folder_structure`. -/
def ensureFolderLoop (storage_location : StorageLocationEnum) (user_id : UserID)
    (now : Nat) : List Str → Str → FolderUUID → State → FolderUUID × State
  | [], _, parent_uuid, s => (parent_uuid, s)
  | part :: rest, current_path, parent_uuid, s =>
    let current_path := current_path ++ part ++ ['/']
    match lookupA s.full_folder_path_to_uuid current_path with
    | none =>
      let gen := generateUniqueId s.id_counter
      let new_folder : FolderMetadata :=
        { id := gen.1, original_folder_name := part,
          parent_folder_uuid := some parent_uuid,
          subfolder_uuids := [], file_uuids := [], full_folder_path := current_path,
          tags := [], owner := user_id, created_date := now,
          storage_location := storage_location,
          last_changed_unix_ms := now / 1000000, deleted := false }
      let s :=
        { s with
          full_folder_path_to_uuid :=
            insertA s.full_folder_path_to_uuid current_path gen.1,
          folder_uuid_to_metadata :=
            insertA s.folder_uuid_to_metadata gen.1 new_folder,
          id_counter := gen.2 }
      let s := s.modifyFolder parent_uuid (fun parent =>
        if parent.subfolder_uuids.contains gen.1 then parent
        else { parent with subfolder_uuids := parent.subfolder_uuids ++ [gen.1] })
      ensureFolderLoop storage_location user_id now rest current_path gen.1 s
    | some uuid =>
      ensureFolderLoop storage_location user_id now rest current_path uuid s

/-- `ensure_folder_structure`.  Indexing `path_parts[1]` on a path without
`"::"` is an out-of-bounds panic in Rust, modelled as `none` (trap). -/
def ensureFolderStructure (s : State) (folder_path : Str)
    (storage_location : StorageLocationEnum) (user_id : UserID) (now : Nat) :
    Option (FolderUUID × State) :=
  match splitSub dcolon folder_path with
  | p0 :: p1 :: _ =>
    let current_path := p0 ++ dcolon
    let rootRes := s.ensureRootFolder storage_location user_id now
    some (ensureFolderLoop storage_location user_id now
      ((splitChar '/' p1).filter (fun p => ¬ p.isEmpty)) current_path rootRes.1 rootRes.2)
  | _ => none

/-- `upsert_file_to_hash_tables`.  The `unwrap` of the record behind an
existing path binding is a panic (hence `none`) when the record is missing.
The `u32` version increment wraps modulo `2 ^ 32`. -/
def upsertFileToHashTables (s : State) (file_path : Str)
    (storage_location : StorageLocationEnum) (user_id : UserID) (now : Nat) :
    Option (FileUUID × State) :=
  let full_file_path := sanitizeFilePath file_path
  let gen := generateUniqueId s.id_counter
  let new_file_uuid := gen.1
  let s := { s with id_counter := gen.2 }
  let fp := splitPath full_file_path
  match s.ensureFolderStructure fp.1 storage_location user_id now with
  | none => none
  | some (folder_uuid, s) =>
    let versionInfo : Option (Nat × Option FileUUID) :=
      match lookupA s.full_file_path_to_uuid full_file_path with
      | some existing_uuid =>
        match lookupA s.file_uuid_to_metadata existing_uuid with
        | none => none
        | some existing_file =>
          some ((existing_file.file_version + 1) % 2 ^ 32, some existing_uuid)
      | none => some (1, none)
    match versionInfo with
    | none => none
    | some (file_version, existing_file_uuid) =>
      let file_name := fp.2
      let extension := lastSegmentAfter '.' file_name
      let file_metadata : FileMetadata :=
        { id := new_file_uuid, original_file_name := file_name,
          folder_uuid := folder_uuid, file_version := file_version,
          prior_version := existing_file_uuid, next_version := none,
          extension := extension, full_file_path := full_file_path, tags := [],
          owner := user_id, created_date := now,
          storage_location := storage_location, file_size := 0, raw_url := [],
          last_changed_unix_ms := now / 1000000, deleted := false }
      let s :=
        { s with
          file_uuid_to_metadata :=
            insertA s.file_uuid_to_metadata new_file_uuid file_metadata,
          full_file_path_to_uuid :=
            insertA s.full_file_path_to_uuid full_file_path new_file_uuid }
      let s := s.updateFolderFileUuids folder_uuid new_file_uuid true
      let s :=
        match existing_file_uuid with
        | some existing_uuid =>
          let s := s.modifyFile existing_uuid
            (fun f => { f with next_version := some new_file_uuid })
          s.updateFolderFileUuids folder_uuid existing_uuid false
        | none => s
      some (new_file_uuid, s)

/-- `get_folder_by_id`. -/
def getFolderById (s : State) (folder_id : FolderUUID) : Option FolderMetadata :=
  lookupA s.folder_uuid_to_metadata folder_id

/-- `get_file_by_id`. -/
def getFileById (s : State) (file_id : FileUUID) : Option FileMetadata :=
  lookupA s.file_uuid_to_metadata file_id

/-- `get_folder_by_path`. -/
def getFolderByPath (s : State) (path : Str) : Option FolderMetadata :=
  match lookupA s.full_folder_path_to_uuid path with
  | some uuid => lookupA s.folder_uuid_to_metadata uuid
  | none => none

/-- `get_file_by_path`. -/
def getFileByPath (s : State) (path : Str) : Option FileMetadata :=
  match lookupA s.full_file_path_to_uuid path with
  | some uuid => lookupA s.file_uuid_to_metadata uuid
  | none => none

end State

/-- Erase the binding at `oldp`, point the record's path at `np`, and bind
`np` to the id: the three-statement rebind `update_subfolder_paths` performs
on a file. -/
def State.rebindFile (s : State) (fid : FileUUID) (oldp np : Str) : State :=
  let s := { s with full_file_path_to_uuid := eraseA s.full_file_path_to_uuid oldp }
  let s := s.modifyFile fid (fun f => { f with full_file_path := np })
  { s with full_file_path_to_uuid := insertA s.full_file_path_to_uuid np fid }

/-- The same rebind on a folder. -/
def State.rebindFolder (s : State) (fid : FolderUUID) (oldp np : Str) : State :=
  let s := { s with full_folder_path_to_uuid := eraseA s.full_folder_path_to_uuid oldp }
  let s := s.modifyFolder fid (fun f => { f with full_folder_path := np })
  { s with full_folder_path_to_uuid := insertA s.full_folder_path_to_uuid np fid }

/-- The `for file_id in &folder.file_uuids` loop of `update_subfolder_paths`. -/
def uspFiles : List FileUUID → Str → Str → State → State
  | [], _, _, s => s
  | file_id :: rest, old_path, new_path, s =>
    match lookupA s.file_uuid_to_metadata file_id with
    | none => uspFiles rest old_path new_path s
    | some file =>
      let old_file_path := file.full_file_path
      let new_file_path := replaceStr old_path new_path old_file_path
      uspFiles rest old_path new_path (s.rebindFile file_id old_file_path new_file_path)

/-! `update_subfolder_paths`: fueled mutual recursion over the subtree.  The
fuel decreases on every descent and every processed list entry, so the
recursion is structural; `2 * (number of folder records) + 2` is enough fuel
for every state whose folder graph is a forest (see the fuel lemmas below). -/

mutual

/-- `update_subfolder_paths(folder_id, old_path, new_path)`. -/
def uspGo : Nat → FolderUUID → Str → Str → State → Option State
  | 0, _, _, _, _ => none
  | fuel + 1, folder_id, old_path, new_path, s =>
    match lookupA s.folder_uuid_to_metadata folder_id with
    | none => some s
    | some folder =>
      match uspSubs fuel folder.subfolder_uuids old_path new_path s with
      | none => none
      | some s => some (uspFiles folder.file_uuids old_path new_path s)

/-- The `for subfolder_id in &folder.subfolder_uuids` loop. -/
def uspSubs : Nat → List FolderUUID → Str → Str → State → Option State
  | _, [], _, _, s => some s
  | 0, _ :: _, _, _, _ => none
  | fuel + 1, subfolder_id :: rest, old_path, new_path, s =>
    match lookupA s.folder_uuid_to_metadata subfolder_id with
    | none => uspSubs fuel rest old_path new_path s
    | some subfolder =>
      let old_subfolder_path := subfolder.full_folder_path
      let new_subfolder_path := replaceStr old_path new_path old_subfolder_path
      let s := s.rebindFolder subfolder_id old_subfolder_path new_subfolder_path
      match uspGo fuel subfolder_id old_subfolder_path new_subfolder_path s with
      | none => none
      | some s => uspSubs fuel rest old_path new_path s

end

namespace State

/-- The modify-record, unbind-old-path, bind-new-path block of
`rename_folder`. -/
def renameBindFolder (s : State) (folder_id : FolderUUID) (new_name : Str)
    (old_path new_folder_path : Str) (now : Nat) : State :=
  let s := s.modifyFolder folder_id (fun f =>
    { f with original_folder_name := new_name,
             full_folder_path := new_folder_path,
             last_changed_unix_ms := now / 1000000 })
  let s :=
    { s with full_folder_path_to_uuid :=
        eraseA s.full_folder_path_to_uuid old_path }
  { s with full_folder_path_to_uuid :=
      insertA s.full_folder_path_to_uuid new_folder_path folder_id }

/-- The modify-record, unbind-old-path, bind-new-path block of
`rename_file`. -/
def renameBindFile (s : State) (file_id : FileUUID) (new_name : Str)
    (old_path new_path : Str) (now : Nat) : State :=
  let s := s.modifyFile file_id (fun f =>
    { f with original_file_name := new_name, full_file_path := new_path,
             last_changed_unix_ms := now / 1000000,
             extension := lastSegmentAfter '.' new_name })
  let s :=
    { s with full_file_path_to_uuid :=
        eraseA s.full_file_path_to_uuid old_path }
  { s with full_file_path_to_uuid :=
      insertA s.full_file_path_to_uuid new_path file_id }

/-- The remove-record, remove-path-binding block of `delete_file`. -/
def purgeFile (s : State) (file_id : FileUUID) (p : Str) : State :=
  let s := { s with file_uuid_to_metadata := eraseA s.file_uuid_to_metadata file_id }
  { s with full_file_path_to_uuid := eraseA s.full_file_path_to_uuid p }

/-- `rename_folder`. -/
def renameFolder (s : State) (folder_id : FolderUUID) (new_name : Str) (now : Nat) :
    Option (Except String Unit × State) :=
  match lookupA s.folder_uuid_to_metadata folder_id with
  | none => some (.error "Folder not found", s)
  | some folder =>
    let old_path := folder.full_folder_path
    match splitOnceSub dcolon old_path with
    | none => some (.error "Invalid folder structure", s)
    | some (storage_part, restPath) =>
      let folder_path := trimEndSlashes restPath
      let pp :=
        match rsplitOnceChar '/' folder_path with
        | some ab => (ab.1, ab.2)
        | none => ([], folder_path)
      let parent_path := pp.1
      let new_folder_path :=
        if parent_path.isEmpty then storage_part ++ dcolon ++ new_name ++ ['/']
        else storage_part ++ dcolon ++ parent_path ++ ['/'] ++ new_name ++ ['/']
      if (lookupA s.full_folder_path_to_uuid new_folder_path).isSome then
        some (.error "A folder with the new name already exists in the parent directory", s)
      else
        let s := s.renameBindFolder folder_id new_name old_path new_folder_path now
        match uspGo (2 * s.folder_uuid_to_metadata.length + 2) folder_id old_path
            new_folder_path s with
        | none => none
        | some s =>
          if parent_path.isEmpty then some (.ok (), s)
          else
            let parent_full_path := storage_part ++ dcolon ++ parent_path
            match lookupA s.full_folder_path_to_uuid parent_full_path with
            | some parent_uuid =>
              let s := s.modifyFolder parent_uuid (fun parent =>
                if parent.subfolder_uuids.contains folder_id then parent
                else { parent with subfolder_uuids := parent.subfolder_uuids ++ [folder_id] })
              some (.ok (), s)
            | none => some (.error "Parent folder not found", s)

/-- `rename_file`. -/
def renameFile (s : State) (file_id : FileUUID) (new_name : Str) (now : Nat) :
    Except String Unit × State :=
  match lookupA s.file_uuid_to_metadata file_id with
  | none => (.error "File not found", s)
  | some file =>
    let old_path := file.full_file_path
    match splitOnceSub dcolon old_path with
    | none => (.error "Invalid file structure", s)
    | some (storage_part, file_path) =>
      let new_path :=
        match rsplitOnceChar '/' file_path with
        | some ab => storage_part ++ dcolon ++ ab.1 ++ ['/'] ++ new_name
        | none => storage_part ++ dcolon ++ new_name
      if (lookupA s.full_file_path_to_uuid new_path).isSome then
        (.error "A file with this name already exists", s)
      else
        (.ok (), s.renameBindFile file_id new_name old_path new_path now)

/-- `delete_file`. -/
def deleteFile (s : State) (file_id : FileUUID) : Except String Unit × State :=
  match lookupA s.file_uuid_to_metadata file_id with
  | none => (.error "File not found", s)
  | some file =>
    let s := s.purgeFile file_id file.full_file_path
    let s :=
      match file.prior_version with
      | some prior => s.modifyFile prior (fun pf => { pf with next_version := file.next_version })
      | none => s
    let s :=
      match file.next_version with
      | some nxt => s.modifyFile nxt (fun nf => { nf with prior_version := file.prior_version })
      | none => s
    (.ok (), s)

end State

/-- The `for file_id in file_ids { self.delete_file(&file_id)?; }` loop. -/
def delFiles : List FileUUID → State → Except String Unit × State
  | [], s => (.ok (), s)
  | file_id :: rest, s =>
    match s.deleteFile file_id with
    | (.error e, s) => (.error e, s)
    | (.ok _, s) => delFiles rest s

mutual

/-- `delete_folder(folder_id)` with explicit fuel. -/
def delGo : Nat → FolderUUID → Nat → State → Option (Except String Unit × State)
  | 0, _, _, _ => none
  | fuel + 1, folder_id, now, s =>
    match lookupA s.folder_uuid_to_metadata folder_id with
    | none => some (.error "Folder not found", s)
    | some folder =>
      let s :=
        { s with full_folder_path_to_uuid :=
            eraseA s.full_folder_path_to_uuid folder.full_folder_path }
      match delSubs fuel folder.subfolder_uuids now s with
      | none => none
      | some (.error e, s) => some (.error e, s)
      | some (.ok _, s) =>
        match delFiles folder.file_uuids s with
        | (.error e, s) => some (.error e, s)
        | (.ok _, s) =>
          let s := s.modifyFolder folder_id (fun f =>
            { f with last_changed_unix_ms := now / 1000000, deleted := true })
          some (.ok (), s)

/-- The `for subfolder_id in subfolder_ids { self.delete_folder(&subfolder_id)?; }` loop. -/
def delSubs : Nat → List FolderUUID → Nat → State → Option (Except String Unit × State)
  | _, [], _, s => some (.ok (), s)
  | 0, _ :: _, _, _ => none
  | fuel + 1, sid :: rest, now, s =>
    match delGo fuel sid now s with
    | none => none
    | some (.error e, s) => some (.error e, s)
    | some (.ok _, s) => delSubs fuel rest now s

end

namespace State

/-- `delete_folder`, with fuel sufficient for every forest-shaped state. -/
def deleteFolder (s : State) (folder_id : FolderUUID) (now : Nat) :
    Option (Except String Unit × State) :=
  delGo (2 * s.folder_uuid_to_metadata.length + 2) folder_id now s

/-- The `while let Some(version_id) = current_version` walk of
`upsert_cloud_file_with_local_sync`: the chain members that have records,
starting at the given id and following `prior_version`.  A missing record
breaks the loop; running out of fuel models the non-terminating walk on a
cyclic chain (a trap). -/
def chainIdsGo (s : State) : Nat → Option FileUUID → Option (List FileUUID)
  | _, none => some []
  | 0, some _ => none
  | fuel + 1, some id =>
    match lookupA s.file_uuid_to_metadata id with
    | none => some []
    | some f => (chainIdsGo s fuel f.prior_version).map (fun l => id :: l)

/-- `upsert_cloud_file_with_local_sync`.  The initial `unwrap` panics (traps)
when the id has no record.  The per-iteration `retain` calls of the chain
walk only touch the folder's `file_uuids` list, which the walk itself never
reads, so they are equivalent to one filter over the collected chain. -/
def upsertCloudFileWithLocalSync (s : State) (file_id : FileUUID)
    (file_metadata : FileMetadata) (caller : UserID) (now : Nat) :
    Option (Except String FileUUID × State) :=
  match lookupA s.file_uuid_to_metadata file_id with
  | none => none
  | some existing_file =>
    let new_full_file_path := sanitizeFilePath file_metadata.full_file_path
    let gen := generateUniqueId s.id_counter
    let new_file_uuid := gen.1
    let s := { s with id_counter := gen.2 }
    let fp := splitPath new_full_file_path
    match s.ensureFolderStructure fp.1 file_metadata.storage_location caller now with
    | none => none
    | some (folder_uuid, s) =>
      match s.chainIdsGo (s.file_uuid_to_metadata.length + 1) (some file_id) with
      | none => none
      | some chain =>
        let s := s.modifyFolder folder_uuid (fun folder =>
          { folder with file_uuids :=
              folder.file_uuids.filter (fun uuid => ¬ chain.contains uuid) })
        let extension := lastSegmentAfter '.' fp.2
        let new_file_metadata : FileMetadata :=
          { id := new_file_uuid, original_file_name := fp.2,
            folder_uuid := folder_uuid,
            file_version := (existing_file.file_version + 1) % 2 ^ 32,
            prior_version := some existing_file.id, next_version := none,
            extension := extension, full_file_path := new_full_file_path,
            tags := [], owner := caller,
            created_date := file_metadata.created_date,
            storage_location := file_metadata.storage_location,
            file_size := file_metadata.file_size, raw_url := file_metadata.raw_url,
            last_changed_unix_ms :=
              Nat.lor file_metadata.last_changed_unix_ms (now / 1000000),
            deleted := file_metadata.deleted }
        let s :=
          { s with
            file_uuid_to_metadata :=
              insertA s.file_uuid_to_metadata new_file_uuid new_file_metadata,
            full_file_path_to_uuid :=
              insertA s.full_file_path_to_uuid new_full_file_path new_file_uuid }
        let s := s.modifyFolder folder_uuid (fun folder =>
          { folder with file_uuids :=
              (folder.file_uuids.filter (fun uuid => uuid ≠ new_file_uuid)) ++ [new_file_uuid] })
        let s := s.modifyFile file_id (fun f => { f with next_version := some new_file_uuid })
        some (.ok new_file_uuid, s)

/-- `upsert_cloud_folder_with_local_sync`.  `get_mut(..).unwrap()` panics
(traps) when the id has no record; otherwise the record is overwritten in
place and the path indices are left untouched. -/
def upsertCloudFolderWithLocalSync (s : State) (folder_id : FolderUUID)
    (folder_metadata : FolderMetadata) (now : Nat) :
    Option (Except String FolderUUID × State) :=
  match lookupA s.folder_uuid_to_metadata folder_id with
  | none => none
  | some existing_folder =>
    let updated : FolderMetadata :=
      { existing_folder with
        original_folder_name := folder_metadata.original_folder_name,
        tags := folder_metadata.tags,
        storage_location := folder_metadata.storage_location,
        full_folder_path := folder_metadata.full_folder_path,
        parent_folder_uuid := folder_metadata.parent_folder_uuid,
        deleted := folder_metadata.deleted,
        last_changed_unix_ms :=
          Nat.lor folder_metadata.last_changed_unix_ms (now / 1000000) }
    some (.ok folder_id,
      { s with folder_uuid_to_metadata :=
          insertA s.folder_uuid_to_metadata folder_id updated })

end State

/-! ## `fetch_files_at_folder_path` -/

structure FetchFilesAtFolderPathConfig : Type where
  full_folder_path : Str
  limit : Nat
  after : Nat
  deriving DecidableEq

structure FetchFilesResult : Type where
  folders : List FolderMetadata
  files : List FileMetadata
  total : Nat
  has_more : Bool
  deriving DecidableEq

/-- `FetchFilesResult::empty`. -/
def FetchFilesResult.emptyResult : FetchFilesResult :=
  { folders := [], files := [], total := 0, has_more := false }

/-- A Rust slice expression `l[a..b]`: panics (`none`) unless `a ≤ b ≤ l.len()`. -/
def sliceOpt {α : Type} (l : List α) (a b : Nat) : Option (List α) :=
  if a ≤ b ∧ b ≤ l.length then some ((l.drop a).take (b - a)) else none

namespace State

/-- `fetch_files_at_folder_path`.  The slice expressions panic (trap) when the
pagination indices fall outside the collected sequence. -/
def fetchFilesAtFolderPath (s : State) (config : FetchFilesAtFolderPathConfig) :
    Option FetchFilesResult :=
  match lookupA s.full_folder_path_to_uuid config.full_folder_path with
  | none => some FetchFilesResult.emptyResult
  | some folder_uuid =>
    match lookupA s.folder_uuid_to_metadata folder_uuid with
    | none => some FetchFilesResult.emptyResult
    | some folder =>
      let folders := folder.subfolder_uuids.filterMap
        (fun u => lookupA s.folder_uuid_to_metadata u)
      let files := folder.file_uuids.filterMap
        (fun u => lookupA s.file_uuid_to_metadata u)
      let total_items := folders.length + files.length
      let start := config.after
      let stop := min (start + config.limit) total_items
      if start < folders.length then
        match sliceOpt folders start (min stop folders.length) with
        | none => none
        | some result_folders =>
          match (if folders.length < stop then sliceOpt files 0 (stop - folders.length)
                 else some []) with
          | none => none
          | some result_files =>
            some { folders := result_folders, files := result_files,
                   total := result_folders.length + result_files.length,
                   has_more := stop < total_items }
      else
        match sliceOpt files (start - folders.length) (stop - folders.length) with
        | none => none
        | some result_files =>
          some { folders := [], files := result_files,
                 total := result_files.length,
                 has_more := stop < total_items }

end State

/-! ## Operations and reachability -/

/-- One invocation of an exposed mutating entry point, with the ambient inputs
(`ic_cdk::api::time()`, the caller) as explicit data. -/
inductive Op : Type where
  | createFolder (path : Str) (loc : StorageLocationEnum) (user : UserID) (now : Nat)
  | upsertFile (path : Str) (loc : StorageLocationEnum) (user : UserID) (now : Nat)
  | renameFolder (id : FolderUUID) (newName : Str) (now : Nat)
  | renameFile (id : FileUUID) (newName : Str) (now : Nat)
  | deleteFolder (id : FolderUUID) (now : Nat)
  | deleteFile (id : FileUUID)
  | upsertCloudFile (id : FileUUID) (meta : FileMetadata) (caller : UserID) (now : Nat)
  | upsertCloudFolder (id : FolderUUID) (meta : FolderMetadata) (now : Nat)

/-- Applying one operation to the state.  A trap (`none`) rolls the message
back on the Internet Computer, so the state is unchanged; an `Err` return is
an ordinary reply and keeps whatever the operation wrote. -/
def step (s : State) : Op → State
  | .createFolder p loc u now => (s.createFolder p loc u now).2
  | .upsertFile p loc u now =>
    match s.upsertFileToHashTables p loc u now with
    | none => s
    | some r => r.2
  | .renameFolder id n now =>
    match s.renameFolder id n now with
    | none => s
    | some r => r.2
  | .renameFile id n now => (s.renameFile id n now).2
  | .deleteFolder id now =>
    match s.deleteFolder id now with
    | none => s
    | some r => r.2
  | .deleteFile id => (s.deleteFile id).2
  | .upsertCloudFile id meta caller now =>
    match s.upsertCloudFileWithLocalSync id meta caller now with
    | none => s
    | some r => r.2
  | .upsertCloudFolder id meta now =>
    match s.upsertCloudFolderWithLocalSync id meta now with
    | none => s
    | some r => r.2

/-- Running a sequence of operations from a state. -/
def runOps : State → List Op → State
  | s, [] => s
  | s, op :: rest => runOps (step s op) rest

instance {ε α : Type} [DecidableEq ε] [DecidableEq α] : DecidableEq (Except ε α)
  | .error x, .error y =>
    decidable_of_iff (x = y) ⟨fun h => by rw [h], fun h => by injection h⟩
  | .error _, .ok _ => isFalse (fun h => Except.noConfusion h)
  | .ok _, .error _ => isFalse (fun h => Except.noConfusion h)
  | .ok x, .ok y =>
    decidable_of_iff (x = y) ⟨fun h => by rw [h], fun h => by injection h⟩

/-! ## Basic lemmas about the association-list maps -/

section MapLemmas

variable {κ α : Type} [DecidableEq κ]

theorem lookupA_filterNe (m : List (κ × α)) (k q : κ) :
    lookupA (m.filter (fun kv => kv.1 ≠ k)) q =
      if q = k then none else lookupA m q := by
  induction m with
  | nil => by_cases h : q = k <;> simp [lookupA, h]
  | cons kv rest ih =>
    obtain ⟨k1, v1⟩ := kv
    by_cases hk : k1 = k
    · subst hk
      have hcond : (decide ((k1, v1).1 ≠ k1)) = false := by simp
      rw [List.filter_cons, hcond]
      simp only [Bool.false_eq_true, if_false]
      rw [ih]
      by_cases hq : q = k1
      · rw [if_pos hq, if_pos hq]
      · have hq2 : ¬ k1 = q := fun h => hq h.symm
        rw [if_neg hq, if_neg hq, lookupA, if_neg hq2]
    · have hcond : (decide ((k1, v1).1 ≠ k)) = true := by simp [hk]
      rw [List.filter_cons, hcond]
      simp only [if_true]
      rw [lookupA, lookupA]
      by_cases hq : k1 = q
      · have hqk : ¬ q = k := fun h => hk (hq.trans h)
        rw [if_pos hq, if_neg hqk, if_pos hq]
      · rw [if_neg hq, if_neg hq, ih]

/-- Looking up after `eraseA`. -/
theorem lookupA_eraseA (m : List (κ × α)) (k q : κ) :
    lookupA (eraseA m k) q = if q = k then none else lookupA m q :=
  lookupA_filterNe m k q

/-- Looking up after `insertA`. -/
theorem lookupA_insertA (m : List (κ × α)) (k q : κ) (v : α) :
    lookupA (insertA m k v) q = if q = k then some v else lookupA m q := by
  unfold insertA
  rw [lookupA]
  by_cases h : q = k
  · rw [if_pos (h.symm), if_pos h]
  · have h2 : ¬ k = q := fun hh => h hh.symm
    rw [if_neg h2, if_neg h, lookupA_filterNe, if_neg h]

theorem lookupA_insertA_self (m : List (κ × α)) (k : κ) (v : α) :
    lookupA (insertA m k v) k = some v := by
  rw [lookupA_insertA, if_pos rfl]

theorem lookupA_insertA_ne (m : List (κ × α)) (k q : κ) (v : α) (h : q ≠ k) :
    lookupA (insertA m k v) q = lookupA m q := by
  rw [lookupA_insertA, if_neg h]

theorem lookupA_eraseA_self (m : List (κ × α)) (k : κ) :
    lookupA (eraseA m k) k = none := by
  rw [lookupA_eraseA, if_pos rfl]

theorem lookupA_eraseA_ne (m : List (κ × α)) (k q : κ) (h : q ≠ k) :
    lookupA (eraseA m k) q = lookupA m q := by
  rw [lookupA_eraseA, if_neg h]

end MapLemmas

/-! ## Projection lemmas for the record modifiers -/

theorem State.modifyFolder_file_map (s : State) (id : FolderUUID)
    (g : FolderMetadata → FolderMetadata) :
    (s.modifyFolder id g).file_uuid_to_metadata = s.file_uuid_to_metadata := by
  unfold State.modifyFolder; split <;> rfl

theorem State.modifyFolder_folder_index (s : State) (id : FolderUUID)
    (g : FolderMetadata → FolderMetadata) :
    (s.modifyFolder id g).full_folder_path_to_uuid = s.full_folder_path_to_uuid := by
  unfold State.modifyFolder; split <;> rfl

theorem State.modifyFolder_file_index (s : State) (id : FolderUUID)
    (g : FolderMetadata → FolderMetadata) :
    (s.modifyFolder id g).full_file_path_to_uuid = s.full_file_path_to_uuid := by
  unfold State.modifyFolder; split <;> rfl

theorem State.modifyFolder_counter (s : State) (id : FolderUUID)
    (g : FolderMetadata → FolderMetadata) :
    (s.modifyFolder id g).id_counter = s.id_counter := by
  unfold State.modifyFolder; split <;> rfl

theorem State.modifyFile_folder_map (s : State) (id : FileUUID)
    (g : FileMetadata → FileMetadata) :
    (s.modifyFile id g).folder_uuid_to_metadata = s.folder_uuid_to_metadata := by
  unfold State.modifyFile; split <;> rfl

theorem State.modifyFile_folder_index (s : State) (id : FileUUID)
    (g : FileMetadata → FileMetadata) :
    (s.modifyFile id g).full_folder_path_to_uuid = s.full_folder_path_to_uuid := by
  unfold State.modifyFile; split <;> rfl

theorem State.modifyFile_file_index (s : State) (id : FileUUID)
    (g : FileMetadata → FileMetadata) :
    (s.modifyFile id g).full_file_path_to_uuid = s.full_file_path_to_uuid := by
  unfold State.modifyFile; split <;> rfl

theorem State.modifyFile_counter (s : State) (id : FileUUID)
    (g : FileMetadata → FileMetadata) :
    (s.modifyFile id g).id_counter = s.id_counter := by
  unfold State.modifyFile; split <;> rfl

/-- Looking up in the folder map after `modifyFolder`. -/
theorem State.lookupA_modifyFolder (s : State) (id : FolderUUID)
    (g : FolderMetadata → FolderMetadata) (q : FolderUUID) :
    lookupA (s.modifyFolder id g).folder_uuid_to_metadata q =
      if q = id then (lookupA s.folder_uuid_to_metadata id).map g
      else lookupA s.folder_uuid_to_metadata q := by
  unfold State.modifyFolder
  cases h : lookupA s.folder_uuid_to_metadata id with
  | none =>
    simp only [Option.map_none]
    by_cases hq : q = id
    · subst hq; simp [h]
    · simp [if_neg hq]
  | some r =>
    simp only [Option.map_some]
    by_cases hq : q = id
    · subst hq; simp [lookupA_insertA_self]
    · simp [if_neg hq, lookupA_insertA_ne _ _ _ _ hq]

/-- Looking up in the file map after `modifyFile`. -/
theorem State.lookupA_modifyFile (s : State) (id : FileUUID)
    (g : FileMetadata → FileMetadata) (q : FileUUID) :
    lookupA (s.modifyFile id g).file_uuid_to_metadata q =
      if q = id then (lookupA s.file_uuid_to_metadata id).map g
      else lookupA s.file_uuid_to_metadata q := by
  unfold State.modifyFile
  cases h : lookupA s.file_uuid_to_metadata id with
  | none =>
    simp only [Option.map_none]
    by_cases hq : q = id
    · subst hq; simp [h]
    · simp [if_neg hq]
  | some r =>
    simp only [Option.map_some]
    by_cases hq : q = id
    · subst hq; simp [lookupA_insertA_self]
    · simp [if_neg hq, lookupA_insertA_ne _ _ _ _ hq]

/-! ## Concrete scenario states used by the counterexamples -/

/-- A fresh instance after `create_folder("BrowserCache::a/b")`: root folder
id 0, folder `a` id 1, folder `b` id 2. -/
def stateAB : State :=
  runOps initState
    [Op.createFolder "BrowserCache::a/b".data StorageLocationEnum.BrowserCache 7 0]

/-- A fresh instance after `create_folder("BrowserCache::a")`: root folder
id 0, folder `a` id 1. -/
def stateA : State :=
  runOps initState
    [Op.createFolder "BrowserCache::a".data StorageLocationEnum.BrowserCache 7 0]

/-- The record that `create_folder("BrowserCache::a")` returns on a fresh
instance (caller 7, time 0). -/
def folderARecord : FolderMetadata :=
  { id := 1, original_folder_name := "a".data, parent_folder_uuid := some 0,
    subfolder_uuids := [], file_uuids := [],
    full_folder_path := "BrowserCache::a/".data, tags := [], owner := 7,
    created_date := 0, storage_location := StorageLocationEnum.BrowserCache,
    last_changed_unix_ms := 0, deleted := false }

/-- A client-authored folder payload whose `full_folder_path` field is the
garbage string `ZZZ`. -/
def zzzFolderMeta : FolderMetadata :=
  { id := 0, original_folder_name := [], parent_folder_uuid := none,
    subfolder_uuids := [], file_uuids := [], full_folder_path := "ZZZ".data,
    tags := [], owner := 0, created_date := 0,
    storage_location := StorageLocationEnum.BrowserCache,
    last_changed_unix_ms := 0, deleted := false }

/-- A client-authored file payload targeting the path `BrowserCache::g.txt`. -/
def gFileMeta : FileMetadata :=
  { id := 0, original_file_name := "g.txt".data, folder_uuid := 0,
    file_version := 1, prior_version := none, next_version := none,
    extension := "txt".data, full_file_path := "BrowserCache::g.txt".data,
    tags := [], owner := 0, created_date := 11,
    storage_location := StorageLocationEnum.BrowserCache, file_size := 3,
    raw_url := [], last_changed_unix_ms := 5, deleted := false }

/-- `stateA` after the cloud-folder sync overwrote folder 1's path field with
`ZZZ` (the sync never touches the path index). -/
def stateSyncBroken : State :=
  runOps stateA [Op.upsertCloudFolder 1 zzzFolderMeta 0]

/-- `stateAB` after the (failing, but mutating) nested rename of folder 2 to
the name `BrowserCache::a`: folder 2 is now recorded and indexed at the path
`BrowserCache::a/BrowserCache::a/`, which contains the parent's path twice. -/
def stateTwistedB : State :=
  runOps stateAB [Op.renameFolder 2 "BrowserCache::a".data 3]

/-- `stateA` after upserting file `BrowserCache::a/f.txt` (file id 2) and then
deleting it by id: the purged id 2 is still listed in folder 1's `file_uuids`
because `delete_file` deliberately keeps it there. -/
def stateDangling : State :=
  runOps stateA
    [Op.upsertFile "BrowserCache::a/f.txt".data StorageLocationEnum.BrowserCache 7 0,
     Op.deleteFile 2]

/-! ## Claims -/

/-- C1 (code bug): the error return of a mutating operation is supposed to
leave the store untouched, but `rename_folder` on the nested folder
`BrowserCache::a/b/` (id 2) mutates first and fails afterwards: it renames the
record, rebinds the path index, and only then looks up the parent under
`BrowserCache::a` — without the trailing slash under which folder paths are
indexed — so it returns `Err("Parent folder not found")` while the state keeps
the rename: the new path `BrowserCache::a/c/` is bound and the old path
`BrowserCache::a/b/` is gone. -/
theorem C1_rename_folder_errors_after_mutating :
    (stateAB.renameFolder 2 "c".data 5).map Prod.fst =
      some (Except.error "Parent folder not found") ∧
    (stateAB.renameFolder 2 "c".data 5).map (fun r => r.2.full_folder_path_to_uuid) ≠
      some stateAB.full_folder_path_to_uuid ∧
    (stateAB.renameFolder 2 "c".data 5).map (fun r => r.2.folder_uuid_to_metadata) ≠
      some stateAB.folder_uuid_to_metadata ∧
    (stateAB.renameFolder 2 "c".data 5).map
        (fun r => lookupA r.2.full_folder_path_to_uuid "BrowserCache::a/c/".data) =
      some (some 2) ∧
    (stateAB.renameFolder 2 "c".data 5).map
        (fun r => lookupA r.2.full_folder_path_to_uuid "BrowserCache::a/b/".data) =
      some none := by
  decide

/-- C3 (code bug): `fetch_files_at_folder_path` is supposed never to error and
to clamp the requested slice, but with `after` greater than the folder's total
child count the slice expression
`files[start - folders.len()..end - folders.len()]` has its start beyond its
end and panics (traps).  Folder `BrowserCache::a/` exists and has no children;
`after = 1, limit = 1` traps, while an unresolvable folder path still returns
an empty page. -/
theorem C3_fetch_files_traps_when_after_exceeds_total :
    (lookupA stateA.full_folder_path_to_uuid "BrowserCache::a/".data).isSome ∧
    stateA.fetchFilesAtFolderPath
      { full_folder_path := "BrowserCache::a/".data, limit := 1, after := 1 } = none ∧
    stateA.fetchFilesAtFolderPath
      { full_folder_path := "BrowserCache::nosuch/".data, limit := 1, after := 7 } =
      some FetchFilesResult.emptyResult := by
  decide

/-- C7: both cloud-sync upserts set the written record's
`last_changed_unix_ms` to the bitwise OR of the incoming metadata's timestamp
and the current server time in milliseconds (`time() / 1_000_000`) — not a
maximum and not a plain overwrite. -/
theorem C7_sync_merge_timestamp_is_bitwise_or :
    (∀ (s : State) (id newId : FileUUID) (meta : FileMetadata) (caller : UserID)
        (now : Nat) (s2 : State),
      s.upsertCloudFileWithLocalSync id meta caller now = some (.ok newId, s2) →
      (lookupA s2.file_uuid_to_metadata newId).map FileMetadata.last_changed_unix_ms =
        some (Nat.lor meta.last_changed_unix_ms (now / 1000000))) ∧
    (∀ (s : State) (id : FolderUUID) (newId : FolderUUID) (meta : FolderMetadata)
        (now : Nat) (s2 : State),
      s.upsertCloudFolderWithLocalSync id meta now = some (.ok newId, s2) →
      (lookupA s2.folder_uuid_to_metadata id).map FolderMetadata.last_changed_unix_ms =
        some (Nat.lor meta.last_changed_unix_ms (now / 1000000))) := by
  constructor
  · intro s id newId meta caller now s2 h
    simp only [State.upsertCloudFileWithLocalSync] at h
    split at h
    · exact Option.noConfusion h
    · split at h
      · exact Option.noConfusion h
      · split at h
        · exact Option.noConfusion h
        · rename_i ex hex fu s1 hens chain hchain
          injection h with h
          injection h with h1 h2
          subst h2
          have hnew : newId = s.id_counter := by
            injection h1 with hx
            exact hx.symm
          subst hnew
          rw [State.lookupA_modifyFile]
          by_cases hq : s.id_counter = id
          · rw [if_pos hq]
            rw [State.modifyFolder_file_map]
            rw [lookupA_insertA]
            rw [if_pos (show id = (generateUniqueId s.id_counter).1 from hq.symm)]
            rfl
          · rw [if_neg hq]
            rw [State.modifyFolder_file_map]
            rw [lookupA_insertA]
            rw [if_pos (show s.id_counter = (generateUniqueId s.id_counter).1 from rfl)]
            rfl
  · intro s id newId meta now s2 h
    simp only [State.upsertCloudFolderWithLocalSync] at h
    split at h
    · exact Option.noConfusion h
    · injection h with h
      injection h with h1 h2
      subst h2
      rw [lookupA_insertA_self]
      rfl

/-- Witness for C7: a concrete state in which both cloud-sync upserts succeed;
the file upsert on `stateDangling`'s head file and the folder upsert on
folder 1 both produce the bitwise-OR timestamp (`5 ||| (7000000 / 1000000) = 7`,
`lor 5 7 = 7`). -/
theorem C7_witness :
    (lookupA ((runOps stateA
        [Op.upsertFile "BrowserCache::a/f.txt".data StorageLocationEnum.BrowserCache 7 0,
         Op.upsertCloudFile 2 gFileMeta 7 7000000]).file_uuid_to_metadata) 3).map
        FileMetadata.last_changed_unix_ms = some (Nat.lor 5 (7000000 / 1000000)) ∧
    (lookupA ((runOps stateA [Op.upsertCloudFolder 1 zzzFolderMeta 9000000]).folder_uuid_to_metadata) 1).map
        FolderMetadata.last_changed_unix_ms = some (Nat.lor 0 (9000000 / 1000000)) := by
  constructor
  · exact C7_sync_merge_timestamp_is_bitwise_or.1
      (runOps stateA [Op.upsertFile "BrowserCache::a/f.txt".data StorageLocationEnum.BrowserCache 7 0])
      2 3 gFileMeta 7 7000000 _ (by decide)
  · exact C7_sync_merge_timestamp_is_bitwise_or.2 stateA 1 1 zzzFolderMeta 9000000 _ (by decide)

/-- C10: for an id absent from the corresponding record map, each cloud-sync
upsert dereferences the failed lookup with `unwrap`, which panics (traps the
canister) instead of returning a not-found error. -/
theorem C10_cloud_sync_upserts_trap_on_missing_id :
    (∀ (s : State) (id : FileUUID) (meta : FileMetadata) (caller : UserID) (now : Nat),
      lookupA s.file_uuid_to_metadata id = none →
      s.upsertCloudFileWithLocalSync id meta caller now = none) ∧
    (∀ (s : State) (id : FolderUUID) (meta : FolderMetadata) (now : Nat),
      lookupA s.folder_uuid_to_metadata id = none →
      s.upsertCloudFolderWithLocalSync id meta now = none) := by
  constructor
  · intro s id meta caller now h
    unfold State.upsertCloudFileWithLocalSync
    rw [h]
  · intro s id meta now h
    unfold State.upsertCloudFolderWithLocalSync
    rw [h]

/-- Witness for C10 on the empty instance: id 0 is bound in neither map, and
both upserts trap. -/
theorem C10_witness :
    initState.upsertCloudFileWithLocalSync 0 gFileMeta 0 0 = none ∧
    initState.upsertCloudFolderWithLocalSync 0 zzzFolderMeta 0 = none :=
  ⟨C10_cloud_sync_upserts_trap_on_missing_id.1 initState 0 gFileMeta 0 0 rfl,
   C10_cloud_sync_upserts_trap_on_missing_id.2 initState 0 zzzFolderMeta 0 rfl⟩

/-- C2 counterexample: the state reached by `create_folder("BrowserCache::a")`
followed by `upsert_cloud_folder_with_local_sync(1, meta with path ZZZ)` binds
the path `BrowserCache::a/` to id 1 while the record's `full_folder_path`
field is `ZZZ`, so the path-index/record consistency half of the claimed
invariant fails in a reachable state. -/
theorem C2_counterexample_cloud_folder_sync_breaks_path_index :
    lookupA stateSyncBroken.full_folder_path_to_uuid "BrowserCache::a/".data = some 1 ∧
    (lookupA stateSyncBroken.folder_uuid_to_metadata 1).map FolderMetadata.full_folder_path =
      some "ZZZ".data ∧
    ("ZZZ".data : Str) ≠ "BrowserCache::a/".data := by
  decide

/-- C5 counterexample: in the reachable state `stateTwistedB`, folder 1
(path `BrowserCache::a/`) has the descendant folder 2 at path
`BrowserCache::a/BrowserCache::a/` (left by a failed-but-mutating nested
rename).  `rename_folder(1, "c")` succeeds, but `update_subfolder_paths` uses
`str::replace`, which replaces both occurrences of `BrowserCache::a/`, so the
prefix-substituted descendant path `BrowserCache::c/BrowserCache::a/` promised
by the claim resolves to nothing. -/
theorem C5_counterexample_successful_rename_misses_descendant_path :
    (lookupA stateTwistedB.folder_uuid_to_metadata 1).map FolderMetadata.subfolder_uuids =
      some [2] ∧
    (lookupA stateTwistedB.folder_uuid_to_metadata 1).map FolderMetadata.full_folder_path =
      some "BrowserCache::a/".data ∧
    (lookupA stateTwistedB.folder_uuid_to_metadata 2).map FolderMetadata.full_folder_path =
      some ("BrowserCache::a/".data ++ "BrowserCache::a/".data) ∧
    lookupA stateTwistedB.full_folder_path_to_uuid
      ("BrowserCache::a/".data ++ "BrowserCache::a/".data) = some 2 ∧
    (stateTwistedB.renameFolder 1 "c".data 4).map Prod.fst = some (.ok ()) ∧
    (stateTwistedB.renameFolder 1 "c".data 4).map
        (fun r => lookupA r.2.full_folder_path_to_uuid
          ("BrowserCache::c/".data ++ "BrowserCache::a/".data)) = some none := by
  decide

/-- C6 counterexample: folder 1 is present in the store, but
`delete_folder(1)` returns `Err("File not found")` because folder 1's
`file_uuids` still lists the already-purged file id 2 (left there by
`delete_file`) and the recursive deletion propagates the failure — so
`delete_folder` of a present id does not always return `Ok`. -/
theorem C6_counterexample_delete_folder_errors_on_present_id :
    (lookupA stateDangling.folder_uuid_to_metadata 1).isSome ∧
    (lookupA stateDangling.folder_uuid_to_metadata 1).map FolderMetadata.file_uuids =
      some [2] ∧
    lookupA stateDangling.file_uuid_to_metadata 2 = none ∧
    (stateDangling.deleteFolder 1 9).map Prod.fst = some (.error "File not found") := by
  decide

/-- The hypothesis for the amended C8: every folder-path binding points to an
existing record whose recorded path equals the bound key.  (States built by
the non-sync operations satisfy this; the empty initial state trivially
does.) -/
def FolderIndexConsistent (s : State) : Prop :=
  ∀ p id, lookupA s.full_folder_path_to_uuid p = some id →
    ∃ r, lookupA s.folder_uuid_to_metadata id = some r ∧ r.full_folder_path = p

/-- `get_folder_by_path` as an `Option.bind`. -/
theorem State.getFolderByPath_eq (s : State) (p : Str) :
    s.getFolderByPath p = (lookupA s.full_folder_path_to_uuid p).bind
      (fun uuid => lookupA s.folder_uuid_to_metadata uuid) := by
  unfold State.getFolderByPath
  cases lookupA s.full_folder_path_to_uuid p <;> rfl

/-- The record `ensure_root_folder` writes when the root is absent. -/
def rootFolderRecord (loc : StorageLocationEnum) (u : UserID) (now : Nat)
    (c : Nat) : FolderMetadata :=
  { id := c, original_folder_name := [], parent_folder_uuid := none,
    subfolder_uuids := [], file_uuids := [], full_folder_path := loc.toStr ++ dcolon,
    tags := [], owner := u, created_date := now, storage_location := loc,
    last_changed_unix_ms := now / 1000000, deleted := false }

/-- Case analysis on `ensure_root_folder`: the root path is either already
bound (state untouched) or a fresh root record and binding are inserted. -/
theorem State.ensureRootFolder_spec (s : State) (loc : StorageLocationEnum)
    (u : UserID) (now : Nat) :
    (∃ uuid, lookupA s.full_folder_path_to_uuid (loc.toStr ++ dcolon) = some uuid ∧
      s.ensureRootFolder loc u now = (uuid, s)) ∨
    (lookupA s.full_folder_path_to_uuid (loc.toStr ++ dcolon) = none ∧
      s.ensureRootFolder loc u now = (s.id_counter,
        { s with
          full_folder_path_to_uuid :=
            insertA s.full_folder_path_to_uuid (loc.toStr ++ dcolon) s.id_counter,
          folder_uuid_to_metadata :=
            insertA s.folder_uuid_to_metadata s.id_counter
              (rootFolderRecord loc u now s.id_counter),
          id_counter := (s.id_counter + 1) % 2 ^ 64 })) := by
  cases h : lookupA s.full_folder_path_to_uuid (loc.toStr ++ dcolon) with
  | some uuid =>
    refine Or.inl ⟨uuid, rfl, ?_⟩
    unfold State.ensureRootFolder
    simp only [h]
  | none =>
    refine Or.inr ⟨rfl, ?_⟩
    unfold State.ensureRootFolder
    simp only [h]
    try rfl

/-- After a successful exit of the `create_folder` loop, the returned folder's
canonical path resolves to its id. -/
theorem createFolderLoop_ok_roundtrip (loc : StorageLocationEnum) (u : UserID)
    (now : Nat) :
    ∀ (parts : List Str) (cur : Str) (parent : FolderUUID) (s : State)
      (f : FolderMetadata) (s2 : State),
      State.createFolderLoop loc u now parts cur parent s = (.ok f, s2) →
      (s2.getFolderByPath f.full_folder_path).map FolderMetadata.id = some f.id := by
  intro parts
  induction parts with
  | nil => intro cur parent s f s2 h; simp [State.createFolderLoop] at h
  | cons part rest ih =>
    intro cur parent s f s2 h
    rw [State.createFolderLoop] at h
    cases hb : lookupA s.full_folder_path_to_uuid (cur ++ part ++ ['/']) with
    | some uuid =>
      rw [hb] at h
      exact ih _ _ _ _ _ h
    | none =>
      rw [hb] at h
      by_cases hrest : rest.isEmpty
      · rw [if_pos hrest] at h
        injection h with h1 h2
        injection h1 with h1
        subst h1
        subst h2
        rw [State.getFolderByPath_eq]
        rw [State.modifyFolder_folder_index]
        rw [show
            ({ id := (generateUniqueId s.id_counter).1, original_folder_name := part,
               parent_folder_uuid := some parent, subfolder_uuids := [], file_uuids := [],
               full_folder_path := cur ++ part ++ ['/'], tags := [], owner := u,
               created_date := now, storage_location := loc,
               last_changed_unix_ms := now / 1000000, deleted := false } :
              FolderMetadata).full_folder_path = cur ++ part ++ ['/'] from rfl]
        rw [lookupA_insertA_self, Option.some_bind]
        rw [State.lookupA_modifyFolder]
        by_cases hp : (generateUniqueId s.id_counter).1 = parent
        · rw [if_pos hp, ← hp, lookupA_insertA_self]
          rfl
        · rw [if_neg hp, lookupA_insertA_self]
          rfl
      · rw [if_neg hrest] at h
        exact ih _ _ _ _ _ h

/-- `create_folder` body correctness for C8: a successful exit yields a folder
whose canonical path resolves to its id. -/
theorem createFolderSan_roundtrip (s : State) (sp : Str) (loc : StorageLocationEnum)
    (u : UserID) (now : Nat) (f : FolderMetadata) (s2 : State)
    (hcons : FolderIndexConsistent s)
    (h : s.createFolderSan sp loc u now = (.ok f, s2)) :
    (s2.getFolderByPath f.full_folder_path).map FolderMetadata.id = some f.id := by
  rw [State.createFolderSan] at h
  split at h
  · simp at h
  · split at h
    · dsimp only at h
      split at h
      · simp at h
      · split at h
        · rcases State.ensureRootFolder_spec s loc u now with
            ⟨uuid, hroot, heq⟩ | ⟨hroot, heq⟩ <;> rw [heq] at h <;> dsimp only at h
          · split at h
            · rename_i f0 hrec
              injection h with h1 h2
              injection h1 with h1
              subst h1
              subst h2
              obtain ⟨r, hr1, hr2⟩ := hcons _ _ hroot
              rw [hrec] at hr1
              injection hr1 with hr1
              subst hr1
              rw [State.getFolderByPath_eq, hr2, hroot, Option.some_bind, hrec]
              rfl
            · simp at h
          · split at h
            · rename_i f0 hrec
              rw [lookupA_insertA_self] at hrec
              injection hrec with hrec
              injection h with h1 h2
              injection h1 with h1
              subst h1
              subst h2
              subst hrec
              rw [State.getFolderByPath_eq]
              rw [show (rootFolderRecord loc u now s.id_counter).full_folder_path =
                loc.toStr ++ dcolon from rfl]
              rw [lookupA_insertA_self, Option.some_bind, lookupA_insertA_self]
              rfl
            · rename_i hrec
              rw [lookupA_insertA_self] at hrec
              exact Option.noConfusion hrec
        · rcases State.ensureRootFolder_spec s loc u now with
            ⟨uuid, hroot, heq⟩ | ⟨hroot, heq⟩ <;> rw [heq] at h <;>
            exact createFolderLoop_ok_roundtrip loc u now _ _ _ _ _ _ h
    · simp at h

/-- C8 (amended): whenever `create_folder` succeeds, looking the returned
folder up under its canonical path (its `full_folder_path` field, i.e. the
sanitized path with the trailing slash) yields the same id, in any state whose
folder path index is consistent with the folder records. -/
theorem C8_amended_get_by_canonical_path_returns_created_id :
    ∀ (s : State) (path : Str) (loc : StorageLocationEnum) (u : UserID) (now : Nat)
      (f : FolderMetadata) (s2 : State),
      FolderIndexConsistent s →
      s.createFolder path loc u now = (.ok f, s2) →
      (s2.getFolderByPath f.full_folder_path).map FolderMetadata.id = some f.id := by
  intro s path loc u now f s2 hcons h
  rw [State.createFolder] at h
  exact createFolderSan_roundtrip s _ loc u now f s2 hcons h

/-- Witness for the amended C8: creating `BrowserCache::a` in a fresh instance
returns folder id 1, and the canonical path `BrowserCache::a/` resolves back
to id 1. -/
theorem C8_amended_witness :
    (((initState.createFolder "BrowserCache::a".data StorageLocationEnum.BrowserCache 7 0).2).getFolderByPath
        (folderARecord.full_folder_path)).map FolderMetadata.id = some folderARecord.id :=
  C8_amended_get_by_canonical_path_returns_created_id initState "BrowserCache::a".data
    StorageLocationEnum.BrowserCache 7 0 folderARecord
    ((initState.createFolder "BrowserCache::a".data StorageLocationEnum.BrowserCache 7 0).2)
    (fun _ _ hh => Option.noConfusion hh) (by decide)

/-! ## Machinery for C4: the version chain under repeated `upsert_file` -/

/-- Walking `prior_version` from an id: the list of records visited (fuel
bounds the walk; any fuel at least the chain length gives the full walk). -/
def walkPrior (s : State) : Nat → Option FileUUID → List FileUUID
  | _, none => []
  | 0, some _ => []
  | fuel + 1, some id =>
    match lookupA s.file_uuid_to_metadata id with
    | none => []
    | some f => id :: walkPrior s fuel f.prior_version

/-- The version number recorded for an id (0 when the record is absent). -/
def fileVersionOf (s : State) (id : FileUUID) : Nat :=
  ((lookupA s.file_uuid_to_metadata id).map FileMetadata.file_version).getD 0

/-- All folder-record keys are below the id counter (fresh ids never collide
with stored records). -/
def foldersFresh (s : State) : Prop :=
  ∀ kv ∈ s.folder_uuid_to_metadata, kv.1 < s.id_counter

/-- The `ensure_folder_structure` loop never removes a folder-path binding. -/
theorem ensureFolderLoop_monotone (loc : StorageLocationEnum) (u : UserID) (now : Nat) :
    ∀ (parts : List Str) (cur : Str) (pu : FolderUUID) (s : State) (q : Str) (v : FolderUUID),
      lookupA s.full_folder_path_to_uuid q = some v →
      lookupA (State.ensureFolderLoop loc u now parts cur pu s).2.full_folder_path_to_uuid q =
        some v := by
  intro parts
  induction parts with
  | nil => intro cur pu s q v hq; exact hq
  | cons part rest ih =>
    intro cur pu s q v hq
    rw [State.ensureFolderLoop]
    cases hb : lookupA s.full_folder_path_to_uuid (cur ++ part ++ ['/']) with
    | some uuid => exact ih _ _ _ _ _ hq
    | none =>
      dsimp only
      apply ih
      rw [State.modifyFolder_folder_index]
      rw [lookupA_insertA_ne]
      · exact hq
      · intro hqc
        rw [hqc, hb] at hq
        exact Option.noConfusion hq

theorem lookupA_mem {κ α : Type} [DecidableEq κ] :
    ∀ (m : List (κ × α)) (k : κ) (v : α), lookupA m k = some v → (k, v) ∈ m := by
  intro m
  induction m with
  | nil => intro k v h; exact Option.noConfusion h
  | cons kv rest ih =>
    intro k v h
    rw [lookupA] at h
    by_cases hk : kv.1 = k
    · rw [if_pos hk] at h
      injection h with h
      obtain ⟨k1, v1⟩ := kv
      simp only at hk h
      subst hk
      subst h
      exact List.mem_cons_self _ _
    · rw [if_neg hk] at h
      exact List.mem_cons_of_mem _ (ih _ _ h)

theorem mem_insertA {κ α : Type} [DecidableEq κ] (m : List (κ × α)) (k : κ) (v : α)
    (kv : κ × α) :
    kv ∈ insertA m k v ↔ kv = (k, v) ∨ (kv ∈ m ∧ kv.1 ≠ k) := by
  unfold insertA
  rw [List.mem_cons, List.mem_filter]
  constructor
  · rintro (h | ⟨h1, h2⟩)
    · exact Or.inl h
    · exact Or.inr ⟨h1, by simpa using h2⟩
  · rintro (h | ⟨h1, h2⟩)
    · exact Or.inl h
    · exact Or.inr ⟨h1, by simpa using h2⟩

theorem mem_eraseA {κ α : Type} [DecidableEq κ] (m : List (κ × α)) (k : κ)
    (kv : κ × α) :
    kv ∈ eraseA m k ↔ kv ∈ m ∧ kv.1 ≠ k := by
  unfold eraseA
  rw [List.mem_filter]
  constructor
  · rintro ⟨h1, h2⟩
    exact ⟨h1, by simpa using h2⟩
  · rintro ⟨h1, h2⟩
    exact ⟨h1, by simpa using h2⟩

/-- `ensureFolderLoop_monotone`, phrased on a run equation. -/
theorem ensureFolderLoop_mono (loc : StorageLocationEnum) (u : UserID) (now : Nat)
    (parts : List Str) (cur : Str) (pu : FolderUUID) (s : State) (F : FolderUUID)
    (sfin : State) (q : Str) (v : FolderUUID)
    (h : State.ensureFolderLoop loc u now parts cur pu s = (F, sfin))
    (hq : lookupA s.full_folder_path_to_uuid q = some v) :
    lookupA sfin.full_folder_path_to_uuid q = some v := by
  have := ensureFolderLoop_monotone loc u now parts cur pu s q v hq
  rw [h] at this
  exact this

/-- An inert run of the `ensure_folder_structure` loop (one that returns its
input state unchanged) runs inertly from any state with the same folder path
index. -/
theorem ensureFolderLoop_transport (loc : StorageLocationEnum) (u : UserID) (now : Nat) :
    ∀ (parts : List Str) (cur : Str) (pu : FolderUUID) (s t : State) (F : FolderUUID),
      State.ensureFolderLoop loc u now parts cur pu s = (F, s) →
      t.full_folder_path_to_uuid = s.full_folder_path_to_uuid →
      State.ensureFolderLoop loc u now parts cur pu t = (F, t) := by
  intro parts
  induction parts with
  | nil =>
    intro cur pu s t F h hidx
    rw [State.ensureFolderLoop] at h
    injection h with h1 _
    subst h1
    rfl
  | cons part rest ih =>
    intro cur pu s t F h hidx
    rw [State.ensureFolderLoop] at h
    rw [State.ensureFolderLoop]
    cases hb : lookupA s.full_folder_path_to_uuid (cur ++ part ++ ['/']) with
    | some uuid =>
      rw [hb] at h
      dsimp only at h
      rw [hidx, hb]
      exact ih _ _ _ _ _ h hidx
    | none =>
      exfalso
      rw [hb] at h
      dsimp only at h
      have hfin : lookupA s.full_folder_path_to_uuid (cur ++ part ++ ['/']) =
          some (generateUniqueId s.id_counter).1 := by
        refine ensureFolderLoop_mono loc u now _ _ _ _ _ _ _ _ h ?_
        rw [State.modifyFolder_folder_index]
        exact lookupA_insertA_self _ _ _
      rw [hb] at hfin
      exact Option.noConfusion hfin

/-- Case split for `modifyFolder`: either a no-op or an insert of the mapped
record. -/
theorem State.modifyFolder_map_cases (s : State) (id : FolderUUID)
    (g : FolderMetadata → FolderMetadata) :
    (s.modifyFolder id g).folder_uuid_to_metadata = s.folder_uuid_to_metadata ∨
    ∃ r, lookupA s.folder_uuid_to_metadata id = some r ∧
      (s.modifyFolder id g).folder_uuid_to_metadata =
        insertA s.folder_uuid_to_metadata id (g r) := by
  unfold State.modifyFolder
  cases h : lookupA s.folder_uuid_to_metadata id with
  | none => exact Or.inl rfl
  | some r => exact Or.inr ⟨r, rfl, rfl⟩

/-- Case split for `modifyFile`. -/
theorem State.modifyFile_map_cases (s : State) (id : FileUUID)
    (g : FileMetadata → FileMetadata) :
    (s.modifyFile id g).file_uuid_to_metadata = s.file_uuid_to_metadata ∨
    ∃ r, lookupA s.file_uuid_to_metadata id = some r ∧
      (s.modifyFile id g).file_uuid_to_metadata =
        insertA s.file_uuid_to_metadata id (g r) := by
  unfold State.modifyFile
  cases h : lookupA s.file_uuid_to_metadata id with
  | none => exact Or.inl rfl
  | some r => exact Or.inr ⟨r, rfl, rfl⟩

/-- Membership in the folder map after `modifyFolder`. -/
theorem State.mem_modifyFolder_map (s : State) (id : FolderUUID)
    (g : FolderMetadata → FolderMetadata) (kv : FolderUUID × FolderMetadata) :
    kv ∈ (s.modifyFolder id g).folder_uuid_to_metadata →
    kv ∈ s.folder_uuid_to_metadata ∨
      ∃ r, lookupA s.folder_uuid_to_metadata id = some r ∧ kv = (id, g r) := by
  unfold State.modifyFolder
  cases h : lookupA s.folder_uuid_to_metadata id with
  | none => intro hm; exact Or.inl hm
  | some r =>
    intro hm
    dsimp only at hm
    rw [mem_insertA] at hm
    rcases hm with hm | ⟨hm, _⟩
    · exact Or.inr ⟨r, rfl, hm⟩
    · exact Or.inl hm

/-- Membership in the file map after `modifyFile`. -/
theorem State.mem_modifyFile_map (s : State) (id : FileUUID)
    (g : FileMetadata → FileMetadata) (kv : FileUUID × FileMetadata) :
    kv ∈ (s.modifyFile id g).file_uuid_to_metadata →
    kv ∈ s.file_uuid_to_metadata ∨
      ∃ r, lookupA s.file_uuid_to_metadata id = some r ∧ kv = (id, g r) := by
  unfold State.modifyFile
  cases h : lookupA s.file_uuid_to_metadata id with
  | none => intro hm; exact Or.inl hm
  | some r =>
    intro hm
    dsimp only at hm
    rw [mem_insertA] at hm
    rcases hm with hm | ⟨hm, _⟩
    · exact Or.inr ⟨r, rfl, hm⟩
    · exact Or.inl hm

/-- The effect of one `ensure_folder_structure` loop run, under index
consistency and fresh ids: the returned folder has a record and a fresh-bound
id, the invariants are preserved, the counter grows by at most one per part,
the file side is untouched, and a re-run from the result state is inert. -/
theorem ensureFolderLoop_spec (loc : StorageLocationEnum) (u : UserID) (now : Nat) :
    ∀ (parts : List Str) (cur : Str) (pu : FolderUUID) (s : State) (F : FolderUUID)
      (sfin : State),
      State.ensureFolderLoop loc u now parts cur pu s = (F, sfin) →
      FolderIndexConsistent s →
      foldersFresh s →
      (lookupA s.folder_uuid_to_metadata pu).isSome →
      pu < s.id_counter →
      s.id_counter + parts.length < 2 ^ 64 →
      (lookupA sfin.folder_uuid_to_metadata F).isSome ∧
      F < sfin.id_counter ∧
      FolderIndexConsistent sfin ∧
      foldersFresh sfin ∧
      s.id_counter ≤ sfin.id_counter ∧
      sfin.id_counter ≤ s.id_counter + parts.length ∧
      sfin.file_uuid_to_metadata = s.file_uuid_to_metadata ∧
      sfin.full_file_path_to_uuid = s.full_file_path_to_uuid ∧
      State.ensureFolderLoop loc u now parts cur pu sfin = (F, sfin) := by
  intro parts
  induction parts with
  | nil =>
    intro cur pu s F sfin h hcons hfresh hpu hpult hhead
    rw [State.ensureFolderLoop] at h
    injection h with h1 h2
    subst h1
    subst h2
    exact ⟨hpu, hpult, hcons, hfresh, le_refl _, by omega, rfl, rfl, rfl⟩
  | cons part rest ih =>
    intro cur pu s F sfin h hcons hfresh hpu hpult hhead
    rw [State.ensureFolderLoop] at h
    cases hb : lookupA s.full_folder_path_to_uuid (cur ++ part ++ ['/']) with
    | some uuid =>
      rw [hb] at h
      dsimp only at h
      obtain ⟨r, hr1, hr2⟩ := hcons _ _ hb
      have huuidlt : uuid < s.id_counter := hfresh _ (lookupA_mem _ _ _ hr1)
      obtain ⟨c1, c2, c3, c4, c5, c6, c7, c8, c9⟩ :=
        ih _ _ _ _ _ h hcons hfresh (by rw [hr1]; rfl) huuidlt
          (by simp only [List.length_cons] at hhead; omega)
      have hb2 : lookupA sfin.full_folder_path_to_uuid (cur ++ part ++ ['/']) =
          some uuid := ensureFolderLoop_mono loc u now rest _ _ _ _ _ _ _ h hb
      refine ⟨c1, c2, c3, c4, c5, by simp only [List.length_cons]; omega, c7, c8, ?_⟩
      rw [State.ensureFolderLoop, hb2]
      dsimp only
      exact c9
    | none =>
      rw [hb] at h
      dsimp only at h
      simp only [generateUniqueId] at h
      have hc1 : s.id_counter + 1 < 2 ^ 64 := by
        simp only [List.length_cons] at hhead
        omega
      have hcnt : (s.id_counter + 1) % 2 ^ 64 = s.id_counter + 1 := Nat.mod_eq_of_lt hc1
      rw [hcnt] at h
      have hne : ¬ s.id_counter = pu := ne_of_gt hpult
      obtain ⟨c1, c2, c3, c4, c5, c6, c7, c8, c9⟩ :=
        ih _ _ _ _ _ h
          (by
            intro p idq hbind
            rw [State.modifyFolder_folder_index] at hbind
            dsimp only at hbind
            rw [lookupA_insertA] at hbind
            by_cases hp : p = cur ++ part ++ ['/']
            · rw [if_pos hp] at hbind
              injection hbind with hbind
              subst hbind
              rw [State.lookupA_modifyFolder]
              rw [if_neg hne]
              dsimp only
              rw [lookupA_insertA_self]
              exact ⟨_, rfl, hp.symm⟩
            · rw [if_neg hp] at hbind
              obtain ⟨r0, hr01, hr02⟩ := hcons _ _ hbind
              have hidlt : idq < s.id_counter := hfresh _ (lookupA_mem _ _ _ hr01)
              rw [State.lookupA_modifyFolder]
              by_cases hq : idq = pu
              · rw [if_pos hq]
                dsimp only
                rw [lookupA_insertA_ne _ _ _ _ (fun hh => hne hh.symm)]
                rw [← hq, hr01]
                refine ⟨_, rfl, ?_⟩
                dsimp only [Option.map_some]
                split
                · exact hr02
                · exact hr02
              · rw [if_neg hq]
                dsimp only
                rw [lookupA_insertA_ne _ _ _ _ (ne_of_lt hidlt)]
                exact ⟨r0, hr01, hr02⟩)
          (by
            intro kv hkv
            rw [State.modifyFolder_counter]
            dsimp only
            rcases State.mem_modifyFolder_map _ _ _ _ hkv with hkv2 | ⟨r0, _, hkveq⟩
            · dsimp only at hkv2
              rw [mem_insertA] at hkv2
              rcases hkv2 with hkv2 | ⟨hkv2, _⟩
              · rw [hkv2]
                exact Nat.lt_succ_self _
              · exact Nat.lt_succ_of_lt (hfresh _ hkv2)
            · rw [hkveq]
              exact Nat.lt_succ_of_lt hpult)
          (by
            rw [State.lookupA_modifyFolder]
            rw [if_neg hne]
            dsimp only
            rw [lookupA_insertA_self]
            rfl)
          (by
            rw [State.modifyFolder_counter]
            exact Nat.lt_succ_self _)
          (by
            rw [State.modifyFolder_counter]
            dsimp only
            simp only [List.length_cons] at hhead
            omega)
      rw [State.modifyFolder_counter] at c5 c6
      dsimp only at c5 c6
      refine ⟨c1, c2, c3, c4, ?_, ?_, ?_, ?_, ?_⟩
      · omega
      · simp only [List.length_cons]
        omega
      · rw [c7, State.modifyFolder_file_map]
      · rw [c8, State.modifyFolder_file_index]
      · have hb2 : lookupA sfin.full_folder_path_to_uuid (cur ++ part ++ ['/']) =
            some s.id_counter := by
          refine ensureFolderLoop_mono loc u now _ _ _ _ _ _ _ _ h ?_
          rw [State.modifyFolder_folder_index]
          exact lookupA_insertA_self _ _ _
        rw [State.ensureFolderLoop, hb2]
        dsimp only
        exact c9

/-- `modifyFolder` with a path-preserving update keeps the folder path index
consistent. -/
theorem State.modifyFolder_consistent (s : State) (id : FolderUUID)
    (g : FolderMetadata → FolderMetadata)
    (hg : ∀ r, (g r).full_folder_path = r.full_folder_path)
    (hcons : FolderIndexConsistent s) :
    FolderIndexConsistent (s.modifyFolder id g) := by
  intro p idq hbind
  rw [State.modifyFolder_folder_index] at hbind
  obtain ⟨r, hr1, hr2⟩ := hcons _ _ hbind
  rw [State.lookupA_modifyFolder]
  by_cases hq : idq = id
  · subst hq
    rw [if_pos rfl, hr1]
    exact ⟨g r, rfl, by rw [hg, hr2]⟩
  · rw [if_neg hq]
    exact ⟨r, hr1, hr2⟩

/-- `modifyFolder` keeps all folder-record keys below the id counter. -/
theorem State.modifyFolder_fresh (s : State) (id : FolderUUID)
    (g : FolderMetadata → FolderMetadata)
    (hfresh : foldersFresh s) :
    foldersFresh (s.modifyFolder id g) := by
  intro kv hkv
  rw [State.modifyFolder_counter]
  rcases State.mem_modifyFolder_map _ _ _ _ hkv with hkv2 | ⟨r0, hr0, hkveq⟩
  · exact hfresh _ hkv2
  · have hlt := hfresh _ (lookupA_mem _ _ _ hr0)
    rw [hkveq]
    exact hlt

/-- The effect of `ensure_folder_structure` on a path whose `"::"` split has at
least two parts and whose storage prefix matches the passed location: it
succeeds, returns a folder with a record and a fresh id, preserves index
consistency and id freshness, grows the counter by at most one plus the number
of nonempty path parts, leaves the file side untouched, and re-runs inertly. -/
theorem ensureFolderStructure_spec (loc : StorageLocationEnum) (u : UserID)
    (now : Nat) (dir p0 p1 : Str) (tl : List Str) (s : State)
    (hsplit : splitSub dcolon dir = p0 :: p1 :: tl)
    (hp0 : p0 = loc.toStr)
    (hcons : FolderIndexConsistent s)
    (hfresh : foldersFresh s)
    (hhead : s.id_counter + 1 +
      ((splitChar '/' p1).filter (fun p => ¬ p.isEmpty)).length < 2 ^ 64) :
    ∃ F s2, s.ensureFolderStructure dir loc u now = some (F, s2) ∧
      (lookupA s2.folder_uuid_to_metadata F).isSome ∧
      F < s2.id_counter ∧
      FolderIndexConsistent s2 ∧
      foldersFresh s2 ∧
      s.id_counter ≤ s2.id_counter ∧
      s2.id_counter ≤ s.id_counter + 1 +
        ((splitChar '/' p1).filter (fun p => ¬ p.isEmpty)).length ∧
      s2.file_uuid_to_metadata = s.file_uuid_to_metadata ∧
      s2.full_file_path_to_uuid = s.full_file_path_to_uuid ∧
      s2.ensureFolderStructure dir loc u now = some (F, s2) := by
  subst hp0
  unfold State.ensureFolderStructure
  rw [hsplit]
  dsimp only
  rcases State.ensureRootFolder_spec s loc u now with ⟨ru, hroot, heq⟩ | ⟨hroot, heq⟩
  · rw [heq]
    dsimp only
    obtain ⟨r, hr1, hr2⟩ := hcons _ _ hroot
    have hrult : ru < s.id_counter := hfresh _ (lookupA_mem _ _ _ hr1)
    obtain ⟨c1, c2, c3, c4, c5, c6, c7, c8, c9⟩ :=
      ensureFolderLoop_spec loc u now
        ((splitChar '/' p1).filter (fun p => ¬ p.isEmpty)) (loc.toStr ++ dcolon) ru s
        (State.ensureFolderLoop loc u now
          ((splitChar '/' p1).filter (fun p => ¬ p.isEmpty)) (loc.toStr ++ dcolon) ru s).1
        (State.ensureFolderLoop loc u now
          ((splitChar '/' p1).filter (fun p => ¬ p.isEmpty)) (loc.toStr ++ dcolon) ru s).2
        rfl hcons hfresh (by rw [hr1]; rfl) hrult (by omega)
    refine ⟨_, _, rfl, c1, c2, c3, c4, c5, by omega, c7, c8, ?_⟩
    have hroot2 : lookupA (State.ensureFolderLoop loc u now
        ((splitChar '/' p1).filter (fun p => ¬ p.isEmpty)) (loc.toStr ++ dcolon) ru s).2.full_folder_path_to_uuid
        (loc.toStr ++ dcolon) = some ru :=
      ensureFolderLoop_mono loc u now _ _ _ _ _ _ _ _ rfl hroot
    have heq2 : (State.ensureFolderLoop loc u now
        ((splitChar '/' p1).filter (fun p => ¬ p.isEmpty)) (loc.toStr ++ dcolon) ru s).2.ensureRootFolder loc u now =
        (ru, (State.ensureFolderLoop loc u now
          ((splitChar '/' p1).filter (fun p => ¬ p.isEmpty)) (loc.toStr ++ dcolon) ru s).2) := by
      unfold State.ensureRootFolder
      simp only [hroot2]
    rw [heq2]
    dsimp only
    rw [c9]
  · have hc1 : s.id_counter + 1 < 2 ^ 64 := by omega
    have hcnt : (s.id_counter + 1) % 2 ^ 64 = s.id_counter + 1 := Nat.mod_eq_of_lt hc1
    rw [hcnt] at heq
    rw [heq]
    dsimp only
    obtain ⟨c1, c2, c3, c4, c5, c6, c7, c8, c9⟩ :=
      ensureFolderLoop_spec loc u now
        ((splitChar '/' p1).filter (fun p => ¬ p.isEmpty)) (loc.toStr ++ dcolon) s.id_counter
        { s with
          full_folder_path_to_uuid :=
            insertA s.full_folder_path_to_uuid (loc.toStr ++ dcolon) s.id_counter,
          folder_uuid_to_metadata :=
            insertA s.folder_uuid_to_metadata s.id_counter
              (rootFolderRecord loc u now s.id_counter),
          id_counter := s.id_counter + 1 }
        (State.ensureFolderLoop loc u now
          ((splitChar '/' p1).filter (fun p => ¬ p.isEmpty)) (loc.toStr ++ dcolon) s.id_counter
          { s with
            full_folder_path_to_uuid :=
              insertA s.full_folder_path_to_uuid (loc.toStr ++ dcolon) s.id_counter,
            folder_uuid_to_metadata :=
              insertA s.folder_uuid_to_metadata s.id_counter
                (rootFolderRecord loc u now s.id_counter),
            id_counter := s.id_counter + 1 }).1
        (State.ensureFolderLoop loc u now
          ((splitChar '/' p1).filter (fun p => ¬ p.isEmpty)) (loc.toStr ++ dcolon) s.id_counter
          { s with
            full_folder_path_to_uuid :=
              insertA s.full_folder_path_to_uuid (loc.toStr ++ dcolon) s.id_counter,
            folder_uuid_to_metadata :=
              insertA s.folder_uuid_to_metadata s.id_counter
                (rootFolderRecord loc u now s.id_counter),
            id_counter := s.id_counter + 1 }).2
        rfl
        (by
          intro p idq hbind
          dsimp only at hbind ⊢
          rw [lookupA_insertA] at hbind
          by_cases hp : p = loc.toStr ++ dcolon
          · rw [if_pos hp] at hbind
            injection hbind with hbind
            subst hbind
            rw [lookupA_insertA_self]
            exact ⟨_, rfl, hp.symm⟩
          · rw [if_neg hp] at hbind
            obtain ⟨r0, hr01, hr02⟩ := hcons _ _ hbind
            have hidlt : idq < s.id_counter := hfresh _ (lookupA_mem _ _ _ hr01)
            rw [lookupA_insertA_ne _ _ _ _ (ne_of_lt hidlt)]
            exact ⟨r0, hr01, hr02⟩)
        (by
          intro kv hkv
          dsimp only at hkv ⊢
          rw [mem_insertA] at hkv
          rcases hkv with hkv | ⟨hkv, _⟩
          · rw [hkv]
            exact Nat.lt_succ_self _
          · exact Nat.lt_succ_of_lt (hfresh _ hkv))
        (by
          dsimp only
          rw [lookupA_insertA_self]
          rfl)
        (Nat.lt_succ_self _)
        (by dsimp only; omega)
    refine ⟨_, _, rfl, c1, c2, c3, c4, by dsimp only at c5; omega, ?_, ?_, ?_, ?_⟩
    · dsimp only at c6
      omega
    · rw [c7]
    · rw [c8]
    · have hroot2 : lookupA (State.ensureFolderLoop loc u now
          ((splitChar '/' p1).filter (fun p => ¬ p.isEmpty)) (loc.toStr ++ dcolon) s.id_counter
          { s with
            full_folder_path_to_uuid :=
              insertA s.full_folder_path_to_uuid (loc.toStr ++ dcolon) s.id_counter,
            folder_uuid_to_metadata :=
              insertA s.folder_uuid_to_metadata s.id_counter
                (rootFolderRecord loc u now s.id_counter),
            id_counter := s.id_counter + 1 }).2.full_folder_path_to_uuid
          (loc.toStr ++ dcolon) = some s.id_counter := by
        refine ensureFolderLoop_mono loc u now _ _ _ _ _ _ _ _ rfl ?_
        dsimp only
        exact lookupA_insertA_self _ _ _
      have heq2 : (State.ensureFolderLoop loc u now
          ((splitChar '/' p1).filter (fun p => ¬ p.isEmpty)) (loc.toStr ++ dcolon) s.id_counter
          { s with
            full_folder_path_to_uuid :=
              insertA s.full_folder_path_to_uuid (loc.toStr ++ dcolon) s.id_counter,
            folder_uuid_to_metadata :=
              insertA s.folder_uuid_to_metadata s.id_counter
                (rootFolderRecord loc u now s.id_counter),
            id_counter := s.id_counter + 1 }).2.ensureRootFolder loc u now =
          (s.id_counter, (State.ensureFolderLoop loc u now
            ((splitChar '/' p1).filter (fun p => ¬ p.isEmpty)) (loc.toStr ++ dcolon) s.id_counter
            { s with
              full_folder_path_to_uuid :=
                insertA s.full_folder_path_to_uuid (loc.toStr ++ dcolon) s.id_counter,
              folder_uuid_to_metadata :=
                insertA s.folder_uuid_to_metadata s.id_counter
                  (rootFolderRecord loc u now s.id_counter),
              id_counter := s.id_counter + 1 }).2) := by
        unfold State.ensureRootFolder
        simp only [hroot2]
      rw [heq2]
      dsimp only
      rw [c9]

/-- An inert `ensure_folder_structure` run transports to any state with the
same folder path index. -/
theorem ensureFolderStructure_transport (loc : StorageLocationEnum) (u : UserID)
    (now : Nat) (dir p0 p1 : Str) (tl : List Str) (s t : State) (F : FolderUUID)
    (hsplit : splitSub dcolon dir = p0 :: p1 :: tl)
    (h : s.ensureFolderStructure dir loc u now = some (F, s))
    (hidx : t.full_folder_path_to_uuid = s.full_folder_path_to_uuid) :
    t.ensureFolderStructure dir loc u now = some (F, t) := by
  unfold State.ensureFolderStructure at h ⊢
  rw [hsplit] at h ⊢
  dsimp only at h ⊢
  rcases State.ensureRootFolder_spec s loc u now with ⟨ru, hroot, heq⟩ | ⟨hroot, heq⟩
  · rw [heq] at h
    dsimp only at h
    injection h with h
    have heqt : t.ensureRootFolder loc u now = (ru, t) := by
      unfold State.ensureRootFolder
      rw [hidx]
      simp only [hroot]
    rw [heqt]
    dsimp only
    rw [ensureFolderLoop_transport loc u now _ _ _ _ _ _ h hidx]
  · exfalso
    rw [heq] at h
    dsimp only at h
    injection h with h
    have hfin : lookupA s.full_folder_path_to_uuid (loc.toStr ++ dcolon) =
        some s.id_counter := by
      have := ensureFolderLoop_monotone loc u now
        ((splitChar '/' p1).filter (fun p => ¬ p.isEmpty)) (p0 ++ dcolon)
        s.id_counter
        { s with
          full_folder_path_to_uuid :=
            insertA s.full_folder_path_to_uuid (loc.toStr ++ dcolon) s.id_counter,
          folder_uuid_to_metadata :=
            insertA s.folder_uuid_to_metadata s.id_counter
              (rootFolderRecord loc u now s.id_counter),
          id_counter := (s.id_counter + 1) % 2 ^ 64 }
        (loc.toStr ++ dcolon) s.id_counter
        (by dsimp only; exact lookupA_insertA_self _ _ _)
      rw [h] at this
      exact this
    rw [hroot] at hfin
    exact Option.noConfusion hfin

/-- `K` sequential `upsert_file_to_hash_tables` calls to the same path (a trap
anywhere aborts the run). -/
def upsertRun (path : Str) (loc : StorageLocationEnum) (u : UserID) (now : Nat) :
    Nat → State → Option State
  | 0, s => some s
  | n + 1, s =>
    match s.upsertFileToHashTables path loc u now with
    | none => none
    | some (_, s2) => upsertRun path loc u now n s2

/-- The version chain recorded in the store, most recent first: the entry `k`
steps from the start carries wrapped version `(k - i) % 2 ^ 32`, links to the
next entry by `prior_version`, and sits in folder `F`. -/
def ChainOk (s : State) (F : FolderUUID) : List FileUUID → Nat → Prop
  | [], k => k = 0
  | fid :: rest, k => 0 < k ∧ ∃ r, lookupA s.file_uuid_to_metadata fid = some r ∧
      r.file_version = k % 2 ^ 32 ∧ r.folder_uuid = F ∧
      r.prior_version = rest.head? ∧ ChainOk s F rest (k - 1)

/-- A chain survives any state change that preserves the version, folder and
prior-version fields of every chain record. -/
theorem ChainOk_transport (s s' : State) (F : FolderUUID) :
    ∀ (ids : List FileUUID) (k : Nat),
      (∀ fid ∈ ids, ∃ r r', lookupA s.file_uuid_to_metadata fid = some r ∧
        lookupA s'.file_uuid_to_metadata fid = some r' ∧
        r'.file_version = r.file_version ∧ r'.folder_uuid = r.folder_uuid ∧
        r'.prior_version = r.prior_version) →
      ChainOk s F ids k → ChainOk s' F ids k := by
  intro ids
  induction ids with
  | nil => intro k _ h; exact h
  | cons fid rest ih =>
    intro k hpres h
    obtain ⟨hk, r, hr, hv, hf, hp, hrest⟩ := h
    obtain ⟨r0, r0', hr0, hr0', hv', hf', hp'⟩ := hpres fid (List.mem_cons_self _ _)
    rw [hr] at hr0
    injection hr0 with hr0
    subst hr0
    exact ⟨hk, r0', hr0', by rw [hv', hv], by rw [hf', hf], by rw [hp', hp],
      ih _ (fun i hi => hpres i (List.mem_cons_of_mem _ hi)) hrest⟩

/-- A chain at count `k` has exactly `k` entries. -/
theorem ChainOk_length (s : State) (F : FolderUUID) :
    ∀ (ids : List FileUUID) (k : Nat), ChainOk s F ids k → ids.length = k := by
  intro ids
  induction ids with
  | nil =>
    intro k h
    rw [show ChainOk s F [] k = (k = 0) from rfl] at h
    rw [h]
    rfl
  | cons fid rest ih =>
    intro k h
    obtain ⟨hk, r, _, _, _, _, hrest⟩ := h
    have := ih _ hrest
    simp only [List.length_cons, this]
    omega

/-- Every chain entry has a record. -/
theorem ChainOk_mem_record (s : State) (F : FolderUUID) :
    ∀ (ids : List FileUUID) (k : Nat), ChainOk s F ids k →
      ∀ fid ∈ ids, ∃ r, lookupA s.file_uuid_to_metadata fid = some r := by
  intro ids
  induction ids with
  | nil => intro k _ fid hf; exact absurd hf (List.not_mem_nil _)
  | cons fid0 rest ih =>
    intro k h fid hf
    obtain ⟨hk, r, hr, _, _, _, hrest⟩ := h
    rcases List.mem_cons.mp hf with hf | hf
    · subst hf
      exact ⟨r, hr⟩
    · exact ih _ hrest fid hf

/-- The version stored for the `i`-th chain entry is `(k - i) % 2 ^ 32`. -/
theorem ChainOk_version (s : State) (F : FolderUUID) :
    ∀ (ids : List FileUUID) (k : Nat), ChainOk s F ids k →
      ∀ i (h : i < ids.length),
        fileVersionOf s (ids.get ⟨i, h⟩) = (k - i) % 2 ^ 32 := by
  intro ids
  induction ids with
  | nil => intro k _ i h; exact absurd h (Nat.not_lt_zero _)
  | cons fid rest ih =>
    intro k hck i h
    obtain ⟨hk, r, hr, hv, _, _, hrest⟩ := hck
    cases i with
    | zero =>
      show fileVersionOf s fid = (k - 0) % 2 ^ 32
      rw [fileVersionOf, hr]
      simpa using hv
    | succ i =>
      show fileVersionOf s (rest.get ⟨i, _⟩) = (k - (i + 1)) % 2 ^ 32
      have := ih _ hrest i (Nat.lt_of_succ_lt_succ h)
      rw [this]
      congr 1
      omega

/-- Walking `prior_version` from the head of a chain visits exactly the chain,
with fuel equal to the chain length. -/
theorem walkPrior_of_chain (s : State) (F : FolderUUID) :
    ∀ (ids : List FileUUID) (k : Nat), ChainOk s F ids k →
      walkPrior s ids.length ids.head? = ids := by
  intro ids
  induction ids with
  | nil => intro k _; rfl
  | cons fid rest ih =>
    intro k h
    obtain ⟨hk, r, hr, _, _, hp, hrest⟩ := h
    show walkPrior s (rest.length + 1) (some fid) = fid :: rest
    rw [walkPrior, hr]
    dsimp only
    rw [hp, ih _ hrest]

/-- `modifyFile` keeps the folder path index consistent. -/
theorem State.modifyFile_consistent (s : State) (fid : FileUUID)
    (g : FileMetadata → FileMetadata)
    (hcons : FolderIndexConsistent s) :
    FolderIndexConsistent (s.modifyFile fid g) := by
  intro p idq hbind
  rw [State.modifyFile_folder_index] at hbind
  rw [State.modifyFile_folder_map]
  exact hcons _ _ hbind

/-- `modifyFile` keeps all folder-record keys below the id counter. -/
theorem State.modifyFile_fresh (s : State) (fid : FileUUID)
    (g : FileMetadata → FileMetadata)
    (hfresh : foldersFresh s) :
    foldersFresh (s.modifyFile fid g) := by
  intro kv hkv
  rw [State.modifyFile_counter, State.modifyFile_folder_map] at *
  exact hfresh _ hkv

/-- The file record `upsert_file_to_hash_tables` writes. -/
def newFileRecord (path : Str) (loc : StorageLocationEnum) (u : UserID) (now : Nat)
    (fid : FileUUID) (F : FolderUUID) (version : Nat) (prior : Option FileUUID) :
    FileMetadata :=
  { id := fid, original_file_name := (State.splitPath path).2, folder_uuid := F,
    file_version := version, prior_version := prior, next_version := none,
    extension := lastSegmentAfter '.' (State.splitPath path).2,
    full_file_path := path, tags := [], owner := u, created_date := now,
    storage_location := loc, file_size := 0, raw_url := [],
    last_changed_unix_ms := now / 1000000, deleted := false }

theorem State.updateFolderFileUuids_file_index (s : State) (fu : FolderUUID)
    (fid : FileUUID) (b : Bool) :
    (s.updateFolderFileUuids fu fid b).full_file_path_to_uuid =
      s.full_file_path_to_uuid := by
  unfold State.updateFolderFileUuids
  exact State.modifyFolder_file_index _ _ _

theorem State.updateFolderFileUuids_folder_index (s : State) (fu : FolderUUID)
    (fid : FileUUID) (b : Bool) :
    (s.updateFolderFileUuids fu fid b).full_folder_path_to_uuid =
      s.full_folder_path_to_uuid := by
  unfold State.updateFolderFileUuids
  exact State.modifyFolder_folder_index _ _ _

theorem State.updateFolderFileUuids_file_map (s : State) (fu : FolderUUID)
    (fid : FileUUID) (b : Bool) :
    (s.updateFolderFileUuids fu fid b).file_uuid_to_metadata =
      s.file_uuid_to_metadata := by
  unfold State.updateFolderFileUuids
  exact State.modifyFolder_file_map _ _ _

theorem State.updateFolderFileUuids_counter (s : State) (fu : FolderUUID)
    (fid : FileUUID) (b : Bool) :
    (s.updateFolderFileUuids fu fid b).id_counter = s.id_counter := by
  unfold State.updateFolderFileUuids
  exact State.modifyFolder_counter _ _ _

theorem State.updateFolderFileUuids_consistent (s : State) (fu : FolderUUID)
    (fid : FileUUID) (b : Bool) (hcons : FolderIndexConsistent s) :
    FolderIndexConsistent (s.updateFolderFileUuids fu fid b) := by
  unfold State.updateFolderFileUuids
  refine State.modifyFolder_consistent _ _ _ ?_ hcons
  intro r
  dsimp only
  split
  · split <;> rfl
  · rfl

theorem State.updateFolderFileUuids_fresh (s : State) (fu : FolderUUID)
    (fid : FileUUID) (b : Bool) (hfresh : foldersFresh s) :
    foldersFresh (s.updateFolderFileUuids fu fid b) := by
  unfold State.updateFolderFileUuids
  exact State.modifyFolder_fresh _ _ _ hfresh

/-- Looking a folder up after `updateFolderFileUuids`. -/
theorem State.lookupA_updateFolderFileUuids (s : State) (fu : FolderUUID)
    (fid : FileUUID) (b : Bool) (q : FolderUUID) :
    lookupA (s.updateFolderFileUuids fu fid b).folder_uuid_to_metadata q =
      if q = fu then
        (lookupA s.folder_uuid_to_metadata fu).map (fun folder =>
          if b then
            if folder.file_uuids.contains fid then folder
            else { folder with file_uuids := folder.file_uuids ++ [fid] }
          else
            { folder with
              file_uuids := folder.file_uuids.filter (fun uuid => uuid ≠ fid) })
      else lookupA s.folder_uuid_to_metadata q := by
  unfold State.updateFolderFileUuids
  exact State.lookupA_modifyFolder _ _ _ _

/-- Invariant of the repeated-upsert induction: the path is bound to the chain
head, the chain is recorded in folder `F`, chain ids are fresh and strictly
decreasing, the indices are consistent, and once at least one call has
happened, `ensure_folder_structure` re-runs inertly and the parent folder
record carries the latest id but no earlier one. -/
def UpsertInv (path dir : Str) (loc : StorageLocationEnum) (u : UserID) (now : Nat)
    (s : State) (rchain : List FileUUID) (F : FolderUUID) (k : Nat) : Prop :=
  lookupA s.full_file_path_to_uuid path = rchain.head? ∧
  ChainOk s F rchain k ∧
  (∀ fid ∈ rchain, fid < s.id_counter) ∧
  List.Pairwise (· > ·) rchain ∧
  FolderIndexConsistent s ∧
  foldersFresh s ∧
  (rchain = [] ∨
    (s.ensureFolderStructure dir loc u now = some (F, s) ∧
      ∃ rF, lookupA s.folder_uuid_to_metadata F = some rF ∧
        (∀ fid ∈ rchain.drop 1, fid ∉ rF.file_uuids) ∧
        (∀ hid, rchain.head? = some hid → hid ∈ rF.file_uuids)))

/-- C8 counterexample: `create_folder("BrowserCache::a")` succeeds and returns
folder id 1, but `get_folder_by_path` with the very same argument string
returns `none`, because the index is keyed by the sanitized canonical path
`BrowserCache::a/` (with the trailing slash the sanitizer appends). -/
theorem C8_counterexample_get_by_created_path_misses :
    ((initState.createFolder "BrowserCache::a".data StorageLocationEnum.BrowserCache 7 0).1).toOption.map
      FolderMetadata.id = some 1 ∧
    ((initState.createFolder "BrowserCache::a".data StorageLocationEnum.BrowserCache 7 0).2).getFolderByPath
      "BrowserCache::a".data = none ∧
    (((initState.createFolder "BrowserCache::a".data StorageLocationEnum.BrowserCache 7 0).2).getFolderByPath
      "BrowserCache::a/".data).map FolderMetadata.id = some 1 := by
  decide
theorem upsertStep (path p0 p1 : Str) (tl : List Str) (loc : StorageLocationEnum)
    (u : UserID) (now : Nat) (s : State) (rchain : List FileUUID) (F : FolderUUID)
    (k : Nat)
    (hsan : State.sanitizeFilePath path = path)
    (hsplit : splitSub dcolon (State.splitPath path).1 = p0 :: p1 :: tl)
    (hp0 : p0 = loc.toStr)
    (hinv : UpsertInv path (State.splitPath path).1 loc u now s rchain F k)
    (hhead : s.id_counter + 2 +
      ((splitChar '/' p1).filter (fun p => ¬ p.isEmpty)).length < 2 ^ 64) :
    ∃ s5 F',
      s.upsertFileToHashTables path loc u now = some (s.id_counter, s5) ∧
      UpsertInv path (State.splitPath path).1 loc u now s5
        (s.id_counter :: rchain) F' (k + 1) ∧
      s.id_counter < s5.id_counter ∧
      s5.id_counter ≤ s.id_counter + 2 +
        ((splitChar '/' p1).filter (fun p => ¬ p.isEmpty)).length := by
  obtain ⟨hbind, hchain, hidsf, hpair, hcons, hfresh, hrest⟩ := hinv
  have hc1 : s.id_counter + 1 < 2 ^ 64 := by omega
  have hcnt : (s.id_counter + 1) % 2 ^ 64 = s.id_counter + 1 := Nat.mod_eq_of_lt hc1
  cases rchain with
  | nil =>
    have hk0 : k = 0 := hchain
    subst hk0
    obtain ⟨F2, s2, hE, e1, e2, e3, e4, e5, e6, e7, e8, e9⟩ :=
      ensureFolderStructure_spec loc u now (State.splitPath path).1 p0 p1 tl
        { s with id_counter := s.id_counter + 1 } hsplit hp0 hcons
        (fun kv hkv => Nat.lt_succ_of_lt (hfresh kv hkv))
        (by
          show s.id_counter + 1 + 1 +
            ((splitChar '/' p1).filter (fun p => ¬ p.isEmpty)).length < 2 ^ 64
          omega)
    have hb2 : lookupA s2.full_file_path_to_uuid path = none := by
      rw [e8]; exact hbind
    have hrun : s.upsertFileToHashTables path loc u now =
        some (s.id_counter,
          ({ s2 with
             file_uuid_to_metadata := insertA s2.file_uuid_to_metadata s.id_counter
               (newFileRecord path loc u now s.id_counter F2 1 none),
             full_file_path_to_uuid :=
               insertA s2.full_file_path_to_uuid path s.id_counter
           }).updateFolderFileUuids F2 s.id_counter true) := by
      unfold State.upsertFileToHashTables
      rw [hsan]
      simp only [generateUniqueId]
      rw [hcnt]
      rw [hE]
      dsimp only
      rw [hb2]
      dsimp only
      rfl
    have he5 : s.id_counter + 1 ≤ s2.id_counter := e5
    obtain ⟨rF0, hrF0⟩ := Option.isSome_iff_exists.mp e1
    refine ⟨_, F2, hrun, ⟨?_, ?_, ?_, ?_, ?_, ?_, Or.inr ⟨?_, ?_⟩⟩, ?_, ?_⟩
    · rw [State.updateFolderFileUuids_file_index]
      exact lookupA_insertA_self _ _ _
    · refine ⟨Nat.one_pos, newFileRecord path loc u now s.id_counter F2 1 none,
        ?_, ?_, rfl, rfl, rfl⟩
      · rw [State.updateFolderFileUuids_file_map]
        exact lookupA_insertA_self _ _ _
      · show (1 : Nat) = (0 + 1) % 2 ^ 32
        decide
    · intro fid hfin
      rw [List.mem_singleton] at hfin
      subst hfin
      rw [State.updateFolderFileUuids_counter]
      show s.id_counter < s2.id_counter
      omega
    · exact List.pairwise_singleton _ _
    · exact State.updateFolderFileUuids_consistent _ _ _ _ e3
    · exact State.updateFolderFileUuids_fresh _ _ _ _ e4
    · refine ensureFolderStructure_transport loc u now (State.splitPath path).1 p0 p1 tl
        s2 _ F2 hsplit e9 ?_
      rw [State.updateFolderFileUuids_folder_index]
    · by_cases hcc : rF0.file_uuids.contains s.id_counter = true
      · refine ⟨rF0, ?_, ?_, ?_⟩
        · rw [State.lookupA_updateFolderFileUuids, if_pos rfl]
          rw [show ({ s2 with
              file_uuid_to_metadata := insertA s2.file_uuid_to_metadata s.id_counter
                (newFileRecord path loc u now s.id_counter F2 1 none),
              full_file_path_to_uuid :=
                insertA s2.full_file_path_to_uuid path s.id_counter
            } : State).folder_uuid_to_metadata = s2.folder_uuid_to_metadata from rfl]
          rw [hrF0]
          show some (if rF0.file_uuids.contains s.id_counter = true then rF0
            else { rF0 with file_uuids := rF0.file_uuids ++ [s.id_counter] }) = some rF0
          rw [if_pos hcc]
        · intro fid hfin
          exact absurd hfin (List.not_mem_nil _)
        · intro hid hh
          injection hh with hh
          subst hh
          simpa using hcc
      · refine ⟨{ rF0 with file_uuids := rF0.file_uuids ++ [s.id_counter] }, ?_, ?_, ?_⟩
        · rw [State.lookupA_updateFolderFileUuids, if_pos rfl]
          rw [show ({ s2 with
              file_uuid_to_metadata := insertA s2.file_uuid_to_metadata s.id_counter
                (newFileRecord path loc u now s.id_counter F2 1 none),
              full_file_path_to_uuid :=
                insertA s2.full_file_path_to_uuid path s.id_counter
            } : State).folder_uuid_to_metadata = s2.folder_uuid_to_metadata from rfl]
          rw [hrF0]
          show some (if rF0.file_uuids.contains s.id_counter = true then rF0
            else { rF0 with file_uuids := rF0.file_uuids ++ [s.id_counter] }) =
            some { rF0 with file_uuids := rF0.file_uuids ++ [s.id_counter] }
          rw [if_neg hcc]
        · intro fid hfin
          exact absurd hfin (List.not_mem_nil _)
        · intro hid hh
          injection hh with hh
          subst hh
          exact List.mem_append_right _ (List.mem_singleton_self _)
    · rw [State.updateFolderFileUuids_counter]
      show s.id_counter < s2.id_counter
      omega
    · rw [State.updateFolderFileUuids_counter]
      show s2.id_counter ≤ s.id_counter + 2 +
        ((splitChar '/' p1).filter (fun p => ¬ p.isEmpty)).length
      have he6 : s2.id_counter ≤ s.id_counter + 1 + 1 +
          ((splitChar '/' p1).filter (fun p => ¬ p.isEmpty)).length := e6
      omega
  | cons prev tlc =>
    rcases hrest with hnil | ⟨hinert, rF, hrF, hnotin, hheadmem⟩
    · exact absurd hnil (List.cons_ne_nil _ _)
    obtain ⟨hkpos, r, hr, hv, hf, hp, htl⟩ := hchain
    have hchain2 : ChainOk s F (prev :: tlc) k := ⟨hkpos, r, hr, hv, hf, hp, htl⟩
    have hprevlt : prev < s.id_counter := hidsf prev (List.mem_cons_self _ _)
    have hE : State.ensureFolderStructure { s with id_counter := s.id_counter + 1 }
        (State.splitPath path).1 loc u now =
        some (F, { s with id_counter := s.id_counter + 1 }) :=
      ensureFolderStructure_transport loc u now (State.splitPath path).1 p0 p1 tl
        s { s with id_counter := s.id_counter + 1 } F hsplit hinert rfl
    have hb2 : lookupA ({ s with id_counter := s.id_counter + 1 } :
        State).full_file_path_to_uuid path = some prev := hbind
    have hr2 : lookupA ({ s with id_counter := s.id_counter + 1 } :
        State).file_uuid_to_metadata prev = some r := hr
    have hrun : s.upsertFileToHashTables path loc u now =
        some (s.id_counter,
          ((({ s with
              id_counter := s.id_counter + 1,
              file_uuid_to_metadata := insertA s.file_uuid_to_metadata s.id_counter
                (newFileRecord path loc u now s.id_counter F
                  ((r.file_version + 1) % 2 ^ 32) (some prev)),
              full_file_path_to_uuid :=
                insertA s.full_file_path_to_uuid path s.id_counter
           } : State).updateFolderFileUuids F s.id_counter true).modifyFile prev
              (fun f => { f with next_version := some s.id_counter })).updateFolderFileUuids
            F prev false) := by
      unfold State.upsertFileToHashTables
      rw [hsan]
      simp only [generateUniqueId]
      rw [hcnt]
      rw [hE]
      dsimp only
      rw [hb2]
      dsimp only
      rw [hr2]
      dsimp only
      rfl
    have hS5ctr : (((({ s with
          id_counter := s.id_counter + 1,
          file_uuid_to_metadata := insertA s.file_uuid_to_metadata s.id_counter
            (newFileRecord path loc u now s.id_counter F
              ((r.file_version + 1) % 2 ^ 32) (some prev)),
          full_file_path_to_uuid :=
            insertA s.full_file_path_to_uuid path s.id_counter
        } : State).updateFolderFileUuids F s.id_counter true).modifyFile prev
          (fun f => { f with next_version := some s.id_counter })).updateFolderFileUuids
        F prev false).id_counter = s.id_counter + 1 := by
      rw [State.updateFolderFileUuids_counter, State.modifyFile_counter,
        State.updateFolderFileUuids_counter]
    have hS5ffi : (((({ s with
          id_counter := s.id_counter + 1,
          file_uuid_to_metadata := insertA s.file_uuid_to_metadata s.id_counter
            (newFileRecord path loc u now s.id_counter F
              ((r.file_version + 1) % 2 ^ 32) (some prev)),
          full_file_path_to_uuid :=
            insertA s.full_file_path_to_uuid path s.id_counter
        } : State).updateFolderFileUuids F s.id_counter true).modifyFile prev
          (fun f => { f with next_version := some s.id_counter })).updateFolderFileUuids
        F prev false).full_file_path_to_uuid =
        insertA s.full_file_path_to_uuid path s.id_counter := by
      rw [State.updateFolderFileUuids_file_index, State.modifyFile_file_index,
        State.updateFolderFileUuids_file_index]
    have hS5fidx : (((({ s with
          id_counter := s.id_counter + 1,
          file_uuid_to_metadata := insertA s.file_uuid_to_metadata s.id_counter
            (newFileRecord path loc u now s.id_counter F
              ((r.file_version + 1) % 2 ^ 32) (some prev)),
          full_file_path_to_uuid :=
            insertA s.full_file_path_to_uuid path s.id_counter
        } : State).updateFolderFileUuids F s.id_counter true).modifyFile prev
          (fun f => { f with next_version := some s.id_counter })).updateFolderFileUuids
        F prev false).full_folder_path_to_uuid = s.full_folder_path_to_uuid := by
      rw [State.updateFolderFileUuids_folder_index, State.modifyFile_folder_index,
        State.updateFolderFileUuids_folder_index]
    have hlkc : lookupA (((({ s with
          id_counter := s.id_counter + 1,
          file_uuid_to_metadata := insertA s.file_uuid_to_metadata s.id_counter
            (newFileRecord path loc u now s.id_counter F
              ((r.file_version + 1) % 2 ^ 32) (some prev)),
          full_file_path_to_uuid :=
            insertA s.full_file_path_to_uuid path s.id_counter
        } : State).updateFolderFileUuids F s.id_counter true).modifyFile prev
          (fun f => { f with next_version := some s.id_counter })).updateFolderFileUuids
        F prev false).file_uuid_to_metadata s.id_counter =
        some (newFileRecord path loc u now s.id_counter F
          ((r.file_version + 1) % 2 ^ 32) (some prev)) := by
      rw [State.updateFolderFileUuids_file_map, State.lookupA_modifyFile,
        if_neg (Ne.symm (ne_of_lt hprevlt)), State.updateFolderFileUuids_file_map]
      dsimp only
      exact lookupA_insertA_self _ _ _
    have hlkold : ∀ fid, fid < s.id_counter →
        lookupA (((({ s with
            id_counter := s.id_counter + 1,
            file_uuid_to_metadata := insertA s.file_uuid_to_metadata s.id_counter
              (newFileRecord path loc u now s.id_counter F
                ((r.file_version + 1) % 2 ^ 32) (some prev)),
            full_file_path_to_uuid :=
              insertA s.full_file_path_to_uuid path s.id_counter
          } : State).updateFolderFileUuids F s.id_counter true).modifyFile prev
            (fun f => { f with next_version := some s.id_counter })).updateFolderFileUuids
          F prev false).file_uuid_to_metadata fid =
          if fid = prev then
            (lookupA s.file_uuid_to_metadata prev).map
              (fun f => { f with next_version := some s.id_counter })
          else lookupA s.file_uuid_to_metadata fid := by
      intro fid hlt
      rw [State.updateFolderFileUuids_file_map, State.lookupA_modifyFile,
        State.updateFolderFileUuids_file_map]
      dsimp only
      rw [lookupA_insertA_ne _ _ _ _ (ne_of_lt hprevlt),
        lookupA_insertA_ne _ _ _ _ (ne_of_lt hlt)]
    have hlkF : lookupA (((({ s with
          id_counter := s.id_counter + 1,
          file_uuid_to_metadata := insertA s.file_uuid_to_metadata s.id_counter
            (newFileRecord path loc u now s.id_counter F
              ((r.file_version + 1) % 2 ^ 32) (some prev)),
          full_file_path_to_uuid :=
            insertA s.full_file_path_to_uuid path s.id_counter
        } : State).updateFolderFileUuids F s.id_counter true).modifyFile prev
          (fun f => { f with next_version := some s.id_counter })).updateFolderFileUuids
        F prev false).folder_uuid_to_metadata F =
        some { (if rF.file_uuids.contains s.id_counter = true then rF
            else { rF with file_uuids := rF.file_uuids ++ [s.id_counter] }) with
          file_uuids := (if rF.file_uuids.contains s.id_counter = true then rF
            else { rF with
              file_uuids := rF.file_uuids ++ [s.id_counter] }).file_uuids.filter
            (fun uuid => uuid ≠ prev) } := by
      rw [State.lookupA_updateFolderFileUuids, if_pos rfl, State.modifyFile_folder_map,
        State.lookupA_updateFolderFileUuids, if_pos rfl]
      rw [show ({ s with
          id_counter := s.id_counter + 1,
          file_uuid_to_metadata := insertA s.file_uuid_to_metadata s.id_counter
            (newFileRecord path loc u now s.id_counter F
              ((r.file_version + 1) % 2 ^ 32) (some prev)),
          full_file_path_to_uuid :=
            insertA s.full_file_path_to_uuid path s.id_counter
        } : State).folder_uuid_to_metadata = s.folder_uuid_to_metadata from rfl]
      rw [hrF]
      rfl
    refine ⟨_, F, hrun, ⟨?_, ?_, ?_, ?_, ?_, ?_, Or.inr ⟨?_, ?_⟩⟩, ?_, ?_⟩
    · rw [hS5ffi]
      exact lookupA_insertA_self _ _ _
    · refine ⟨Nat.succ_pos _, newFileRecord path loc u now s.id_counter F
        ((r.file_version + 1) % 2 ^ 32) (some prev), hlkc, ?_, rfl, rfl, ?_⟩
      · show (r.file_version + 1) % 2 ^ 32 = (k + 1) % 2 ^ 32
        rw [hv]
        conv_rhs => rw [Nat.add_mod]
        rw [(by decide : (1 : Nat) % 2 ^ 32 = 1)]
      · refine ChainOk_transport s _ F (prev :: tlc) (k + 1 - 1) ?_ hchain2
        intro fid hfin
        obtain ⟨r0, hr0⟩ := ChainOk_mem_record s F _ _ hchain2 fid hfin
        have hlt := hidsf fid hfin
        by_cases hfp : fid = prev
        · subst hfp
          refine ⟨r0, { r0 with next_version := some s.id_counter }, hr0, ?_,
            rfl, rfl, rfl⟩
          rw [hlkold fid hlt, if_pos rfl, hr0]
          rfl
        · refine ⟨r0, r0, hr0, ?_, rfl, rfl, rfl⟩
          rw [hlkold fid hlt, if_neg hfp]
          exact hr0
    · intro fid hfin
      rw [hS5ctr]
      rcases List.mem_cons.mp hfin with hfin | hfin
      · subst hfin
        exact Nat.lt_succ_self _
      · exact Nat.lt_succ_of_lt (hidsf fid hfin)
    · exact List.Pairwise.cons (fun fid hfin => hidsf fid hfin) hpair
    · refine State.updateFolderFileUuids_consistent _ _ _ _ ?_
      refine State.modifyFile_consistent _ _ _ ?_
      exact State.updateFolderFileUuids_consistent _ _ _ _ hcons
    · refine State.updateFolderFileUuids_fresh _ _ _ _ ?_
      refine State.modifyFile_fresh _ _ _ ?_
      refine State.updateFolderFileUuids_fresh _ _ _ _ ?_
      exact fun kv hkv => Nat.lt_succ_of_lt (hfresh kv hkv)
    · exact ensureFolderStructure_transport loc u now (State.splitPath path).1 p0 p1 tl
        s _ F hsplit hinert hS5fidx
    · refine ⟨_, hlkF, ?_, ?_⟩
      · intro fid hfin
        intro hmem
        rw [List.mem_filter] at hmem
        obtain ⟨h1, h2⟩ := hmem
        rcases List.mem_cons.mp hfin with hfp | hfin2
        · subst hfp
          simp at h2
        · have hltc : fid < s.id_counter := hidsf fid (List.mem_cons_of_mem _ hfin2)
          have hfin3 : fid ∉ rF.file_uuids := hnotin fid hfin2
          by_cases hcc : rF.file_uuids.contains s.id_counter = true
          · rw [if_pos hcc] at h1
            exact hfin3 h1
          · rw [if_neg hcc] at h1
            dsimp only at h1
            rcases List.mem_append.mp h1 with h1 | h1
            · exact hfin3 h1
            · rw [List.mem_singleton] at h1
              exact absurd h1 (ne_of_lt hltc)
      · intro hid hh
        injection hh with hh
        subst hh
        rw [List.mem_filter]
        constructor
        · by_cases hcc : rF.file_uuids.contains s.id_counter = true
          · rw [if_pos hcc]
            simpa using hcc
          · rw [if_neg hcc]
            dsimp only
            exact List.mem_append_right _ (List.mem_singleton_self _)
        · exact decide_eq_true (ne_of_gt hprevlt)
    · rw [hS5ctr]
      exact Nat.lt_succ_self _
    · rw [hS5ctr]
      omega


/-- Any number of sequential upserts preserves the invariant and succeeds,
given counter headroom. -/
theorem upsertRun_spec (path p0 p1 : Str) (tl : List Str) (loc : StorageLocationEnum)
    (u : UserID) (now : Nat)
    (hsan : State.sanitizeFilePath path = path)
    (hsplit : splitSub dcolon (State.splitPath path).1 = p0 :: p1 :: tl)
    (hp0 : p0 = loc.toStr) :
    ∀ (n : Nat) (s : State) (rchain : List FileUUID) (F : FolderUUID) (k : Nat),
      UpsertInv path (State.splitPath path).1 loc u now s rchain F k →
      s.id_counter + n * (2 +
        ((splitChar '/' p1).filter (fun p => ¬ p.isEmpty)).length) < 2 ^ 64 →
      ∃ sfin rchain2 F2,
        upsertRun path loc u now n s = some sfin ∧
        UpsertInv path (State.splitPath path).1 loc u now sfin rchain2 F2 (k + n) := by
  intro n
  induction n with
  | zero =>
    intro s rchain F k hinv hhead
    exact ⟨s, rchain, F, rfl, hinv⟩
  | succ n ih =>
    intro s rchain F k hinv hhead
    have hsm := Nat.succ_mul n
      (2 + ((splitChar '/' p1).filter (fun p => ¬ p.isEmpty)).length)
    rw [hsm] at hhead
    obtain ⟨s5, F2, hrun, hinv2, hlt, hle⟩ :=
      upsertStep path p0 p1 tl loc u now s rchain F k hsan hsplit hp0 hinv (by omega)
    obtain ⟨sfin, rchain2, F3, hrun2, hinv3⟩ :=
      ih s5 (s.id_counter :: rchain) F2 (k + 1) hinv2 (by omega)
    refine ⟨sfin, rchain2, F3, ?_, ?_⟩
    · rw [upsertRun, hrun]
      exact hrun2
    · rw [show k + (n + 1) = k + 1 + n from by omega]
      exact hinv3


/-- C4 (amended): starting from a consistent state in which sanitized path `p`
(whose directory part has a storage prefix matching the passed location) is not
bound to a file, after `K` sequential `upsert_file` calls to `p` with
`K < 2 ^ 32` and counter headroom, walking `prior_version` from the id bound to
`p` visits exactly `K` records whose version numbers are `K, K - 1, ..., 1`
(strictly decreasing) with no repeated ids, and the parent folder's child-file
list holds the newest id and none of the earlier ones. -/
theorem C4_amended_upsert_chain (path p0 p1 : Str) (tl : List Str)
    (loc : StorageLocationEnum) (u : UserID) (now : Nat) (s : State) (K : Nat)
    (hsan : State.sanitizeFilePath path = path)
    (hsplit : splitSub dcolon (State.splitPath path).1 = p0 :: p1 :: tl)
    (hp0 : p0 = loc.toStr)
    (hunbound : lookupA s.full_file_path_to_uuid path = none)
    (hcons : FolderIndexConsistent s)
    (hfresh : foldersFresh s)
    (hhead : s.id_counter + K * (2 +
      ((splitChar '/' p1).filter (fun p => ¬ p.isEmpty)).length) < 2 ^ 64)
    (hK32 : K < 2 ^ 32) :
    ∃ sfin chain,
      upsertRun path loc u now K s = some sfin ∧
      lookupA sfin.full_file_path_to_uuid path = chain.head? ∧
      chain.length = K ∧
      walkPrior sfin K chain.head? = chain ∧
      chain.Nodup ∧
      (∀ i (h : i < chain.length), fileVersionOf sfin (chain.get ⟨i, h⟩) = K - i) ∧
      List.Chain' (· > ·) (chain.map (fileVersionOf sfin)) ∧
      (∀ hid, chain.head? = some hid →
        ∃ rh, lookupA sfin.file_uuid_to_metadata hid = some rh ∧
          ∃ rP, lookupA sfin.folder_uuid_to_metadata rh.folder_uuid = some rP ∧
            hid ∈ rP.file_uuids ∧
            ∀ fid ∈ chain.drop 1, fid ∉ rP.file_uuids) := by
  have hinv0 : UpsertInv path (State.splitPath path).1 loc u now s [] 0 0 :=
    ⟨hunbound, rfl, fun fid hf => absurd hf (List.not_mem_nil _), List.Pairwise.nil,
     hcons, hfresh, Or.inl rfl⟩
  obtain ⟨sfin, chain, F2, hrun, hinv⟩ :=
    upsertRun_spec path p0 p1 tl loc u now hsan hsplit hp0 K s [] 0 0 hinv0 hhead
  rw [Nat.zero_add] at hinv
  obtain ⟨hbind, hchain, hidsf, hpair, hcons2, hfresh2, hrest⟩ := hinv
  have hlen : chain.length = K := ChainOk_length _ _ _ _ hchain
  have hvers : ∀ i (h : i < chain.length),
      fileVersionOf sfin (chain.get ⟨i, h⟩) = K - i := by
    intro i h
    rw [ChainOk_version _ _ _ _ hchain i h]
    exact Nat.mod_eq_of_lt (by omega)
  refine ⟨sfin, chain, hrun, hbind, hlen, ?_, hpair.imp ne_of_gt, hvers, ?_, ?_⟩
  · have := walkPrior_of_chain _ _ _ _ hchain
    rw [hlen] at this
    exact this
  · rw [List.chain'_iff_get]
    intro i hi
    rw [List.length_map] at hi
    rw [List.get_map, List.get_map]
    rw [hvers i (by omega), hvers (i + 1) (by omega)]
    omega
  · intro hid hh
    cases chain with
    | nil => exact Option.noConfusion hh
    | cons c0 rest =>
      injection hh with hh
      subst hh
      rcases hrest with hnil | ⟨_, rF, hrF, hnotin, hheadmem⟩
      · exact absurd hnil (List.cons_ne_nil _ _)
      obtain ⟨hkpos, r, hr, hv, hf, hp, htl⟩ := hchain
      refine ⟨r, hr, ?_⟩
      rw [hf]
      exact ⟨rF, hrF, hheadmem _ rfl, hnotin⟩


/-- Witness for the amended C4: two upserts of `BrowserCache::a/f.txt` in a
fresh instance yield a two-element chain with versions 2, 1. -/
theorem C4_amended_witness :
    ∃ sfin chain,
      upsertRun "BrowserCache::a/f.txt".data StorageLocationEnum.BrowserCache 7 0
        2 initState = some sfin ∧
      lookupA sfin.full_file_path_to_uuid "BrowserCache::a/f.txt".data =
        chain.head? ∧
      chain.length = 2 ∧
      walkPrior sfin 2 chain.head? = chain ∧
      chain.Nodup ∧
      (∀ i (h : i < chain.length), fileVersionOf sfin (chain.get ⟨i, h⟩) = 2 - i) ∧
      List.Chain' (· > ·) (chain.map (fileVersionOf sfin)) ∧
      (∀ hid, chain.head? = some hid →
        ∃ rh, lookupA sfin.file_uuid_to_metadata hid = some rh ∧
          ∃ rP, lookupA sfin.folder_uuid_to_metadata rh.folder_uuid = some rP ∧
            hid ∈ rP.file_uuids ∧
            ∀ fid ∈ chain.drop 1, fid ∉ rP.file_uuids) :=
  C4_amended_upsert_chain "BrowserCache::a/f.txt".data "BrowserCache".data "a".data
    [] StorageLocationEnum.BrowserCache 7 0 initState 2 (by decide) (by decide) rfl
    rfl (fun _ _ h => Option.noConfusion h)
    (fun kv hkv => absurd hkv (List.not_mem_nil _)) (by decide) (by decide)

/-- C4 counterexample: at `K = 2 ^ 32` the `u32` version counter wraps, so the
version numbers along the `prior_version` walk are not strictly decreasing (the
newest record carries version 0, its predecessor `2 ^ 32 - 1`), refuting the
claim for that `K`. -/
theorem C4_counterexample_version_wrap_breaks_strict_decrease :
    ∃ sfin chain,
      upsertRun "BrowserCache::a/f.txt".data StorageLocationEnum.BrowserCache 7 0
        (2 ^ 32) initState = some sfin ∧
      lookupA sfin.full_file_path_to_uuid "BrowserCache::a/f.txt".data =
        chain.head? ∧
      chain.length = 2 ^ 32 ∧
      walkPrior sfin (2 ^ 32) chain.head? = chain ∧
      ¬ List.Chain' (· > ·) (chain.map (fileVersionOf sfin)) := by
  have hinv0 : UpsertInv "BrowserCache::a/f.txt".data
      (State.splitPath "BrowserCache::a/f.txt".data).1
      StorageLocationEnum.BrowserCache 7 0 initState [] 0 0 :=
    ⟨rfl, rfl, fun fid hf => absurd hf (List.not_mem_nil _), List.Pairwise.nil,
     fun _ _ h => Option.noConfusion h,
     fun kv hkv => absurd hkv (List.not_mem_nil _), Or.inl rfl⟩
  obtain ⟨sfin, chain, F2, hrun, hinv⟩ :=
    upsertRun_spec "BrowserCache::a/f.txt".data "BrowserCache".data "a".data []
      StorageLocationEnum.BrowserCache 7 0 (by decide) (by decide) rfl
      (2 ^ 32) initState [] 0 0 hinv0 (by decide)
  rw [Nat.zero_add] at hinv
  obtain ⟨hbind, hchain, hidsf, hpair, hcons2, hfresh2, hrest⟩ := hinv
  have hlen : chain.length = 2 ^ 32 := ChainOk_length _ _ _ _ hchain
  refine ⟨sfin, chain, hrun, hbind, hlen, ?_, ?_⟩
  · have := walkPrior_of_chain _ _ _ _ hchain
    rw [hlen] at this
    exact this
  · cases chain with
    | nil => exact absurd hlen (by decide)
    | cons c0 rest =>
      cases rest with
      | nil =>
        rw [List.length_cons, List.length_nil] at hlen
        exact absurd hlen (by decide)
      | cons c1 rest2 =>
        obtain ⟨hk0, r0, hr0, hv0, _, _, htl0⟩ := hchain
        obtain ⟨hk1, r1, hr1, hv1, _, _, htl1⟩ := htl0
        intro hch
        rw [List.map_cons, List.map_cons, List.chain'_cons] at hch
        obtain ⟨h01, _⟩ := hch
        rw [fileVersionOf, hr0, fileVersionOf, hr1] at h01
        rw [show ((some r0).map FileMetadata.file_version).getD 0 =
          r0.file_version from rfl] at h01
        rw [show ((some r1).map FileMetadata.file_version).getD 0 =
          r1.file_version from rfl] at h01
        rw [hv0, hv1] at h01
        exact absurd h01 (by decide)
/-! ## Machinery for C2: the reachable-store index invariant -/

/-- All file-record keys are below the id counter. -/
def filesFresh (s : State) : Prop :=
  ∀ kv ∈ s.file_uuid_to_metadata, kv.1 < s.id_counter

/-- Every file path binding points at a record carrying that very path. -/
def FileIndexConsistent (s : State) : Prop :=
  ∀ p fid, lookupA s.full_file_path_to_uuid p = some fid →
    ∃ r, lookupA s.file_uuid_to_metadata fid = some r ∧ r.full_file_path = p

/-- The keys of an association list, each at most once. -/
def keysNodup {κ α : Type} [DecidableEq κ] (m : List (κ × α)) : Prop :=
  (m.map Prod.fst).Nodup

/-- The store invariant of C2: unique keys in both path indices, every binding
backed by a record carrying that path, and all record keys below the counter. -/
def StoreInv (s : State) : Prop :=
  keysNodup s.full_folder_path_to_uuid ∧
  keysNodup s.full_file_path_to_uuid ∧
  FolderIndexConsistent s ∧
  FileIndexConsistent s ∧
  foldersFresh s ∧
  filesFresh s

theorem keysNodup_insertA {κ α : Type} [DecidableEq κ] (m : List (κ × α)) (k : κ)
    (v : α) (h : keysNodup m) : keysNodup (insertA m k v) := by
  unfold keysNodup insertA
  rw [List.map_cons]
  refine List.Nodup.cons ?_ ?_
  · intro hmem
    rw [List.mem_map] at hmem
    obtain ⟨kv, hkv, hk⟩ := hmem
    rw [List.mem_filter] at hkv
    obtain ⟨_, hne⟩ := hkv
    rw [hk] at hne
    simp at hne
  · exact List.Nodup.sublist (List.Sublist.map _ (List.filter_sublist _)) h

theorem keysNodup_eraseA {κ α : Type} [DecidableEq κ] (m : List (κ × α)) (k : κ)
    (h : keysNodup m) : keysNodup (eraseA m k) :=
  List.Nodup.sublist (List.Sublist.map _ (List.filter_sublist _)) h

theorem State.modifyFolder_keysNodup (s : State) (fu : FolderUUID)
    (g : FolderMetadata → FolderMetadata)
    (h : keysNodup s.full_folder_path_to_uuid) :
    keysNodup (s.modifyFolder fu g).full_folder_path_to_uuid := by
  rw [State.modifyFolder_folder_index]
  exact h

/-- `modifyFile` with a path-preserving update keeps the file index
consistent. -/
theorem State.modifyFile_fileConsistent (s : State) (fid : FileUUID)
    (g : FileMetadata → FileMetadata)
    (hg : ∀ r, (g r).full_file_path = r.full_file_path)
    (hcons : FileIndexConsistent s) :
    FileIndexConsistent (s.modifyFile fid g) := by
  intro p idq hbind
  rw [State.modifyFile_file_index] at hbind
  obtain ⟨r, hr1, hr2⟩ := hcons _ _ hbind
  rw [State.lookupA_modifyFile]
  by_cases hq : idq = fid
  · subst hq
    rw [if_pos rfl, hr1]
    exact ⟨g r, rfl, by rw [hg, hr2]⟩
  · rw [if_neg hq]
    exact ⟨r, hr1, hr2⟩

/-- `modifyFolder` leaves the file index consistent. -/
theorem State.modifyFolder_fileConsistent (s : State) (fu : FolderUUID)
    (g : FolderMetadata → FolderMetadata)
    (hcons : FileIndexConsistent s) :
    FileIndexConsistent (s.modifyFolder fu g) := by
  intro p idq hbind
  rw [State.modifyFolder_file_index] at hbind
  rw [State.modifyFolder_file_map]
  exact hcons _ _ hbind

/-- `modifyFile` keeps all file-record keys below the counter. -/
theorem State.modifyFile_filesFresh (s : State) (fid : FileUUID)
    (g : FileMetadata → FileMetadata)
    (hfresh : filesFresh s) :
    filesFresh (s.modifyFile fid g) := by
  intro kv hkv
  rw [State.modifyFile_counter]
  rcases State.mem_modifyFile_map _ _ _ _ hkv with hkv2 | ⟨r0, hr0, hkveq⟩
  · exact hfresh _ hkv2
  · have hlt := hfresh _ (lookupA_mem _ _ _ hr0)
    rw [hkveq]
    exact hlt

/-- `modifyFolder` keeps all file-record keys below the counter. -/
theorem State.modifyFolder_filesFresh (s : State) (fu : FolderUUID)
    (g : FolderMetadata → FolderMetadata)
    (hfresh : filesFresh s) :
    filesFresh (s.modifyFolder fu g) := by
  intro kv hkv
  rw [State.modifyFolder_counter]
  rw [State.modifyFolder_file_map] at hkv
  exact hfresh _ hkv

/-- Whether an operation is the cloud-folder sync entry point. -/
def isCloudFolderSync : Op → Bool
  | .upsertCloudFolder _ _ _ => true
  | _ => false

/-- Counter headroom one `ensure_folder_structure` call may consume. -/
def ensureBudget (dir : Str) : Nat :=
  match splitSub dcolon dir with
  | _ :: p1 :: _ =>
    ((splitChar '/' p1).filter (fun p => ¬ p.isEmpty)).length + 1
  | _ => 0

/-- Counter headroom one `create_folder` call may consume. -/
def createBudget (p : Str) : Nat :=
  let sp := State.sanitizeFilePath p
  let sp := if sp.getLast? = some '/' then sp else sp ++ ['/']
  match splitSub dcolon sp with
  | _ :: p1 :: ps =>
    ((splitChar '/' (List.intercalate dcolon (p1 :: ps))).filter
      (fun x => ¬ x.isEmpty)).length + 1
  | _ => 0

/-- Counter headroom one operation may consume. -/
def opBudget : Op → Nat
  | .createFolder p _ _ _ => createBudget p
  | .upsertFile p _ _ _ =>
    ensureBudget (State.splitPath (State.sanitizeFilePath p)).1 + 1
  | .upsertCloudFile _ meta _ _ =>
    ensureBudget (State.splitPath (State.sanitizeFilePath meta.full_file_path)).1 + 1
  | _ => 0

/-- Counter headroom a sequence of operations may consume. -/
def opsBudget : List Op → Nat
  | [] => 0
  | op :: rest => opBudget op + opsBudget rest
/-- The `ensure_folder_structure` loop keeps the folder-index keys unique. -/
theorem ensureFolderLoop_keysNodup (loc : StorageLocationEnum) (u : UserID)
    (now : Nat) :
    ∀ (parts : List Str) (cur : Str) (pu : FolderUUID) (s : State),
      keysNodup s.full_folder_path_to_uuid →
      keysNodup (State.ensureFolderLoop loc u now parts cur pu
        s).2.full_folder_path_to_uuid := by
  intro parts
  induction parts with
  | nil => intro cur pu s h; exact h
  | cons part rest ih =>
    intro cur pu s h
    rw [State.ensureFolderLoop]
    cases hb : lookupA s.full_folder_path_to_uuid (cur ++ part ++ ['/']) with
    | some uuid => exact ih _ _ _ h
    | none =>
      dsimp only
      refine ih _ _ _ ?_
      rw [State.modifyFolder_folder_index]
      exact keysNodup_insertA _ _ _ h

/-- The effect of `ensure_folder_structure` on an arbitrary path: a trap, or
success preserving consistency, freshness and key uniqueness, growing the
counter by at most `ensureBudget` and leaving the file side untouched. -/
theorem ensureFolderStructure_inv (loc : StorageLocationEnum) (u : UserID)
    (now : Nat) (dir : Str) (s : State)
    (hcons : FolderIndexConsistent s)
    (hfresh : foldersFresh s)
    (hnd : keysNodup s.full_folder_path_to_uuid)
    (hhead : s.id_counter + ensureBudget dir < 2 ^ 64) :
    s.ensureFolderStructure dir loc u now = none ∨
    ∃ F s2, s.ensureFolderStructure dir loc u now = some (F, s2) ∧
      FolderIndexConsistent s2 ∧
      foldersFresh s2 ∧
      keysNodup s2.full_folder_path_to_uuid ∧
      s.id_counter ≤ s2.id_counter ∧
      s2.id_counter ≤ s.id_counter + ensureBudget dir ∧
      s2.file_uuid_to_metadata = s.file_uuid_to_metadata ∧
      s2.full_file_path_to_uuid = s.full_file_path_to_uuid := by
  cases hs : splitSub dcolon dir with
  | nil =>
    refine Or.inl ?_
    unfold State.ensureFolderStructure
    rw [hs]
  | cons p0 ps =>
    cases ps with
    | nil =>
      refine Or.inl ?_
      unfold State.ensureFolderStructure
      rw [hs]
    | cons p1 tl =>
      refine Or.inr ?_
      have hbud : ensureBudget dir =
          ((splitChar '/' p1).filter (fun p => ¬ p.isEmpty)).length + 1 := by
        unfold ensureBudget
        rw [hs]
      rw [hbud] at hhead
      unfold State.ensureFolderStructure
      rw [hs]
      dsimp only
      rcases State.ensureRootFolder_spec s loc u now with ⟨ru, hroot, heq⟩ | ⟨hroot, heq⟩
      · rw [heq]
        dsimp only
        obtain ⟨r, hr1, hr2⟩ := hcons _ _ hroot
        have hrult : ru < s.id_counter := hfresh _ (lookupA_mem _ _ _ hr1)
        obtain ⟨c1, c2, c3, c4, c5, c6, c7, c8, c9⟩ :=
          ensureFolderLoop_spec loc u now
            ((splitChar '/' p1).filter (fun p => ¬ p.isEmpty)) (p0 ++ dcolon) ru s
            (State.ensureFolderLoop loc u now
              ((splitChar '/' p1).filter (fun p => ¬ p.isEmpty)) (p0 ++ dcolon) ru s).1
            (State.ensureFolderLoop loc u now
              ((splitChar '/' p1).filter (fun p => ¬ p.isEmpty)) (p0 ++ dcolon) ru s).2
            rfl hcons hfresh (by rw [hr1]; rfl) hrult (by omega)
        exact ⟨_, _, rfl, c3, c4, ensureFolderLoop_keysNodup loc u now _ _ _ _ hnd,
          c5, by omega, c7, c8⟩
      · have hc1 : s.id_counter + 1 < 2 ^ 64 := by omega
        have hcnt : (s.id_counter + 1) % 2 ^ 64 = s.id_counter + 1 := Nat.mod_eq_of_lt hc1
        rw [hcnt] at heq
        rw [heq]
        dsimp only
        obtain ⟨c1, c2, c3, c4, c5, c6, c7, c8, c9⟩ :=
          ensureFolderLoop_spec loc u now
            ((splitChar '/' p1).filter (fun p => ¬ p.isEmpty)) (p0 ++ dcolon) s.id_counter
            { s with
              full_folder_path_to_uuid :=
                insertA s.full_folder_path_to_uuid (loc.toStr ++ dcolon) s.id_counter,
              folder_uuid_to_metadata :=
                insertA s.folder_uuid_to_metadata s.id_counter
                  (rootFolderRecord loc u now s.id_counter),
              id_counter := s.id_counter + 1 }
            (State.ensureFolderLoop loc u now
              ((splitChar '/' p1).filter (fun p => ¬ p.isEmpty)) (p0 ++ dcolon) s.id_counter
              { s with
                full_folder_path_to_uuid :=
                  insertA s.full_folder_path_to_uuid (loc.toStr ++ dcolon) s.id_counter,
                folder_uuid_to_metadata :=
                  insertA s.folder_uuid_to_metadata s.id_counter
                    (rootFolderRecord loc u now s.id_counter),
                id_counter := s.id_counter + 1 }).1
            (State.ensureFolderLoop loc u now
              ((splitChar '/' p1).filter (fun p => ¬ p.isEmpty)) (p0 ++ dcolon) s.id_counter
              { s with
                full_folder_path_to_uuid :=
                  insertA s.full_folder_path_to_uuid (loc.toStr ++ dcolon) s.id_counter,
                folder_uuid_to_metadata :=
                  insertA s.folder_uuid_to_metadata s.id_counter
                    (rootFolderRecord loc u now s.id_counter),
                id_counter := s.id_counter + 1 }).2
            rfl
            (by
              intro p idq hbind
              dsimp only at hbind ⊢
              rw [lookupA_insertA] at hbind
              by_cases hp : p = loc.toStr ++ dcolon
              · rw [if_pos hp] at hbind
                injection hbind with hbind
                subst hbind
                rw [lookupA_insertA_self]
                exact ⟨_, rfl, hp.symm⟩
              · rw [if_neg hp] at hbind
                obtain ⟨r0, hr01, hr02⟩ := hcons _ _ hbind
                have hidlt : idq < s.id_counter := hfresh _ (lookupA_mem _ _ _ hr01)
                rw [lookupA_insertA_ne _ _ _ _ (ne_of_lt hidlt)]
                exact ⟨r0, hr01, hr02⟩)
            (by
              intro kv hkv
              dsimp only at hkv ⊢
              rw [mem_insertA] at hkv
              rcases hkv with hkv | ⟨hkv, _⟩
              · rw [hkv]
                exact Nat.lt_succ_self _
              · exact Nat.lt_succ_of_lt (hfresh _ hkv))
            (by
              dsimp only
              rw [lookupA_insertA_self]
              rfl)
            (Nat.lt_succ_self _)
            (by
              show s.id_counter + 1 +
                ((splitChar '/' p1).filter (fun p => ¬ p.isEmpty)).length < 2 ^ 64
              omega)
        refine ⟨_, _, rfl, c3, c4,
          ensureFolderLoop_keysNodup loc u now _ _ _ _ ?_, ?_, ?_, ?_, ?_⟩
        · show keysNodup (insertA s.full_folder_path_to_uuid (loc.toStr ++ dcolon)
            s.id_counter)
          exact keysNodup_insertA _ _ _ hnd
        · have hc5 : s.id_counter + 1 ≤ (State.ensureFolderLoop loc u now
              ((splitChar '/' p1).filter (fun p => ¬ p.isEmpty)) (p0 ++ dcolon) s.id_counter
              { s with
                full_folder_path_to_uuid :=
                  insertA s.full_folder_path_to_uuid (loc.toStr ++ dcolon) s.id_counter,
                folder_uuid_to_metadata :=
                  insertA s.folder_uuid_to_metadata s.id_counter
                    (rootFolderRecord loc u now s.id_counter),
                id_counter := s.id_counter + 1 }).2.id_counter := c5
          omega
        · have hc6 : (State.ensureFolderLoop loc u now
              ((splitChar '/' p1).filter (fun p => ¬ p.isEmpty)) (p0 ++ dcolon) s.id_counter
              { s with
                full_folder_path_to_uuid :=
                  insertA s.full_folder_path_to_uuid (loc.toStr ++ dcolon) s.id_counter,
                folder_uuid_to_metadata :=
                  insertA s.folder_uuid_to_metadata s.id_counter
                    (rootFolderRecord loc u now s.id_counter),
                id_counter := s.id_counter + 1 }).2.id_counter ≤ s.id_counter + 1 +
              ((splitChar '/' p1).filter (fun p => ¬ p.isEmpty)).length := c6
          omega
        · rw [c7]
        · rw [c8]

theorem State.updateFolderFileUuids_filesFresh (s : State) (fu : FolderUUID)
    (fid : FileUUID) (b : Bool) (hfresh : filesFresh s) :
    filesFresh (s.updateFolderFileUuids fu fid b) := by
  unfold State.updateFolderFileUuids
  exact State.modifyFolder_filesFresh _ _ _ hfresh

theorem State.updateFolderFileUuids_fileConsistent (s : State) (fu : FolderUUID)
    (fid : FileUUID) (b : Bool) (hcons : FileIndexConsistent s) :
    FileIndexConsistent (s.updateFolderFileUuids fu fid b) := by
  unfold State.updateFolderFileUuids
  exact State.modifyFolder_fileConsistent _ _ _ hcons

/-- `upsert_file_to_hash_tables` preserves the store invariant and consumes at
most its budget of counter headroom. -/
theorem upsertFileToHashTables_inv (s : State) (p : Str)
    (loc : StorageLocationEnum) (u : UserID) (now : Nat)
    (hinv : StoreInv s)
    (hhead : s.id_counter +
      ensureBudget (State.splitPath (State.sanitizeFilePath p)).1 + 1 < 2 ^ 64) :
    s.upsertFileToHashTables p loc u now = none ∨
    ∃ fid s2, s.upsertFileToHashTables p loc u now = some (fid, s2) ∧
      StoreInv s2 ∧ s.id_counter ≤ s2.id_counter ∧
      s2.id_counter ≤ s.id_counter +
        ensureBudget (State.splitPath (State.sanitizeFilePath p)).1 + 1 := by
  obtain ⟨hnd1, hnd2, hcons, hfcons, hfresh, hffresh⟩ := hinv
  have hc1 : s.id_counter + 1 < 2 ^ 64 := by omega
  have hcnt : (s.id_counter + 1) % 2 ^ 64 = s.id_counter + 1 := Nat.mod_eq_of_lt hc1
  rcases ensureFolderStructure_inv loc u now
      (State.splitPath (State.sanitizeFilePath p)).1
      { s with id_counter := s.id_counter + 1 } hcons
      (fun kv hkv => Nat.lt_succ_of_lt (hfresh kv hkv)) hnd1
      (by
        show s.id_counter + 1 +
          ensureBudget (State.splitPath (State.sanitizeFilePath p)).1 < 2 ^ 64
        omega)
    with hE | ⟨F, s2, hE, e1, e2, e3, e4, e5, e6, e7⟩
  · refine Or.inl ?_
    unfold State.upsertFileToHashTables
    simp only [generateUniqueId]
    rw [hcnt]
    rw [hE]
  · have he4 : s.id_counter + 1 ≤ s2.id_counter := e4
    have he5 : s2.id_counter ≤ s.id_counter + 1 +
        ensureBudget (State.splitPath (State.sanitizeFilePath p)).1 := e5
    cases hb : lookupA s2.full_file_path_to_uuid (State.sanitizeFilePath p) with
    | none =>
      have hrun : s.upsertFileToHashTables p loc u now =
          some (s.id_counter,
            ({ s2 with
               file_uuid_to_metadata := insertA s2.file_uuid_to_metadata s.id_counter
                 (newFileRecord (State.sanitizeFilePath p) loc u now s.id_counter F
                   1 none),
               full_file_path_to_uuid :=
                 insertA s2.full_file_path_to_uuid (State.sanitizeFilePath p)
                   s.id_counter
             }).updateFolderFileUuids F s.id_counter true) := by
        unfold State.upsertFileToHashTables
        simp only [generateUniqueId]
        rw [hcnt]
        rw [hE]
        dsimp only
        rw [hb]
        dsimp only
        rfl
      refine Or.inr ⟨_, _, hrun, ⟨?_, ?_, ?_, ?_, ?_, ?_⟩, ?_, ?_⟩
      · rw [State.updateFolderFileUuids_folder_index]
        exact e3
      · rw [State.updateFolderFileUuids_file_index]
        show keysNodup (insertA s2.full_file_path_to_uuid (State.sanitizeFilePath p)
          s.id_counter)
        refine keysNodup_insertA _ _ _ ?_
        rw [e7]
        exact hnd2
      · exact State.updateFolderFileUuids_consistent _ _ _ _ e1
      · intro q fid hbind
        rw [State.updateFolderFileUuids_file_index] at hbind
        rw [State.updateFolderFileUuids_file_map]
        have hbind2 : lookupA (insertA s2.full_file_path_to_uuid
            (State.sanitizeFilePath p) s.id_counter) q = some fid := hbind
        rw [lookupA_insertA] at hbind2
        by_cases hq : q = State.sanitizeFilePath p
        · rw [if_pos hq] at hbind2
          injection hbind2 with hbind2
          subst hbind2
          refine ⟨newFileRecord (State.sanitizeFilePath p) loc u now s.id_counter F
            1 none, ?_, hq.symm⟩
          show lookupA (insertA s2.file_uuid_to_metadata s.id_counter _) s.id_counter =
            _
          rw [lookupA_insertA_self]
        · rw [if_neg hq] at hbind2
          rw [e7] at hbind2
          obtain ⟨r0, hr01, hr02⟩ := hfcons _ _ hbind2
          have hlt : fid < s.id_counter := hffresh _ (lookupA_mem _ _ _ hr01)
          refine ⟨r0, ?_, hr02⟩
          show lookupA (insertA s2.file_uuid_to_metadata s.id_counter _) fid = some r0
          rw [lookupA_insertA_ne _ _ _ _ (ne_of_lt hlt), e6]
          exact hr01
      · refine State.updateFolderFileUuids_fresh _ _ _ _ ?_
        exact e2
      · refine State.updateFolderFileUuids_filesFresh _ _ _ _ ?_
        intro kv hkv
        show kv.1 < s2.id_counter
        have hkv2 : kv ∈ insertA s2.file_uuid_to_metadata s.id_counter
            (newFileRecord (State.sanitizeFilePath p) loc u now s.id_counter F
              1 none) := hkv
        rw [mem_insertA] at hkv2
        rcases hkv2 with hkv2 | ⟨hkv2, _⟩
        · rw [hkv2]
          show s.id_counter < s2.id_counter
          omega
        · rw [e6] at hkv2
          have hklt := hffresh _ hkv2
          exact Nat.lt_of_lt_of_le hklt (Nat.le_trans (Nat.le_succ _) he4)
      · rw [State.updateFolderFileUuids_counter]
        show s.id_counter ≤ s2.id_counter
        omega
      · rw [State.updateFolderFileUuids_counter]
        show s2.id_counter ≤ s.id_counter +
          ensureBudget (State.splitPath (State.sanitizeFilePath p)).1 + 1
        omega
    | some prev =>
      cases hrec : lookupA s2.file_uuid_to_metadata prev with
      | none =>
        refine Or.inl ?_
        unfold State.upsertFileToHashTables
        simp only [generateUniqueId]
        rw [hcnt]
        rw [hE]
        dsimp only
        rw [hb]
        dsimp only
        rw [hrec]
      | some r =>
        have hprevlt : prev < s.id_counter := by
          rw [e6] at hrec
          exact hffresh _ (lookupA_mem _ _ _ hrec)
        have hrun : s.upsertFileToHashTables p loc u now =
            some (s.id_counter,
              ((({ s2 with
                 file_uuid_to_metadata := insertA s2.file_uuid_to_metadata s.id_counter
                   (newFileRecord (State.sanitizeFilePath p) loc u now s.id_counter F
                     ((r.file_version + 1) % 2 ^ 32) (some prev)),
                 full_file_path_to_uuid :=
                   insertA s2.full_file_path_to_uuid (State.sanitizeFilePath p)
                     s.id_counter
               }).updateFolderFileUuids F s.id_counter true).modifyFile prev
                  (fun f => { f with next_version := some s.id_counter })).updateFolderFileUuids
                F prev false) := by
          unfold State.upsertFileToHashTables
          simp only [generateUniqueId]
          rw [hcnt]
          rw [hE]
          dsimp only
          rw [hb]
          dsimp only
          rw [hrec]
          dsimp only
          rfl
        refine Or.inr ⟨_, _, hrun, ⟨?_, ?_, ?_, ?_, ?_, ?_⟩, ?_, ?_⟩
        · rw [State.updateFolderFileUuids_folder_index,
            State.modifyFile_folder_index, State.updateFolderFileUuids_folder_index]
          exact e3
        · rw [State.updateFolderFileUuids_file_index, State.modifyFile_file_index,
            State.updateFolderFileUuids_file_index]
          show keysNodup (insertA s2.full_file_path_to_uuid (State.sanitizeFilePath p)
            s.id_counter)
          refine keysNodup_insertA _ _ _ ?_
          rw [e7]
          exact hnd2
        · refine State.updateFolderFileUuids_consistent _ _ _ _ ?_
          refine State.modifyFile_consistent _ _ _ ?_
          exact State.updateFolderFileUuids_consistent _ _ _ _ e1
        · refine State.updateFolderFileUuids_fileConsistent _ _ _ _ ?_
          refine State.modifyFile_fileConsistent _ _ _ (fun r0 => rfl) ?_
          refine State.updateFolderFileUuids_fileConsistent _ _ _ _ ?_
          intro q fid hbind
          have hbind2 : lookupA (insertA s2.full_file_path_to_uuid
              (State.sanitizeFilePath p) s.id_counter) q = some fid := hbind
          rw [lookupA_insertA] at hbind2
          by_cases hq : q = State.sanitizeFilePath p
          · rw [if_pos hq] at hbind2
            injection hbind2 with hbind2
            subst hbind2
            refine ⟨newFileRecord (State.sanitizeFilePath p) loc u now s.id_counter F
              ((r.file_version + 1) % 2 ^ 32) (some prev), ?_, hq.symm⟩
            show lookupA (insertA s2.file_uuid_to_metadata s.id_counter _)
              s.id_counter = _
            rw [lookupA_insertA_self]
          · rw [if_neg hq] at hbind2
            rw [e7] at hbind2
            obtain ⟨r0, hr01, hr02⟩ := hfcons _ _ hbind2
            have hlt : fid < s.id_counter := hffresh _ (lookupA_mem _ _ _ hr01)
            refine ⟨r0, ?_, hr02⟩
            show lookupA (insertA s2.file_uuid_to_metadata s.id_counter _) fid = some r0
            rw [lookupA_insertA_ne _ _ _ _ (ne_of_lt hlt), e6]
            exact hr01
        · refine State.updateFolderFileUuids_fresh _ _ _ _ ?_
          refine State.modifyFile_fresh _ _ _ ?_
          refine State.updateFolderFileUuids_fresh _ _ _ _ ?_
          exact e2
        · refine State.updateFolderFileUuids_filesFresh _ _ _ _ ?_
          refine State.modifyFile_filesFresh _ _ _ ?_
          refine State.updateFolderFileUuids_filesFresh _ _ _ _ ?_
          intro kv hkv
          show kv.1 < s2.id_counter
          have hkv2 : kv ∈ insertA s2.file_uuid_to_metadata s.id_counter
              (newFileRecord (State.sanitizeFilePath p) loc u now s.id_counter F
                ((r.file_version + 1) % 2 ^ 32) (some prev)) := hkv
          rw [mem_insertA] at hkv2
          rcases hkv2 with hkv2 | ⟨hkv2, _⟩
          · rw [hkv2]
            show s.id_counter < s2.id_counter
            omega
          · rw [e6] at hkv2
            have hklt := hffresh _ hkv2
            exact Nat.lt_of_lt_of_le hklt (Nat.le_trans (Nat.le_succ _) he4)
        · rw [State.updateFolderFileUuids_counter, State.modifyFile_counter,
            State.updateFolderFileUuids_counter]
          show s.id_counter ≤ s2.id_counter
          omega
        · rw [State.updateFolderFileUuids_counter, State.modifyFile_counter,
            State.updateFolderFileUuids_counter]
          show s2.id_counter ≤ s.id_counter +
            ensureBudget (State.splitPath (State.sanitizeFilePath p)).1 + 1
          omega
/-- The `create_folder` loop preserves consistency, freshness and key
uniqueness, grows the counter by at most one per part, and leaves the file
side untouched. -/
theorem createFolderLoop_inv (loc : StorageLocationEnum) (u : UserID) (now : Nat) :
    ∀ (parts : List Str) (cur : Str) (parent : FolderUUID) (s : State)
      (res : Except String FolderMetadata) (s2 : State),
      State.createFolderLoop loc u now parts cur parent s = (res, s2) →
      FolderIndexConsistent s →
      foldersFresh s →
      keysNodup s.full_folder_path_to_uuid →
      s.id_counter + parts.length < 2 ^ 64 →
      FolderIndexConsistent s2 ∧
      foldersFresh s2 ∧
      keysNodup s2.full_folder_path_to_uuid ∧
      s.id_counter ≤ s2.id_counter ∧
      s2.id_counter ≤ s.id_counter + parts.length ∧
      s2.file_uuid_to_metadata = s.file_uuid_to_metadata ∧
      s2.full_file_path_to_uuid = s.full_file_path_to_uuid := by
  intro parts
  induction parts with
  | nil =>
    intro cur parent s res s2 h hcons hfresh hnd hhead
    rw [State.createFolderLoop] at h
    injection h with h1 h2
    subst h2
    exact ⟨hcons, hfresh, hnd, le_refl _, by omega, rfl, rfl⟩
  | cons part rest ih =>
    intro cur parent s res s2 h hcons hfresh hnd hhead
    rw [State.createFolderLoop] at h
    cases hb : lookupA s.full_folder_path_to_uuid (cur ++ part ++ ['/']) with
    | some uuid =>
      rw [hb] at h
      obtain ⟨c1, c2, c3, c4, c5, c6, c7⟩ := ih _ _ _ _ _ h hcons hfresh hnd
        (by simp only [List.length_cons] at hhead; omega)
      exact ⟨c1, c2, c3, c4, by simp only [List.length_cons]; omega, c6, c7⟩
    | none =>
      rw [hb] at h
      dsimp only at h
      simp only [generateUniqueId] at h
      have hc1 : s.id_counter + 1 < 2 ^ 64 := by
        simp only [List.length_cons] at hhead
        omega
      have hcnt : (s.id_counter + 1) % 2 ^ 64 = s.id_counter + 1 := Nat.mod_eq_of_lt hc1
      rw [hcnt] at h
      have hconsIns : FolderIndexConsistent ((
          { s with
            full_folder_path_to_uuid :=
              insertA s.full_folder_path_to_uuid (cur ++ part ++ ['/']) s.id_counter,
            folder_uuid_to_metadata :=
              insertA s.folder_uuid_to_metadata s.id_counter
                { id := s.id_counter, original_folder_name := part,
                  parent_folder_uuid := some parent, subfolder_uuids := [],
                  file_uuids := [], full_folder_path := cur ++ part ++ ['/'],
                  tags := [], owner := u, created_date := now,
                  storage_location := loc,
                  last_changed_unix_ms := now / 1000000, deleted := false },
            id_counter := s.id_counter + 1 } : State).modifyFolder parent
          (fun q => { q with subfolder_uuids := q.subfolder_uuids ++ [s.id_counter] })) := by
        refine State.modifyFolder_consistent _ _ _ (fun q => rfl) ?_
        intro q idq hbind
        dsimp only at hbind ⊢
        rw [lookupA_insertA] at hbind
        by_cases hq : q = cur ++ part ++ ['/']
        · rw [if_pos hq] at hbind
          injection hbind with hbind
          subst hbind
          rw [lookupA_insertA_self]
          exact ⟨_, rfl, hq.symm⟩
        · rw [if_neg hq] at hbind
          obtain ⟨r0, hr01, hr02⟩ := hcons _ _ hbind
          have hidlt : idq < s.id_counter := hfresh _ (lookupA_mem _ _ _ hr01)
          rw [lookupA_insertA_ne _ _ _ _ (ne_of_lt hidlt)]
          exact ⟨r0, hr01, hr02⟩
      have hfreshIns : foldersFresh ((
          { s with
            full_folder_path_to_uuid :=
              insertA s.full_folder_path_to_uuid (cur ++ part ++ ['/']) s.id_counter,
            folder_uuid_to_metadata :=
              insertA s.folder_uuid_to_metadata s.id_counter
                { id := s.id_counter, original_folder_name := part,
                  parent_folder_uuid := some parent, subfolder_uuids := [],
                  file_uuids := [], full_folder_path := cur ++ part ++ ['/'],
                  tags := [], owner := u, created_date := now,
                  storage_location := loc,
                  last_changed_unix_ms := now / 1000000, deleted := false },
            id_counter := s.id_counter + 1 } : State).modifyFolder parent
          (fun q => { q with subfolder_uuids := q.subfolder_uuids ++ [s.id_counter] })) := by
        refine State.modifyFolder_fresh _ _ _ ?_
        intro kv hkv
        dsimp only at hkv ⊢
        rw [mem_insertA] at hkv
        rcases hkv with hkv | ⟨hkv, _⟩
        · rw [hkv]
          exact Nat.lt_succ_self _
        · exact Nat.lt_succ_of_lt (hfresh _ hkv)
      have hndIns : keysNodup ((
          { s with
            full_folder_path_to_uuid :=
              insertA s.full_folder_path_to_uuid (cur ++ part ++ ['/']) s.id_counter,
            folder_uuid_to_metadata :=
              insertA s.folder_uuid_to_metadata s.id_counter
                { id := s.id_counter, original_folder_name := part,
                  parent_folder_uuid := some parent, subfolder_uuids := [],
                  file_uuids := [], full_folder_path := cur ++ part ++ ['/'],
                  tags := [], owner := u, created_date := now,
                  storage_location := loc,
                  last_changed_unix_ms := now / 1000000, deleted := false },
            id_counter := s.id_counter + 1 } : State).modifyFolder parent
          (fun q => { q with subfolder_uuids := q.subfolder_uuids ++ [s.id_counter] })).full_folder_path_to_uuid := by
        refine State.modifyFolder_keysNodup _ _ _ ?_
        show keysNodup (insertA s.full_folder_path_to_uuid (cur ++ part ++ ['/'])
          s.id_counter)
        exact keysNodup_insertA _ _ _ hnd
      by_cases hrest : rest.isEmpty
      · rw [if_pos hrest] at h
        injection h with h1 h2
        subst h2
        refine ⟨hconsIns, hfreshIns, hndIns, ?_, ?_, ?_, ?_⟩
        · rw [State.modifyFolder_counter]
          show s.id_counter ≤ s.id_counter + 1
          exact Nat.le_succ _
        · rw [State.modifyFolder_counter]
          show s.id_counter + 1 ≤ s.id_counter + (part :: rest).length
          simp only [List.length_cons]
          omega
        · rw [State.modifyFolder_file_map]
        · rw [State.modifyFolder_file_index]
      · rw [if_neg hrest] at h
        obtain ⟨c1, c2, c3, c4, c5, c6, c7⟩ := ih _ _ _ _ _ h hconsIns hfreshIns hndIns
          (by
            rw [State.modifyFolder_counter]
            show s.id_counter + 1 + rest.length < 2 ^ 64
            simp only [List.length_cons] at hhead
            omega)
        rw [State.modifyFolder_counter] at c4 c5
        refine ⟨c1, c2, c3, ?_, ?_, ?_, ?_⟩
        · have hc4 : s.id_counter + 1 ≤ s2.id_counter := c4
          omega
        · have hc5 : s2.id_counter ≤ s.id_counter + 1 + rest.length := c5
          simp only [List.length_cons]
          omega
        · rw [c6, State.modifyFolder_file_map]
        · rw [c7, State.modifyFolder_file_index]
/-- `ensure_root_folder` preserves consistency, freshness and key uniqueness,
bumps the counter at most once, and leaves the file side untouched. -/
theorem ensureRootFolder_inv (s : State) (loc : StorageLocationEnum) (u : UserID)
    (now : Nat)
    (hcons : FolderIndexConsistent s)
    (hfresh : foldersFresh s)
    (hnd : keysNodup s.full_folder_path_to_uuid)
    (hhead : s.id_counter + 1 < 2 ^ 64) :
    FolderIndexConsistent (s.ensureRootFolder loc u now).2 ∧
    foldersFresh (s.ensureRootFolder loc u now).2 ∧
    keysNodup (s.ensureRootFolder loc u now).2.full_folder_path_to_uuid ∧
    s.id_counter ≤ (s.ensureRootFolder loc u now).2.id_counter ∧
    (s.ensureRootFolder loc u now).2.id_counter ≤ s.id_counter + 1 ∧
    (s.ensureRootFolder loc u now).2.file_uuid_to_metadata =
      s.file_uuid_to_metadata ∧
    (s.ensureRootFolder loc u now).2.full_file_path_to_uuid =
      s.full_file_path_to_uuid := by
  have hcnt : (s.id_counter + 1) % 2 ^ 64 = s.id_counter + 1 := Nat.mod_eq_of_lt hhead
  rcases State.ensureRootFolder_spec s loc u now with ⟨ru, hroot, heq⟩ | ⟨hroot, heq⟩
  · rw [heq]
    exact ⟨hcons, hfresh, hnd, le_refl _, Nat.le_succ _, rfl, rfl⟩
  · rw [hcnt] at heq
    rw [heq]
    refine ⟨?_, ?_, ?_, ?_, ?_, rfl, rfl⟩
    · intro q idq hbind
      dsimp only at hbind ⊢
      rw [lookupA_insertA] at hbind
      by_cases hq : q = loc.toStr ++ dcolon
      · rw [if_pos hq] at hbind
        injection hbind with hbind
        subst hbind
        rw [lookupA_insertA_self]
        exact ⟨_, rfl, hq.symm⟩
      · rw [if_neg hq] at hbind
        obtain ⟨r0, hr01, hr02⟩ := hcons _ _ hbind
        have hidlt : idq < s.id_counter := hfresh _ (lookupA_mem _ _ _ hr01)
        rw [lookupA_insertA_ne _ _ _ _ (ne_of_lt hidlt)]
        exact ⟨r0, hr01, hr02⟩
    · intro kv hkv
      dsimp only at hkv ⊢
      rw [mem_insertA] at hkv
      rcases hkv with hkv | ⟨hkv, _⟩
      · rw [hkv]
        exact Nat.lt_succ_self _
      · exact Nat.lt_succ_of_lt (hfresh _ hkv)
    · show keysNodup (insertA s.full_folder_path_to_uuid (loc.toStr ++ dcolon)
        s.id_counter)
      exact keysNodup_insertA _ _ _ hnd
    · show s.id_counter ≤ s.id_counter + 1
      exact Nat.le_succ _
    · show s.id_counter + 1 ≤ s.id_counter + 1
      exact le_refl _

/-- The budget of the `create_folder` body on an already sanitized path. -/
def createBudgetSan (sp : Str) : Nat :=
  match splitSub dcolon sp with
  | _ :: p1 :: ps =>
    ((splitChar '/' (List.intercalate dcolon (p1 :: ps))).filter
      (fun x => ¬ x.isEmpty)).length + 1
  | _ => 0

/-- The `create_folder` body preserves consistency, freshness and key
uniqueness, stays within its budget, and leaves the file side untouched. -/
theorem createFolderSan_inv (s : State) (sp : Str) (loc : StorageLocationEnum)
    (u : UserID) (now : Nat)
    (hcons : FolderIndexConsistent s)
    (hfresh : foldersFresh s)
    (hnd : keysNodup s.full_folder_path_to_uuid)
    (hhead : s.id_counter + createBudgetSan sp < 2 ^ 64) :
    FolderIndexConsistent (s.createFolderSan sp loc u now).2 ∧
    foldersFresh (s.createFolderSan sp loc u now).2 ∧
    keysNodup (s.createFolderSan sp loc u now).2.full_folder_path_to_uuid ∧
    s.id_counter ≤ (s.createFolderSan sp loc u now).2.id_counter ∧
    (s.createFolderSan sp loc u now).2.id_counter ≤
      s.id_counter + createBudgetSan sp ∧
    (s.createFolderSan sp loc u now).2.file_uuid_to_metadata =
      s.file_uuid_to_metadata ∧
    (s.createFolderSan sp loc u now).2.full_file_path_to_uuid =
      s.full_file_path_to_uuid := by
  unfold State.createFolderSan
  by_cases hemp : sp.isEmpty
  · rw [if_pos hemp]
    exact ⟨hcons, hfresh, hnd, le_refl _, Nat.le_add_right _ _, rfl, rfl⟩
  · rw [if_neg hemp]
    cases hs : splitSub dcolon sp with
    | nil =>
      dsimp only
      exact ⟨hcons, hfresh, hnd, le_refl _, Nat.le_add_right _ _, rfl, rfl⟩
    | cons p0 ps =>
      cases ps with
      | nil =>
        dsimp only
        exact ⟨hcons, hfresh, hnd, le_refl _, Nat.le_add_right _ _, rfl, rfl⟩
      | cons p1 tl =>
        have hbud : createBudgetSan sp =
            ((splitChar '/' (List.intercalate dcolon (p1 :: tl))).filter
              (fun x => ¬ x.isEmpty)).length + 1 := by
          unfold createBudgetSan
          rw [hs]
        rw [hbud] at hhead ⊢
        dsimp only
        by_cases hmis : p0 ≠ loc.toStr
        · rw [if_pos hmis]
          exact ⟨hcons, hfresh, hnd, le_refl _, Nat.le_add_right _ _, rfl, rfl⟩
        · rw [if_neg hmis]
          obtain ⟨r1, r2, r3, r4, r5, r6, r7⟩ :=
            ensureRootFolder_inv s loc u now hcons hfresh hnd (by omega)
          by_cases hpe : ((splitChar '/' (List.intercalate dcolon (p1 :: tl))).filter
              (fun x => ¬ x.isEmpty)).isEmpty
          · rw [if_pos hpe]
            have hr5 : (s.ensureRootFolder loc u now).2.id_counter ≤ s.id_counter +
                (((splitChar '/' (List.intercalate dcolon (p1 :: tl))).filter
                  (fun x => ¬ x.isEmpty)).length + 1) :=
              Nat.le_trans r5 (by omega)
            cases hlk : lookupA (s.ensureRootFolder loc u now).2.folder_uuid_to_metadata
                (s.ensureRootFolder loc u now).1 with
            | some f => exact ⟨r1, r2, r3, r4, hr5, r6, r7⟩
            | none => exact ⟨r1, r2, r3, r4, hr5, r6, r7⟩
          · rw [if_neg hpe]
            obtain ⟨c1, c2, c3, c4, c5, c6, c7⟩ := createFolderLoop_inv loc u now
              ((splitChar '/' (List.intercalate dcolon (p1 :: tl))).filter
                (fun x => ¬ x.isEmpty))
              (p0 ++ dcolon) (s.ensureRootFolder loc u now).1
              (s.ensureRootFolder loc u now).2
              (State.createFolderLoop loc u now
                ((splitChar '/' (List.intercalate dcolon (p1 :: tl))).filter
                  (fun x => ¬ x.isEmpty))
                (p0 ++ dcolon) (s.ensureRootFolder loc u now).1
                (s.ensureRootFolder loc u now).2).1
              (State.createFolderLoop loc u now
                ((splitChar '/' (List.intercalate dcolon (p1 :: tl))).filter
                  (fun x => ¬ x.isEmpty))
                (p0 ++ dcolon) (s.ensureRootFolder loc u now).1
                (s.ensureRootFolder loc u now).2).2
              rfl r1 r2 r3
              (Nat.lt_of_le_of_lt (Nat.add_le_add_right r5 _) (by omega))
            refine ⟨c1, c2, c3, Nat.le_trans r4 c4,
              Nat.le_trans c5 (Nat.le_trans (Nat.add_le_add_right r5 _) (by omega)),
              ?_, ?_⟩
            · rw [c6, r6]
            · rw [c7, r7]
/-- Rebinding one folder: replace the record's path by `np` and move its index
binding from `oldp` to `np`.  This preserves the store invariant, because
consistency forces every binding of that folder to sit at `oldp`. -/
theorem folderRebind_inv (s t : State) (fid : FolderUUID) (oldp np : Str)
    (g : FolderMetadata → FolderMetadata)
    (hg : ∀ r, (g r).full_folder_path = np)
    (hrec : ∃ f, lookupA s.folder_uuid_to_metadata fid = some f ∧
      f.full_folder_path = oldp)
    (ht1 : t.folder_uuid_to_metadata = (s.modifyFolder fid g).folder_uuid_to_metadata)
    (ht2 : t.full_folder_path_to_uuid =
      insertA (eraseA s.full_folder_path_to_uuid oldp) np fid)
    (ht3 : t.file_uuid_to_metadata = s.file_uuid_to_metadata)
    (ht4 : t.full_file_path_to_uuid = s.full_file_path_to_uuid)
    (ht5 : t.id_counter = s.id_counter)
    (hinv : StoreInv s) : StoreInv t := by
  obtain ⟨hnd1, hnd2, hcons, hfcons, hfresh, hffresh⟩ := hinv
  obtain ⟨f, hf1, hf2⟩ := hrec
  refine ⟨?_, ?_, ?_, ?_, ?_, ?_⟩
  · rw [keysNodup, ht2]
    exact keysNodup_insertA _ _ _ (keysNodup_eraseA _ _ hnd1)
  · rw [keysNodup, ht4]
    exact hnd2
  · intro q idq hbind
    rw [ht2] at hbind
    rw [lookupA_insertA] at hbind
    by_cases hq : q = np
    · rw [if_pos hq] at hbind
      injection hbind with hbind
      subst hbind
      rw [ht1, State.lookupA_modifyFolder, if_pos rfl, hf1]
      exact ⟨g f, rfl, by rw [hg, hq]⟩
    · rw [if_neg hq] at hbind
      rw [lookupA_eraseA] at hbind
      by_cases hqo : q = oldp
      · rw [if_pos hqo] at hbind
        exact Option.noConfusion hbind
      · rw [if_neg hqo] at hbind
        obtain ⟨r0, hr01, hr02⟩ := hcons _ _ hbind
        by_cases hidq : idq = fid
        · subst hidq
          rw [hf1] at hr01
          injection hr01 with hr01
          subst hr01
          exact absurd (hf2 ▸ hr02.symm) hqo
        · rw [ht1, State.lookupA_modifyFolder, if_neg hidq]
          exact ⟨r0, hr01, hr02⟩
  · intro q idq hbind
    rw [ht4] at hbind
    rw [ht3]
    exact hfcons _ _ hbind
  · intro kv hkv
    rw [ht5]
    rw [ht1] at hkv
    rcases State.mem_modifyFolder_map _ _ _ _ hkv with hkv2 | ⟨r0, hr0, hkveq⟩
    · exact hfresh _ hkv2
    · have hlt := hfresh _ (lookupA_mem _ _ _ hr0)
      rw [hkveq]
      exact hlt
  · intro kv hkv
    rw [ht5]
    rw [ht3] at hkv
    exact hffresh _ hkv
/-- Rebinding one file: the mirror image of `folderRebind_inv`. -/
theorem fileRebind_inv (s t : State) (fid : FileUUID) (oldp np : Str)
    (g : FileMetadata → FileMetadata)
    (hg : ∀ r, (g r).full_file_path = np)
    (hrec : ∃ f, lookupA s.file_uuid_to_metadata fid = some f ∧
      f.full_file_path = oldp)
    (ht1 : t.file_uuid_to_metadata = (s.modifyFile fid g).file_uuid_to_metadata)
    (ht2 : t.full_file_path_to_uuid =
      insertA (eraseA s.full_file_path_to_uuid oldp) np fid)
    (ht3 : t.folder_uuid_to_metadata = s.folder_uuid_to_metadata)
    (ht4 : t.full_folder_path_to_uuid = s.full_folder_path_to_uuid)
    (ht5 : t.id_counter = s.id_counter)
    (hinv : StoreInv s) : StoreInv t := by
  obtain ⟨hnd1, hnd2, hcons, hfcons, hfresh, hffresh⟩ := hinv
  obtain ⟨f, hf1, hf2⟩ := hrec
  refine ⟨?_, ?_, ?_, ?_, ?_, ?_⟩
  · rw [keysNodup, ht4]
    exact hnd1
  · rw [keysNodup, ht2]
    exact keysNodup_insertA _ _ _ (keysNodup_eraseA _ _ hnd2)
  · intro q idq hbind
    rw [ht4] at hbind
    rw [ht3]
    exact hcons _ _ hbind
  · intro q idq hbind
    rw [ht2] at hbind
    rw [lookupA_insertA] at hbind
    by_cases hq : q = np
    · rw [if_pos hq] at hbind
      injection hbind with hbind
      subst hbind
      rw [ht1, State.lookupA_modifyFile, if_pos rfl, hf1]
      exact ⟨g f, rfl, by rw [hg, hq]⟩
    · rw [if_neg hq] at hbind
      rw [lookupA_eraseA] at hbind
      by_cases hqo : q = oldp
      · rw [if_pos hqo] at hbind
        exact Option.noConfusion hbind
      · rw [if_neg hqo] at hbind
        obtain ⟨r0, hr01, hr02⟩ := hfcons _ _ hbind
        by_cases hidq : idq = fid
        · subst hidq
          rw [hf1] at hr01
          injection hr01 with hr01
          subst hr01
          exact absurd (hf2 ▸ hr02.symm) hqo
        · rw [ht1, State.lookupA_modifyFile, if_neg hidq]
          exact ⟨r0, hr01, hr02⟩
  · intro kv hkv
    rw [ht5]
    rw [ht3] at hkv
    exact hfresh _ hkv
  · intro kv hkv
    rw [ht5]
    rw [ht1] at hkv
    rcases State.mem_modifyFile_map _ _ _ _ hkv with hkv2 | ⟨r0, hr0, hkveq⟩
    · exact hffresh _ hkv2
    · have hlt := hffresh _ (lookupA_mem _ _ _ hr0)
      rw [hkveq]
      exact hlt

/-- Erasing one file record together with the binding at its recorded path
preserves the store invariant. -/
theorem fileErase_inv (s t : State) (fid : FileUUID) (f : FileMetadata)
    (hlk : lookupA s.file_uuid_to_metadata fid = some f)
    (ht1 : t.file_uuid_to_metadata = eraseA s.file_uuid_to_metadata fid)
    (ht2 : t.full_file_path_to_uuid =
      eraseA s.full_file_path_to_uuid f.full_file_path)
    (ht3 : t.folder_uuid_to_metadata = s.folder_uuid_to_metadata)
    (ht4 : t.full_folder_path_to_uuid = s.full_folder_path_to_uuid)
    (ht5 : t.id_counter = s.id_counter)
    (hinv : StoreInv s) : StoreInv t := by
  obtain ⟨hnd1, hnd2, hcons, hfcons, hfresh, hffresh⟩ := hinv
  refine ⟨?_, ?_, ?_, ?_, ?_, ?_⟩
  · rw [keysNodup, ht4]
    exact hnd1
  · rw [keysNodup, ht2]
    exact keysNodup_eraseA _ _ hnd2
  · intro q idq hbind
    rw [ht4] at hbind
    rw [ht3]
    exact hcons _ _ hbind
  · intro q idq hbind
    rw [ht2] at hbind
    rw [lookupA_eraseA] at hbind
    by_cases hq : q = f.full_file_path
    · rw [if_pos hq] at hbind
      exact Option.noConfusion hbind
    · rw [if_neg hq] at hbind
      obtain ⟨r0, hr01, hr02⟩ := hfcons _ _ hbind
      by_cases hidq : idq = fid
      · subst hidq
        rw [hlk] at hr01
        injection hr01 with hr01
        subst hr01
        exact absurd hr02.symm hq
      · rw [ht1, lookupA_eraseA, if_neg hidq]
        exact ⟨r0, hr01, hr02⟩
  · intro kv hkv
    rw [ht5]
    rw [ht3] at hkv
    exact hfresh _ hkv
  · intro kv hkv
    rw [ht5]
    rw [ht1, mem_eraseA] at hkv
    exact hffresh _ hkv.1

/-- Removing a folder-path binding (leaving the record) preserves the store
invariant. -/
theorem folderIdxErase_inv (s t : State) (p : Str)
    (ht1 : t.folder_uuid_to_metadata = s.folder_uuid_to_metadata)
    (ht2 : t.full_folder_path_to_uuid = eraseA s.full_folder_path_to_uuid p)
    (ht3 : t.file_uuid_to_metadata = s.file_uuid_to_metadata)
    (ht4 : t.full_file_path_to_uuid = s.full_file_path_to_uuid)
    (ht5 : t.id_counter = s.id_counter)
    (hinv : StoreInv s) : StoreInv t := by
  obtain ⟨hnd1, hnd2, hcons, hfcons, hfresh, hffresh⟩ := hinv
  refine ⟨?_, ?_, ?_, ?_, ?_, ?_⟩
  · rw [keysNodup, ht2]
    exact keysNodup_eraseA _ _ hnd1
  · rw [keysNodup, ht4]
    exact hnd2
  · intro q idq hbind
    rw [ht2] at hbind
    rw [lookupA_eraseA] at hbind
    by_cases hq : q = p
    · rw [if_pos hq] at hbind
      exact Option.noConfusion hbind
    · rw [if_neg hq] at hbind
      rw [ht1]
      exact hcons _ _ hbind
  · intro q idq hbind
    rw [ht4] at hbind
    rw [ht3]
    exact hfcons _ _ hbind
  · intro kv hkv
    rw [ht5]
    rw [ht1] at hkv
    exact hfresh _ hkv
  · intro kv hkv
    rw [ht5]
    rw [ht3] at hkv
    exact hffresh _ hkv

theorem State.modifyFile_map_of_lookup (x : State) (fid : FileUUID)
    (g : FileMetadata → FileMetadata) (f : FileMetadata)
    (h : lookupA x.file_uuid_to_metadata fid = some f) :
    (x.modifyFile fid g).file_uuid_to_metadata =
      insertA x.file_uuid_to_metadata fid (g f) := by
  unfold State.modifyFile
  rw [h]

theorem State.modifyFolder_map_of_lookup (x : State) (fid : FolderUUID)
    (g : FolderMetadata → FolderMetadata) (f : FolderMetadata)
    (h : lookupA x.folder_uuid_to_metadata fid = some f) :
    (x.modifyFolder fid g).folder_uuid_to_metadata =
      insertA x.folder_uuid_to_metadata fid (g f) := by
  unfold State.modifyFolder
  rw [h]

/-- `rebindFile` preserves the store invariant when the erased path is the
record's current path. -/
theorem State.rebindFile_StoreInv (s : State) (fid : FileUUID) (f : FileMetadata)
    (np : Str)
    (hlk : lookupA s.file_uuid_to_metadata fid = some f)
    (hinv : StoreInv s) : StoreInv (s.rebindFile fid f.full_file_path np) := by
  refine fileRebind_inv s _ fid f.full_file_path np
    (fun q => { q with full_file_path := np }) (fun r => rfl) ⟨f, hlk, rfl⟩
    ?_ ?_ ?_ ?_ ?_ hinv
  · show (({ s with full_file_path_to_uuid :=
                      eraseA s.full_file_path_to_uuid f.full_file_path } : State).modifyFile fid
        (fun q => { q with full_file_path := np })).file_uuid_to_metadata = _
    rw [State.modifyFile_map_of_lookup _ _ _ _
      (show lookupA ({ s with full_file_path_to_uuid :=
                                eraseA s.full_file_path_to_uuid f.full_file_path } :
          State).file_uuid_to_metadata fid = some f from hlk),
      State.modifyFile_map_of_lookup _ _ _ _ hlk]
  · show insertA (({ s with full_file_path_to_uuid :=
                              eraseA s.full_file_path_to_uuid f.full_file_path } : State).modifyFile fid
        (fun q => { q with full_file_path := np })).full_file_path_to_uuid np fid = _
    rw [State.modifyFile_file_index]
  · show (({ s with full_file_path_to_uuid :=
                      eraseA s.full_file_path_to_uuid f.full_file_path } : State).modifyFile fid
        (fun q => { q with full_file_path := np })).folder_uuid_to_metadata = _
    rw [State.modifyFile_folder_map]
  · show (({ s with full_file_path_to_uuid :=
                      eraseA s.full_file_path_to_uuid f.full_file_path } : State).modifyFile fid
        (fun q => { q with full_file_path := np })).full_folder_path_to_uuid = _
    rw [State.modifyFile_folder_index]
  · show (({ s with full_file_path_to_uuid :=
                      eraseA s.full_file_path_to_uuid f.full_file_path } : State).modifyFile fid
        (fun q => { q with full_file_path := np })).id_counter = _
    rw [State.modifyFile_counter]

theorem State.rebindFile_folder_map (s : State) (fid : FileUUID) (oldp np : Str) :
    (s.rebindFile fid oldp np).folder_uuid_to_metadata = s.folder_uuid_to_metadata := by
  show (({ s with
        full_file_path_to_uuid := eraseA s.full_file_path_to_uuid oldp } :
      State).modifyFile fid
      (fun f => { f with full_file_path := np })).folder_uuid_to_metadata = _
  rw [State.modifyFile_folder_map]

theorem State.rebindFile_folder_index (s : State) (fid : FileUUID) (oldp np : Str) :
    (s.rebindFile fid oldp np).full_folder_path_to_uuid =
      s.full_folder_path_to_uuid := by
  show (({ s with
        full_file_path_to_uuid := eraseA s.full_file_path_to_uuid oldp } :
      State).modifyFile fid
      (fun f => { f with full_file_path := np })).full_folder_path_to_uuid = _
  rw [State.modifyFile_folder_index]

theorem State.rebindFile_counter (s : State) (fid : FileUUID) (oldp np : Str) :
    (s.rebindFile fid oldp np).id_counter = s.id_counter := by
  show (({ s with
        full_file_path_to_uuid := eraseA s.full_file_path_to_uuid oldp } :
      State).modifyFile fid
      (fun f => { f with full_file_path := np })).id_counter = _
  rw [State.modifyFile_counter]

/-- `rebindFolder` preserves the store invariant when the erased path is the
record's current path. -/
theorem State.rebindFolder_StoreInv (s : State) (fid : FolderUUID)
    (f : FolderMetadata) (np : Str)
    (hlk : lookupA s.folder_uuid_to_metadata fid = some f)
    (hinv : StoreInv s) : StoreInv (s.rebindFolder fid f.full_folder_path np) := by
  refine folderRebind_inv s _ fid f.full_folder_path np
    (fun q => { q with full_folder_path := np }) (fun r => rfl) ⟨f, hlk, rfl⟩
    ?_ ?_ ?_ ?_ ?_ hinv
  · show (({ s with
          full_folder_path_to_uuid :=
            eraseA s.full_folder_path_to_uuid f.full_folder_path } : State).modifyFolder
        fid (fun q => { q with full_folder_path := np })).folder_uuid_to_metadata = _
    rw [State.modifyFolder_map_of_lookup _ _ _ _
      (show lookupA ({ s with
          full_folder_path_to_uuid :=
            eraseA s.full_folder_path_to_uuid f.full_folder_path } :
          State).folder_uuid_to_metadata fid = some f from hlk),
      State.modifyFolder_map_of_lookup _ _ _ _ hlk]
  · show insertA (({ s with
          full_folder_path_to_uuid :=
            eraseA s.full_folder_path_to_uuid f.full_folder_path } : State).modifyFolder
        fid (fun q => { q with full_folder_path := np })).full_folder_path_to_uuid
        np fid = _
    rw [State.modifyFolder_folder_index]
  · show (({ s with
          full_folder_path_to_uuid :=
            eraseA s.full_folder_path_to_uuid f.full_folder_path } : State).modifyFolder
        fid (fun q => { q with full_folder_path := np })).file_uuid_to_metadata = _
    rw [State.modifyFolder_file_map]
  · show (({ s with
          full_folder_path_to_uuid :=
            eraseA s.full_folder_path_to_uuid f.full_folder_path } : State).modifyFolder
        fid (fun q => { q with full_folder_path := np })).full_file_path_to_uuid = _
    rw [State.modifyFolder_file_index]
  · show (({ s with
          full_folder_path_to_uuid :=
            eraseA s.full_folder_path_to_uuid f.full_folder_path } : State).modifyFolder
        fid (fun q => { q with full_folder_path := np })).id_counter = _
    rw [State.modifyFolder_counter]

theorem State.rebindFolder_file_map (s : State) (fid : FolderUUID) (oldp np : Str) :
    (s.rebindFolder fid oldp np).file_uuid_to_metadata = s.file_uuid_to_metadata := by
  show (({ s with
        full_folder_path_to_uuid := eraseA s.full_folder_path_to_uuid oldp } :
      State).modifyFolder fid
      (fun f => { f with full_folder_path := np })).file_uuid_to_metadata = _
  rw [State.modifyFolder_file_map]

theorem State.rebindFolder_file_index (s : State) (fid : FolderUUID) (oldp np : Str) :
    (s.rebindFolder fid oldp np).full_file_path_to_uuid =
      s.full_file_path_to_uuid := by
  show (({ s with
        full_folder_path_to_uuid := eraseA s.full_folder_path_to_uuid oldp } :
      State).modifyFolder fid
      (fun f => { f with full_folder_path := np })).full_file_path_to_uuid = _
  rw [State.modifyFolder_file_index]

theorem State.rebindFolder_counter (s : State) (fid : FolderUUID) (oldp np : Str) :
    (s.rebindFolder fid oldp np).id_counter = s.id_counter := by
  show (({ s with
        full_folder_path_to_uuid := eraseA s.full_folder_path_to_uuid oldp } :
      State).modifyFolder fid
      (fun f => { f with full_folder_path := np })).id_counter = _
  rw [State.modifyFolder_counter]

/-- The file loop of `update_subfolder_paths` preserves the store invariant
and touches neither the folder side nor the counter. -/
theorem uspFiles_inv : ∀ (ids : List FileUUID) (old np : Str) (s : State),
    StoreInv s →
    StoreInv (uspFiles ids old np s) ∧
    (uspFiles ids old np s).id_counter = s.id_counter ∧
    (uspFiles ids old np s).folder_uuid_to_metadata = s.folder_uuid_to_metadata ∧
    (uspFiles ids old np s).full_folder_path_to_uuid = s.full_folder_path_to_uuid := by
  intro ids
  induction ids with
  | nil => intro old np s h; exact ⟨h, rfl, rfl, rfl⟩
  | cons fid rest ih =>
    intro old np s h
    rw [uspFiles]
    cases hlk : lookupA s.file_uuid_to_metadata fid with
    | none => exact ih _ _ _ h
    | some f =>
      dsimp only
      obtain ⟨c1, c2, c3, c4⟩ := ih old np
        (s.rebindFile fid f.full_file_path (replaceStr old np f.full_file_path))
        (State.rebindFile_StoreInv s fid f _ hlk h)
      refine ⟨c1, ?_, ?_, ?_⟩
      · rw [c2, State.rebindFile_counter]
      · rw [c3, State.rebindFile_folder_map]
      · rw [c4, State.rebindFile_folder_index]
/-- `update_subfolder_paths` and its subfolder loop preserve the store
invariant and the counter, for every fuel. -/
theorem usp_inv : ∀ (fuel : Nat),
    (∀ (fid : FolderUUID) (old np : Str) (s r : State),
      uspGo fuel fid old np s = some r → StoreInv s →
      StoreInv r ∧ r.id_counter = s.id_counter) ∧
    (∀ (ids : List FolderUUID) (old np : Str) (s r : State),
      uspSubs fuel ids old np s = some r → StoreInv s →
      StoreInv r ∧ r.id_counter = s.id_counter) := by
  intro fuel
  induction fuel with
  | zero =>
    constructor
    · intro fid old np s r h _
      exact Option.noConfusion h
    · intro ids old np s r h hinv
      cases ids with
      | nil =>
        injection h with h
        subst h
        exact ⟨hinv, rfl⟩
      | cons a rest => exact Option.noConfusion h
  | succ fuel ih =>
    obtain ⟨ihGo, ihSubs⟩ := ih
    constructor
    · intro fid old np s r h hinv
      rw [uspGo] at h
      cases hlk : lookupA s.folder_uuid_to_metadata fid with
      | none =>
        rw [hlk] at h
        injection h with h
        subst h
        exact ⟨hinv, rfl⟩
      | some folder =>
        rw [hlk] at h
        dsimp only at h
        cases hsub : uspSubs fuel folder.subfolder_uuids old np s with
        | none => rw [hsub] at h; exact Option.noConfusion h
        | some s1 =>
          rw [hsub] at h
          dsimp only at h
          injection h with h
          subst h
          obtain ⟨i1, i2⟩ := ihSubs _ _ _ _ _ hsub hinv
          obtain ⟨c1, c2, _, _⟩ := uspFiles_inv folder.file_uuids old np s1 i1
          exact ⟨c1, by rw [c2, i2]⟩
    · intro ids old np s r h hinv
      cases ids with
      | nil =>
        injection h with h
        subst h
        exact ⟨hinv, rfl⟩
      | cons sid rest =>
        rw [uspSubs] at h
        cases hlk : lookupA s.folder_uuid_to_metadata sid with
        | none =>
          rw [hlk] at h
          exact ihSubs _ _ _ _ _ h hinv
        | some subfolder =>
          rw [hlk] at h
          dsimp only at h
          cases hgo : uspGo fuel sid subfolder.full_folder_path
              (replaceStr old np subfolder.full_folder_path)
              (s.rebindFolder sid subfolder.full_folder_path
                (replaceStr old np subfolder.full_folder_path)) with
          | none => rw [hgo] at h; exact Option.noConfusion h
          | some s2 =>
            rw [hgo] at h
            dsimp only at h
            have hreb := State.rebindFolder_StoreInv s sid subfolder
              (replaceStr old np subfolder.full_folder_path) hlk hinv
            obtain ⟨g1, g2⟩ := ihGo _ _ _ _ _ hgo hreb
            obtain ⟨r1, r2⟩ := ihSubs _ _ _ _ _ h g1
            refine ⟨r1, ?_⟩
            rw [r2, g2, State.rebindFolder_counter]
/-- `modifyFolder` with a path-preserving update preserves the whole store
invariant. -/
theorem State.modifyFolder_StoreInv (s : State) (fid : FolderUUID)
    (g : FolderMetadata → FolderMetadata)
    (hg : ∀ r, (g r).full_folder_path = r.full_folder_path)
    (hinv : StoreInv s) : StoreInv (s.modifyFolder fid g) := by
  obtain ⟨hnd1, hnd2, hcons, hfcons, hfresh, hffresh⟩ := hinv
  refine ⟨?_, ?_, ?_, ?_, ?_, ?_⟩
  · rw [keysNodup, State.modifyFolder_folder_index]
    exact hnd1
  · rw [keysNodup, State.modifyFolder_file_index]
    exact hnd2
  · exact State.modifyFolder_consistent _ _ _ hg hcons
  · exact State.modifyFolder_fileConsistent _ _ _ hfcons
  · exact State.modifyFolder_fresh _ _ _ hfresh
  · exact State.modifyFolder_filesFresh _ _ _ hffresh

/-- `modifyFile` with a path-preserving update preserves the whole store
invariant. -/
theorem State.modifyFile_StoreInv (s : State) (fid : FileUUID)
    (g : FileMetadata → FileMetadata)
    (hg : ∀ r, (g r).full_file_path = r.full_file_path)
    (hinv : StoreInv s) : StoreInv (s.modifyFile fid g) := by
  obtain ⟨hnd1, hnd2, hcons, hfcons, hfresh, hffresh⟩ := hinv
  refine ⟨?_, ?_, ?_, ?_, ?_, ?_⟩
  · rw [keysNodup, State.modifyFile_folder_index]
    exact hnd1
  · rw [keysNodup, State.modifyFile_file_index]
    exact hnd2
  · intro p idq hbind
    rw [State.modifyFile_folder_index] at hbind
    rw [State.modifyFile_folder_map]
    exact hcons _ _ hbind
  · exact State.modifyFile_fileConsistent _ _ _ hg hfcons
  · intro kv hkv
    rw [State.modifyFile_counter]
    rw [State.modifyFile_folder_map] at hkv
    exact hfresh _ hkv
  · exact State.modifyFile_filesFresh _ _ _ hffresh
/-- `renameBindFolder` preserves the store invariant and the counter when the
unbound path is the record's current path. -/
theorem State.renameBindFolder_StoreInv (s : State) (fid : FolderUUID)
    (f : FolderMetadata) (nn np : Str) (now : Nat)
    (hlk : lookupA s.folder_uuid_to_metadata fid = some f)
    (hinv : StoreInv s) :
    StoreInv (s.renameBindFolder fid nn f.full_folder_path np now) := by
  refine folderRebind_inv s _ fid f.full_folder_path np
    (fun q => { q with original_folder_name := nn, full_folder_path := np,
                       last_changed_unix_ms := now / 1000000 })
    (fun r => rfl) ⟨f, hlk, rfl⟩ ?_ ?_ ?_ ?_ ?_ hinv
  · show ((s.modifyFolder fid _).folder_uuid_to_metadata) = _
    rfl
  · show insertA (eraseA (s.modifyFolder fid _).full_folder_path_to_uuid
      f.full_folder_path) np fid = _
    rw [State.modifyFolder_folder_index]
  · show (s.modifyFolder fid _).file_uuid_to_metadata = _
    rw [State.modifyFolder_file_map]
  · show (s.modifyFolder fid _).full_file_path_to_uuid = _
    rw [State.modifyFolder_file_index]
  · show (s.modifyFolder fid _).id_counter = _
    rw [State.modifyFolder_counter]

theorem State.renameBindFolder_counter (s : State) (fid : FolderUUID)
    (nn oldp np : Str) (now : Nat) :
    (s.renameBindFolder fid nn oldp np now).id_counter = s.id_counter := by
  show (s.modifyFolder fid _).id_counter = _
  rw [State.modifyFolder_counter]

/-- `renameBindFile` preserves the store invariant and the counter when the
unbound path is the record's current path. -/
theorem State.renameBindFile_StoreInv (s : State) (fid : FileUUID)
    (f : FileMetadata) (nn np : Str) (now : Nat)
    (hlk : lookupA s.file_uuid_to_metadata fid = some f)
    (hinv : StoreInv s) :
    StoreInv (s.renameBindFile fid nn f.full_file_path np now) := by
  refine fileRebind_inv s _ fid f.full_file_path np
    (fun q => { q with original_file_name := nn, full_file_path := np,
                       last_changed_unix_ms := now / 1000000,
                       extension := lastSegmentAfter '.' nn })
    (fun r => rfl) ⟨f, hlk, rfl⟩ ?_ ?_ ?_ ?_ ?_ hinv
  · show ((s.modifyFile fid _).file_uuid_to_metadata) = _
    rfl
  · show insertA (eraseA (s.modifyFile fid _).full_file_path_to_uuid
      f.full_file_path) np fid = _
    rw [State.modifyFile_file_index]
  · show (s.modifyFile fid _).folder_uuid_to_metadata = _
    rw [State.modifyFile_folder_map]
  · show (s.modifyFile fid _).full_folder_path_to_uuid = _
    rw [State.modifyFile_folder_index]
  · show (s.modifyFile fid _).id_counter = _
    rw [State.modifyFile_counter]

theorem State.renameBindFile_counter (s : State) (fid : FileUUID)
    (nn oldp np : Str) (now : Nat) :
    (s.renameBindFile fid nn oldp np now).id_counter = s.id_counter := by
  show (s.modifyFile fid _).id_counter = _
  rw [State.modifyFile_counter]

/-- `purgeFile` preserves the store invariant and the counter when the removed
binding is the record's current path. -/
theorem State.purgeFile_StoreInv (s : State) (fid : FileUUID) (f : FileMetadata)
    (hlk : lookupA s.file_uuid_to_metadata fid = some f)
    (hinv : StoreInv s) : StoreInv (s.purgeFile fid f.full_file_path) :=
  fileErase_inv s _ fid f hlk rfl rfl rfl rfl rfl hinv

theorem State.purgeFile_counter (s : State) (fid : FileUUID) (p : Str) :
    (s.purgeFile fid p).id_counter = s.id_counter := rfl

theorem State.purgeFile_folder_map (s : State) (fid : FileUUID) (p : Str) :
    (s.purgeFile fid p).folder_uuid_to_metadata = s.folder_uuid_to_metadata := rfl

theorem State.purgeFile_folder_index (s : State) (fid : FileUUID) (p : Str) :
    (s.purgeFile fid p).full_folder_path_to_uuid = s.full_folder_path_to_uuid := rfl
/-- `rename_folder` preserves the store invariant (on `Ok` as well as on the
mutating `Err` paths) and never changes the counter. -/
theorem renameFolder_inv (s : State) (fid : FolderUUID) (nn : Str) (now : Nat)
    (hinv : StoreInv s) :
    ∀ out, s.renameFolder fid nn now = out →
      out = none ∨ ∃ res s2, out = some (res, s2) ∧ StoreInv s2 ∧
        s2.id_counter = s.id_counter := by
  intro out h
  unfold State.renameFolder at h
  split at h
  · exact Or.inr ⟨_, _, h.symm, hinv, rfl⟩
  · rename_i folder hlk
    simp only [] at h
    split at h
    · exact Or.inr ⟨_, _, h.symm, hinv, rfl⟩
    · rename_i storage_part restPath hsp
      split at h
      · split at h
        · exact Or.inr ⟨_, _, h.symm, hinv, rfl⟩
        · rename_i hex
          split at h
          · exact Or.inl h.symm
          · rename_i s4 hgo
            obtain ⟨g1, g2⟩ := (usp_inv _).1 _ _ _ _ _ hgo
              (State.renameBindFolder_StoreInv s fid folder nn _ now hlk hinv)
            rw [State.renameBindFolder_counter] at g2
            exact Or.inr ⟨_, _, h.symm, g1, g2⟩
      · split at h
        · exact Or.inr ⟨_, _, h.symm, hinv, rfl⟩
        · rename_i hex
          split at h
          · exact Or.inl h.symm
          · rename_i s4 hgo
            obtain ⟨g1, g2⟩ := (usp_inv _).1 _ _ _ _ _ hgo
              (State.renameBindFolder_StoreInv s fid folder nn _ now hlk hinv)
            rw [State.renameBindFolder_counter] at g2
            split at h
            · rename_i pu hpu
              refine Or.inr ⟨_, _, h.symm, ?_, ?_⟩
              · refine State.modifyFolder_StoreInv _ _ _ ?_ g1
                intro r
                dsimp only
                split <;> rfl
              · rw [State.modifyFolder_counter]
                exact g2
            · exact Or.inr ⟨_, _, h.symm, g1, g2⟩

/-- `rename_file` preserves the store invariant and never changes the
counter. -/
theorem renameFile_inv (s : State) (fid : FileUUID) (nn : Str) (now : Nat)
    (hinv : StoreInv s) :
    ∀ res s2, s.renameFile fid nn now = (res, s2) →
      StoreInv s2 ∧ s2.id_counter = s.id_counter := by
  intro res s2 h
  unfold State.renameFile at h
  split at h
  · injection h with h1 h2
    subst h2
    exact ⟨hinv, rfl⟩
  · rename_i file hlk
    simp only [] at h
    split at h
    · injection h with h1 h2
      subst h2
      exact ⟨hinv, rfl⟩
    · rename_i storage_part file_path hsp
      split at h
      · injection h with h1 h2
        subst h2
        exact ⟨hinv, rfl⟩
      · rename_i hex
        injection h with h1 h2
        subst h2
        exact ⟨State.renameBindFile_StoreInv s fid file nn _ now hlk hinv,
          State.renameBindFile_counter _ _ _ _ _ _⟩
/-- `delete_file` preserves the store invariant and the counter. -/
theorem deleteFile_inv (s : State) (fid : FileUUID) (hinv : StoreInv s) :
    ∀ res s2, s.deleteFile fid = (res, s2) →
      StoreInv s2 ∧ s2.id_counter = s.id_counter := by
  intro res s2 h
  unfold State.deleteFile at h
  split at h
  · injection h with h1 h2
    subst h2
    exact ⟨hinv, rfl⟩
  · rename_i file hlk
    simp only [] at h
    have hp := State.purgeFile_StoreInv s fid file hlk hinv
    split at h <;> split at h <;>
      (injection h with h1 h2; subst h2) <;>
      refine ⟨?_, ?_⟩
    · exact State.modifyFile_StoreInv _ _ _ (fun r => rfl)
        (State.modifyFile_StoreInv _ _ _ (fun r => rfl) hp)
    · rw [State.modifyFile_counter, State.modifyFile_counter,
        State.purgeFile_counter]
    · exact State.modifyFile_StoreInv _ _ _ (fun r => rfl) hp
    · rw [State.modifyFile_counter, State.purgeFile_counter]
    · exact State.modifyFile_StoreInv _ _ _ (fun r => rfl) hp
    · rw [State.modifyFile_counter, State.purgeFile_counter]
    · exact hp
    · rw [State.purgeFile_counter]

/-- The file loop of `delete_folder` preserves the store invariant and the
counter. -/
theorem delFiles_inv : ∀ (ids : List FileUUID) (s : State), StoreInv s →
    ∀ res s2, delFiles ids s = (res, s2) →
      StoreInv s2 ∧ s2.id_counter = s.id_counter := by
  intro ids
  induction ids with
  | nil =>
    intro s hinv res s2 h
    injection h with h1 h2
    subst h2
    exact ⟨hinv, rfl⟩
  | cons fid rest ih =>
    intro s hinv res s2 h
    rw [delFiles] at h
    split at h
    · rename_i e st hd
      injection h with h1 h2
      subst h2
      exact (deleteFile_inv s fid hinv _ _ hd)
    · rename_i u st hd
      obtain ⟨d1, d2⟩ := deleteFile_inv s fid hinv _ _ hd
      obtain ⟨c1, c2⟩ := ih st d1 _ _ h
      exact ⟨c1, by rw [c2, d2]⟩

/-- `delete_folder`'s recursion and its subfolder loop preserve the store
invariant and the counter, for every fuel. -/
theorem del_inv : ∀ (fuel : Nat),
    (∀ (fid : FolderUUID) (now : Nat) (s : State) (r : Except String Unit × State),
      delGo fuel fid now s = some r → StoreInv s →
      StoreInv r.2 ∧ r.2.id_counter = s.id_counter) ∧
    (∀ (ids : List FolderUUID) (now : Nat) (s : State)
      (r : Except String Unit × State),
      delSubs fuel ids now s = some r → StoreInv s →
      StoreInv r.2 ∧ r.2.id_counter = s.id_counter) := by
  intro fuel
  induction fuel with
  | zero =>
    constructor
    · intro fid now s r h _
      exact Option.noConfusion h
    · intro ids now s r h hinv
      cases ids with
      | nil =>
        injection h with h
        subst h
        exact ⟨hinv, rfl⟩
      | cons a rest => exact Option.noConfusion h
  | succ fuel ih =>
    obtain ⟨ihGo, ihSubs⟩ := ih
    constructor
    · intro fid now s r h hinv
      rw [delGo] at h
      split at h
      · injection h with h
        subst h
        exact ⟨hinv, rfl⟩
      · rename_i folder hlk
        have her : StoreInv ({ s with
            full_folder_path_to_uuid :=
              eraseA s.full_folder_path_to_uuid folder.full_folder_path } : State) :=
          folderIdxErase_inv s _ folder.full_folder_path rfl rfl rfl rfl rfl hinv
        simp only [] at h
        split at h
        · exact Option.noConfusion h
        · rename_i e st hsub
          injection h with h
          subst h
          obtain ⟨d1, d2⟩ := ihSubs folder.subfolder_uuids now _ _ hsub her
          refine ⟨d1, ?_⟩
          rw [d2]
        · rename_i u st hsub
          obtain ⟨d1, d2⟩ := ihSubs folder.subfolder_uuids now _ _ hsub her
          rw [show ({ s with
              full_folder_path_to_uuid :=
                eraseA s.full_folder_path_to_uuid folder.full_folder_path } :
              State).id_counter = s.id_counter from rfl] at d2
          split at h
          · rename_i e2 st2 hdf
            injection h with h
            subst h
            obtain ⟨f1, f2⟩ := delFiles_inv folder.file_uuids st d1 _ _ hdf
            exact ⟨f1, by rw [f2, d2]⟩
          · rename_i u2 st2 hdf
            injection h with h
            subst h
            obtain ⟨f1, f2⟩ := delFiles_inv folder.file_uuids st d1 _ _ hdf
            refine ⟨State.modifyFolder_StoreInv _ _ _ (fun q => rfl) f1, ?_⟩
            show (st2.modifyFolder fid _).id_counter = _
            rw [State.modifyFolder_counter, f2, d2]
    · intro ids now s r h hinv
      cases ids with
      | nil =>
        injection h with h
        subst h
        exact ⟨hinv, rfl⟩
      | cons sid rest =>
        rw [delSubs] at h
        split at h
        · exact Option.noConfusion h
        · rename_i e st hgo
          injection h with h
          subst h
          exact ihGo _ _ _ _ hgo hinv
        · rename_i u st hgo
          obtain ⟨d1, d2⟩ := ihGo _ _ _ _ hgo hinv
          obtain ⟨c1, c2⟩ := ihSubs _ _ _ _ h d1
          exact ⟨c1, by rw [c2, d2]⟩

/-- `delete_folder` preserves the store invariant and the counter. -/
theorem deleteFolder_inv (s : State) (fid : FolderUUID) (now : Nat)
    (hinv : StoreInv s) :
    ∀ out, s.deleteFolder fid now = out →
      out = none ∨ ∃ r, out = some r ∧ StoreInv r.2 ∧
        r.2.id_counter = s.id_counter := by
  intro out h
  cases out with
  | none => exact Or.inl rfl
  | some r =>
    refine Or.inr ⟨r, rfl, ?_⟩
    exact (del_inv _).1 _ _ _ _ h hinv
/-- Inserting a fresh file record and its path binding preserves the store
invariant. -/
theorem fileInsert_inv (s t : State) (c : FileUUID) (rec : FileMetadata) (p : Str)
    (hnotin : ∀ kv ∈ s.file_uuid_to_metadata, kv.1 ≠ c)
    (hclt : c < s.id_counter)
    (hrecp : rec.full_file_path = p)
    (ht1 : t.file_uuid_to_metadata = insertA s.file_uuid_to_metadata c rec)
    (ht2 : t.full_file_path_to_uuid = insertA s.full_file_path_to_uuid p c)
    (ht3 : t.folder_uuid_to_metadata = s.folder_uuid_to_metadata)
    (ht4 : t.full_folder_path_to_uuid = s.full_folder_path_to_uuid)
    (ht5 : t.id_counter = s.id_counter)
    (hinv : StoreInv s) : StoreInv t := by
  obtain ⟨hnd1, hnd2, hcons, hfcons, hfresh, hffresh⟩ := hinv
  refine ⟨?_, ?_, ?_, ?_, ?_, ?_⟩
  · rw [keysNodup, ht4]
    exact hnd1
  · rw [keysNodup, ht2]
    exact keysNodup_insertA _ _ _ hnd2
  · intro q idq hbind
    rw [ht4] at hbind
    rw [ht3]
    exact hcons _ _ hbind
  · intro q idq hbind
    rw [ht2, lookupA_insertA] at hbind
    by_cases hq : q = p
    · rw [if_pos hq] at hbind
      injection hbind with hbind
      subst hbind
      rw [ht1, lookupA_insertA_self]
      exact ⟨rec, rfl, by rw [hrecp, hq]⟩
    · rw [if_neg hq] at hbind
      obtain ⟨r0, hr01, hr02⟩ := hfcons _ _ hbind
      have hne : idq ≠ c := hnotin _ (lookupA_mem _ _ _ hr01)
      rw [ht1, lookupA_insertA_ne _ _ _ _ hne]
      exact ⟨r0, hr01, hr02⟩
  · intro kv hkv
    rw [ht5]
    rw [ht3] at hkv
    exact hfresh _ hkv
  · intro kv hkv
    rw [ht5]
    rw [ht1, mem_insertA] at hkv
    rcases hkv with hkv | ⟨hkv, _⟩
    · rw [hkv]
      exact hclt
    · exact hffresh _ hkv

/-- `upsert_cloud_file_with_local_sync` preserves the store invariant within
its budget of counter headroom. -/
theorem upsertCloudFile_inv (s : State) (fid : FileUUID) (meta : FileMetadata)
    (caller : UserID) (now : Nat)
    (hinv : StoreInv s)
    (hhead : s.id_counter +
      ensureBudget (State.splitPath (State.sanitizeFilePath meta.full_file_path)).1 +
        1 < 2 ^ 64) :
    ∀ out, s.upsertCloudFileWithLocalSync fid meta caller now = out →
      out = none ∨ ∃ r, out = some r ∧ StoreInv r.2 ∧
        s.id_counter ≤ r.2.id_counter ∧
        r.2.id_counter ≤ s.id_counter +
          ensureBudget (State.splitPath (State.sanitizeFilePath meta.full_file_path)).1 +
            1 := by
  obtain ⟨hnd1, hnd2, hcons, hfcons, hfresh, hffresh⟩ := hinv
  have hc1 : s.id_counter + 1 < 2 ^ 64 := by omega
  have hcnt : (s.id_counter + 1) % 2 ^ 64 = s.id_counter + 1 := Nat.mod_eq_of_lt hc1
  intro out h
  unfold State.upsertCloudFileWithLocalSync at h
  split at h
  · exact Or.inl h.symm
  · rename_i existing_file hlk
    simp only [generateUniqueId] at h
    rw [hcnt] at h
    rcases ensureFolderStructure_inv meta.storage_location caller now
        (State.splitPath (State.sanitizeFilePath meta.full_file_path)).1
        { s with id_counter := s.id_counter + 1 } hcons
        (fun kv hkv => Nat.lt_succ_of_lt (hfresh kv hkv)) hnd1
        (by
          show s.id_counter + 1 +
            ensureBudget
              (State.splitPath (State.sanitizeFilePath meta.full_file_path)).1 <
            2 ^ 64
          omega)
      with hE2 | ⟨F2, s2, hE2, e1, e2, e3, e4, e5, e6, e7⟩
    · rw [hE2] at h
      exact Or.inl h.symm
    · rw [hE2] at h
      dsimp only at h
      have he4 : s.id_counter + 1 ≤ s2.id_counter := e4
      have he5 : s2.id_counter ≤ s.id_counter + 1 +
          ensureBudget
            (State.splitPath (State.sanitizeFilePath meta.full_file_path)).1 := e5
      split at h
      · exact Or.inl h.symm
      · rename_i chain hchain
        have hs2 : StoreInv s2 := by
          refine ⟨e3, ?_, e1, ?_, e2, ?_⟩
          · rw [keysNodup, e7]
            exact hnd2
          · intro q idq hbind
            rw [e7] at hbind
            rw [e6]
            exact hfcons _ _ hbind
          · intro kv hkv
            rw [e6] at hkv
            exact Nat.lt_of_lt_of_le (hffresh _ hkv) (Nat.le_trans (Nat.le_succ _) he4)
        refine Or.inr ⟨_, h.symm, ?_, ?_, ?_⟩
        · refine State.modifyFile_StoreInv _ _ _ (fun r => rfl) ?_
          refine State.modifyFolder_StoreInv _ _ _ (fun r => rfl) ?_
          refine fileInsert_inv
            (s2.modifyFolder F2 (fun folder =>
              { folder with file_uuids :=
                  folder.file_uuids.filter (fun uuid => ¬ chain.contains uuid) }))
            _ s.id_counter _ _ ?_ ?_ rfl rfl rfl rfl rfl rfl ?_
          · intro kv hkv
            rw [State.modifyFolder_file_map, e6] at hkv
            exact ne_of_lt (hffresh _ hkv)
          · rw [State.modifyFolder_counter]
            show s.id_counter < s2.id_counter
            omega
          · exact State.modifyFolder_StoreInv _ _ _ (fun r => rfl) hs2
        · rw [State.modifyFile_counter, State.modifyFolder_counter]
          dsimp only
          rw [State.modifyFolder_counter]
          omega
        · rw [State.modifyFile_counter, State.modifyFolder_counter]
          dsimp only
          rw [State.modifyFolder_counter]
          omega
/-- One exposed operation other than the cloud-folder sync preserves the store
invariant within its budget of counter headroom. -/
theorem step_inv (s : State) (op : Op)
    (hinv : StoreInv s)
    (hop : isCloudFolderSync op = false)
    (hhead : s.id_counter + opBudget op < 2 ^ 64) :
    StoreInv (step s op) ∧ s.id_counter ≤ (step s op).id_counter ∧
    (step s op).id_counter ≤ s.id_counter + opBudget op := by
  cases op with
  | createFolder p loc u now =>
    obtain ⟨hnd1, hnd2, hcons, hfcons, hfresh, hffresh⟩ := hinv
    obtain ⟨c1, c2, c3, c4, c5, c6, c7⟩ := createFolderSan_inv s
      (if (State.sanitizeFilePath p).getLast? = some '/' then State.sanitizeFilePath p
       else State.sanitizeFilePath p ++ ['/']) loc u now hcons hfresh hnd1
      (show s.id_counter + createBudgetSan
        (if (State.sanitizeFilePath p).getLast? = some '/' then State.sanitizeFilePath p
         else State.sanitizeFilePath p ++ ['/']) < 2 ^ 64 from hhead)
    show StoreInv (s.createFolderSan
        (if (State.sanitizeFilePath p).getLast? = some '/' then State.sanitizeFilePath p
         else State.sanitizeFilePath p ++ ['/']) loc u now).2 ∧
      s.id_counter ≤ (s.createFolderSan
        (if (State.sanitizeFilePath p).getLast? = some '/' then State.sanitizeFilePath p
         else State.sanitizeFilePath p ++ ['/']) loc u now).2.id_counter ∧
      (s.createFolderSan
        (if (State.sanitizeFilePath p).getLast? = some '/' then State.sanitizeFilePath p
         else State.sanitizeFilePath p ++ ['/']) loc u now).2.id_counter ≤
        s.id_counter + opBudget (Op.createFolder p loc u now)
    refine ⟨⟨c3, ?_, c1, ?_, c2, ?_⟩, c4, c5⟩
    · rw [keysNodup, c7]
      exact hnd2
    · intro q idq hbind
      rw [c7] at hbind
      rw [c6]
      exact hfcons _ _ hbind
    · intro kv hkv
      rw [c6] at hkv
      exact Nat.lt_of_lt_of_le (hffresh _ hkv) c4
  | upsertFile p loc u now =>
    rcases upsertFileToHashTables_inv s p loc u now hinv hhead
      with hnone | ⟨fid2, s2, heq, hinv2, hle1, hle2⟩
    · have hs : step s (Op.upsertFile p loc u now) = s := by
        unfold step
        dsimp only
        rw [hnone]
      rw [hs]
      exact ⟨hinv, le_refl _, Nat.le_add_right _ _⟩
    · have hs : step s (Op.upsertFile p loc u now) = s2 := by
        unfold step
        dsimp only
        rw [heq]
      rw [hs]
      exact ⟨hinv2, hle1, hle2⟩
  | renameFolder fid nn now =>
    rcases renameFolder_inv s fid nn now hinv _ rfl
      with hnone | ⟨res, s2, heq, hinv2, hctr⟩
    · have hs : step s (Op.renameFolder fid nn now) = s := by
        unfold step
        dsimp only
        rw [hnone]
      rw [hs]
      exact ⟨hinv, le_refl _, Nat.le_add_right _ _⟩
    · have hs : step s (Op.renameFolder fid nn now) = s2 := by
        unfold step
        dsimp only
        rw [heq]
      rw [hs]
      exact ⟨hinv2, le_of_eq hctr.symm, by rw [hctr]; exact Nat.le_add_right _ _⟩
  | renameFile fid nn now =>
    obtain ⟨hinv2, hctr⟩ := renameFile_inv s fid nn now hinv
      (s.renameFile fid nn now).1 (s.renameFile fid nn now).2 rfl
    have hs : step s (Op.renameFile fid nn now) = (s.renameFile fid nn now).2 := rfl
    rw [hs]
    exact ⟨hinv2, le_of_eq hctr.symm, by rw [hctr]; exact Nat.le_add_right _ _⟩
  | deleteFolder fid now =>
    rcases deleteFolder_inv s fid now hinv _ rfl
      with hnone | ⟨r, heq, hinv2, hctr⟩
    · have hs : step s (Op.deleteFolder fid now) = s := by
        unfold step
        dsimp only
        rw [hnone]
      rw [hs]
      exact ⟨hinv, le_refl _, Nat.le_add_right _ _⟩
    · have hs : step s (Op.deleteFolder fid now) = r.2 := by
        unfold step
        dsimp only
        rw [heq]
      rw [hs]
      exact ⟨hinv2, le_of_eq hctr.symm, by rw [hctr]; exact Nat.le_add_right _ _⟩
  | deleteFile fid =>
    obtain ⟨hinv2, hctr⟩ := deleteFile_inv s fid hinv
      (s.deleteFile fid).1 (s.deleteFile fid).2 rfl
    have hs : step s (Op.deleteFile fid) = (s.deleteFile fid).2 := rfl
    rw [hs]
    exact ⟨hinv2, le_of_eq hctr.symm, by rw [hctr]; exact Nat.le_add_right _ _⟩
  | upsertCloudFile fid meta caller now =>
    rcases upsertCloudFile_inv s fid meta caller now hinv hhead _ rfl
      with hnone | ⟨r, heq, hinv2, hle1, hle2⟩
    · have hs : step s (Op.upsertCloudFile fid meta caller now) = s := by
        unfold step
        dsimp only
        rw [hnone]
      rw [hs]
      exact ⟨hinv, le_refl _, Nat.le_add_right _ _⟩
    · have hs : step s (Op.upsertCloudFile fid meta caller now) = r.2 := by
        unfold step
        dsimp only
        rw [heq]
      rw [hs]
      exact ⟨hinv2, hle1, hle2⟩
  | upsertCloudFolder fid meta now => exact Bool.noConfusion hop

/-- Any sequence of exposed operations avoiding the cloud-folder sync
preserves the store invariant, within its total budget. -/
theorem runOps_inv : ∀ (ops : List Op) (s : State),
    StoreInv s →
    (∀ op ∈ ops, isCloudFolderSync op = false) →
    s.id_counter + opsBudget ops < 2 ^ 64 →
    StoreInv (runOps s ops) ∧
    (runOps s ops).id_counter ≤ s.id_counter + opsBudget ops := by
  intro ops
  induction ops with
  | nil =>
    intro s hinv _ _
    exact ⟨hinv, Nat.le_add_right _ _⟩
  | cons op rest ih =>
    intro s hinv hops hhead
    have hbo : opsBudget (op :: rest) = opBudget op + opsBudget rest := rfl
    rw [hbo] at hhead
    obtain ⟨i1, i2, i3⟩ := step_inv s op hinv (hops op (List.mem_cons_self _ _))
      (by omega)
    obtain ⟨c1, c2⟩ := ih (step s op) i1
      (fun o ho => hops o (List.mem_cons_of_mem _ ho))
      (Nat.lt_of_le_of_lt (Nat.add_le_add_right i3 _) (by omega))
    refine ⟨c1, ?_⟩
    rw [hbo]
    calc (runOps (step s op) rest).id_counter ≤
        (step s op).id_counter + opsBudget rest := c2
      _ ≤ s.id_counter + opBudget op + opsBudget rest :=
        Nat.add_le_add_right i3 _
      _ = s.id_counter + (opBudget op + opsBudget rest) := Nat.add_assoc _ _ _

/-- C2 (amended): in every state reachable from the empty store by operations
other than `upsert_cloud_folder_with_local_sync`, with total id headroom below
the `u64` bound, each canonical path is bound to at most one id in each path
index, and every binding points at a record carrying exactly that path. -/
theorem C2_amended_reachable_index_consistency (ops : List Op)
    (hops : ∀ op ∈ ops, isCloudFolderSync op = false)
    (hbudget : opsBudget ops < 2 ^ 64) :
    keysNodup (runOps initState ops).full_folder_path_to_uuid ∧
    keysNodup (runOps initState ops).full_file_path_to_uuid ∧
    FolderIndexConsistent (runOps initState ops) ∧
    FileIndexConsistent (runOps initState ops) := by
  have hinv0 : StoreInv initState :=
    ⟨List.nodup_nil, List.nodup_nil,
     fun _ _ hb => Option.noConfusion hb,
     fun _ _ hb => Option.noConfusion hb,
     fun kv hk => absurd hk (List.not_mem_nil _),
     fun kv hk => absurd hk (List.not_mem_nil _)⟩
  obtain ⟨⟨h1, h2, h3, h4, _, _⟩, _⟩ := runOps_inv ops initState hinv0 hops
    (by
      show 0 + opsBudget ops < 2 ^ 64
      omega)
  exact ⟨h1, h2, h3, h4⟩

/-- Witness for the amended C2: a concrete mixed workload (create, upsert,
rename, delete) satisfies the hypotheses, and the reached store satisfies the
index invariant. -/
theorem C2_amended_witness :
    keysNodup (runOps initState
      [Op.createFolder "BrowserCache::a/b".data StorageLocationEnum.BrowserCache 7 0,
       Op.upsertFile "BrowserCache::a/f.txt".data StorageLocationEnum.BrowserCache 7 2,
       Op.renameFile 3 "g.txt".data 3,
       Op.deleteFolder 2 4]).full_folder_path_to_uuid ∧
    keysNodup (runOps initState
      [Op.createFolder "BrowserCache::a/b".data StorageLocationEnum.BrowserCache 7 0,
       Op.upsertFile "BrowserCache::a/f.txt".data StorageLocationEnum.BrowserCache 7 2,
       Op.renameFile 3 "g.txt".data 3,
       Op.deleteFolder 2 4]).full_file_path_to_uuid ∧
    FolderIndexConsistent (runOps initState
      [Op.createFolder "BrowserCache::a/b".data StorageLocationEnum.BrowserCache 7 0,
       Op.upsertFile "BrowserCache::a/f.txt".data StorageLocationEnum.BrowserCache 7 2,
       Op.renameFile 3 "g.txt".data 3,
       Op.deleteFolder 2 4]) ∧
    FileIndexConsistent (runOps initState
      [Op.createFolder "BrowserCache::a/b".data StorageLocationEnum.BrowserCache 7 0,
       Op.upsertFile "BrowserCache::a/f.txt".data StorageLocationEnum.BrowserCache 7 2,
       Op.renameFile 3 "g.txt".data 3,
       Op.deleteFolder 2 4]) :=
  C2_amended_reachable_index_consistency
    [Op.createFolder "BrowserCache::a/b".data StorageLocationEnum.BrowserCache 7 0,
     Op.upsertFile "BrowserCache::a/f.txt".data StorageLocationEnum.BrowserCache 7 2,
     Op.renameFile 3 "g.txt".data 3,
     Op.deleteFolder 2 4]
    (by decide) (by decide)
/-! ## Machinery for C5 and C6: folder subtrees as inductive trees -/

mutual

/-- A folder subtree: the folder's id, its full path, its files (id and full
path each), and its subfolders. -/
inductive FTree : Type where
  | mk (fid : FolderUUID) (path : Str) (files : List (FileUUID × Str))
      (subs : FForest)

/-- A list of folder subtrees. -/
inductive FForest : Type where
  | nil
  | cons (t : FTree) (ts : FForest)

end

/-- The root id of a subtree. -/
def rootT : FTree → FolderUUID
  | .mk fid _ _ _ => fid

/-- The root ids of a forest. -/
def rootsF : FForest → List FolderUUID
  | .nil => []
  | .cons t ts => rootT t :: rootsF ts

mutual

def folderIdsT : FTree → List FolderUUID
  | .mk fid _ _ subs => fid :: folderIdsF subs

def folderIdsF : FForest → List FolderUUID
  | .nil => []
  | .cons t ts => folderIdsT t ++ folderIdsF ts

end

mutual

def folderPathsT : FTree → List Str
  | .mk _ q _ subs => q :: folderPathsF subs

def folderPathsF : FForest → List Str
  | .nil => []
  | .cons t ts => folderPathsT t ++ folderPathsF ts

end

mutual

def fileIdsT : FTree → List FileUUID
  | .mk _ _ files subs => files.map Prod.fst ++ fileIdsF subs

def fileIdsF : FForest → List FileUUID
  | .nil => []
  | .cons t ts => fileIdsT t ++ fileIdsF ts

end

mutual

def filePathsT : FTree → List Str
  | .mk _ _ files subs => files.map Prod.snd ++ filePathsF subs

def filePathsF : FForest → List Str
  | .nil => []
  | .cons t ts => filePathsT t ++ filePathsF ts

end

mutual

/-- Fuel sufficient for `delGo` (and `uspGo`) on this subtree. -/
def needT : FTree → Nat
  | .mk _ _ _ subs => needF subs + 1

def needF : FForest → Nat
  | .nil => 0
  | .cons t ts => needT t + needF ts + 1

end

mutual

def countT : FTree → Nat
  | .mk _ _ _ subs => countF subs + 1

def countF : FForest → Nat
  | .nil => 0
  | .cons t ts => countT t + countF ts

end

mutual

/-- The subtree matches the store: each folder record exists and carries the
annotated path, child lists and files; each file record exists and carries the
annotated path. -/
def matchesT (s : State) : FTree → Bool
  | .mk fid q files subs =>
    (match lookupA s.folder_uuid_to_metadata fid with
     | none => false
     | some r =>
       decide (r.full_folder_path = q) &&
       decide (r.file_uuids = files.map Prod.fst) &&
       decide (r.subfolder_uuids = rootsF subs)) &&
    files.all (fun fp =>
      match lookupA s.file_uuid_to_metadata fp.1 with
      | none => false
      | some fr => decide (fr.full_file_path = fp.2)) &&
    matchesF s subs

def matchesF (s : State) : FForest → Bool
  | .nil => true
  | .cons t ts => matchesT s t && matchesF s ts

end

/-- Case proofs for `needT t + 1 ≤ 2 * countT t`, shared by the mutual recursion. -/
theorem need_le_mk (fid : FolderUUID) (q : Str) (files : List (FileUUID × Str))
    (subs : FForest) (ih : needF subs ≤ 2 * countF subs) :
    needT (.mk fid q files subs) + 1 ≤ 2 * countT (.mk fid q files subs) := by
  rw [needT, countT]
  omega

theorem need_le_nil : needF .nil ≤ 2 * countF .nil := by
  rw [needF, countF]

theorem need_le_cons (t : FTree) (ts : FForest)
    (ih1 : needT t + 1 ≤ 2 * countT t) (ih2 : needF ts ≤ 2 * countF ts) :
    needF (.cons t ts) ≤ 2 * countF (.cons t ts) := by
  rw [needF, countF]
  omega

/-- `needT` is below twice the node count. -/
theorem need_le_two_count :
    (∀ t : FTree, needT t + 1 ≤ 2 * countT t) ∧
    (∀ ts : FForest, needF ts ≤ 2 * countF ts) :=
  ⟨fun t => FTree.rec (motive_1 := fun t => needT t + 1 ≤ 2 * countT t)
    (motive_2 := fun ts => needF ts ≤ 2 * countF ts)
    (fun fid q files subs ih => need_le_mk fid q files subs ih)
    need_le_nil (fun t ts ih1 ih2 => need_le_cons t ts ih1 ih2) t,
   fun ts => FForest.rec (motive_1 := fun t => needT t + 1 ≤ 2 * countT t)
    (motive_2 := fun ts => needF ts ≤ 2 * countF ts)
    (fun fid q files subs ih => need_le_mk fid q files subs ih)
    need_le_nil (fun t ts ih1 ih2 => need_le_cons t ts ih1 ih2) ts⟩
/-! ## Deleting files: characterization lemmas -/

/-- A map over an option of file records that preserves the path field. -/
theorem mapPath_none {o : Option FileMetadata}
    (h : o.map FileMetadata.full_file_path = none) : o = none := by
  cases o with
  | none => rfl
  | some r => simp at h

theorem mapPath_some {o : Option FileMetadata} {v : Str}
    (h : o.map FileMetadata.full_file_path = some v) :
    ∃ r, o = some r ∧ r.full_file_path = v := by
  cases o with
  | none => simp at h
  | some r =>
    refine ⟨r, rfl, ?_⟩
    simpa using h

/-- `modifyFile` with a path-preserving update keeps the path view of the
file map pointwise. -/
theorem State.modifyFile_path_map (x : State) (id : FileUUID)
    (g : FileMetadata → FileMetadata)
    (hg : ∀ r, (g r).full_file_path = r.full_file_path) (q : FileUUID) :
    (lookupA (x.modifyFile id g).file_uuid_to_metadata q).map
        FileMetadata.full_file_path =
      (lookupA x.file_uuid_to_metadata q).map FileMetadata.full_file_path := by
  rw [State.lookupA_modifyFile]
  by_cases h : q = id
  · subst h
    rw [if_pos rfl]
    cases lookupA x.file_uuid_to_metadata q with
    | none => rfl
    | some r => simp [hg]
  · rw [if_neg h]

/-- `delete_file` of a present id: `Ok`, record and path binding gone, every
other record keeps its path, the folder side and counter untouched. -/
theorem State.deleteFileOk (s : State) (fid : FileUUID) (fr : FileMetadata)
    (hlk : lookupA s.file_uuid_to_metadata fid = some fr) :
    ∃ s', s.deleteFile fid = (.ok (), s') ∧
      lookupA s'.file_uuid_to_metadata fid = none ∧
      (∀ g, g ≠ fid →
        (lookupA s'.file_uuid_to_metadata g).map FileMetadata.full_file_path =
          (lookupA s.file_uuid_to_metadata g).map FileMetadata.full_file_path) ∧
      s'.full_file_path_to_uuid = eraseA s.full_file_path_to_uuid fr.full_file_path ∧
      s'.folder_uuid_to_metadata = s.folder_uuid_to_metadata ∧
      s'.full_folder_path_to_uuid = s.full_folder_path_to_uuid ∧
      s'.id_counter = s.id_counter := by
  have hbase : ∀ g, lookupA ((s.purgeFile fid fr.full_file_path).file_uuid_to_metadata) g =
      if g = fid then none else lookupA s.file_uuid_to_metadata g := by
    intro g
    simp [State.purgeFile, lookupA_eraseA]
  unfold State.deleteFile
  rw [hlk]
  dsimp only
  cases hp : fr.prior_version with
  | none =>
    cases hn : fr.next_version with
    | none =>
      dsimp only
      refine ⟨_, rfl, ?_, ?_, ?_, rfl, rfl, rfl⟩
      · rw [hbase, if_pos rfl]
      · intro g hg
        rw [hbase, if_neg hg]
      · rfl
    | some nxt =>
      dsimp only
      refine ⟨_, rfl, ?_, ?_, ?_, ?_, ?_, ?_⟩
      · apply mapPath_none
        rw [State.modifyFile_path_map, hbase, if_pos rfl]
        all_goals first | rfl | (intro r; rfl)
      · intro g hg
        rw [State.modifyFile_path_map, hbase, if_neg hg]
        all_goals first | rfl | (intro r; rfl)
      · rw [State.modifyFile_file_index]
        rfl
      · rw [State.modifyFile_folder_map]
        rfl
      · rw [State.modifyFile_folder_index]
        rfl
      · rw [State.modifyFile_counter]
        rfl
  | some prior =>
    cases hn : fr.next_version with
    | none =>
      dsimp only
      refine ⟨_, rfl, ?_, ?_, ?_, ?_, ?_, ?_⟩
      · apply mapPath_none
        rw [State.modifyFile_path_map, hbase, if_pos rfl]
        all_goals first | rfl | (intro r; rfl)
      · intro g hg
        rw [State.modifyFile_path_map, hbase, if_neg hg]
        all_goals first | rfl | (intro r; rfl)
      · rw [State.modifyFile_file_index]
        rfl
      · rw [State.modifyFile_folder_map]
        rfl
      · rw [State.modifyFile_folder_index]
        rfl
      · rw [State.modifyFile_counter]
        rfl
    | some nxt =>
      dsimp only
      refine ⟨_, rfl, ?_, ?_, ?_, ?_, ?_, ?_⟩
      · apply mapPath_none
        rw [State.modifyFile_path_map, State.modifyFile_path_map, hbase, if_pos rfl]
        all_goals first | rfl | (intro r; rfl)
      · intro g hg
        rw [State.modifyFile_path_map, State.modifyFile_path_map, hbase, if_neg hg]
        all_goals first | rfl | (intro r; rfl)
      · rw [State.modifyFile_file_index, State.modifyFile_file_index]
        rfl
      · rw [State.modifyFile_folder_map, State.modifyFile_folder_map]
        rfl
      · rw [State.modifyFile_folder_index, State.modifyFile_folder_index]
        rfl
      · rw [State.modifyFile_counter, State.modifyFile_counter]
        rfl
/-- The file-deletion loop of `delete_folder`: with distinct present ids it
returns `Ok`, purges exactly the listed records and their path bindings, and
leaves everything else (up to splice fields) in place. -/
theorem delFilesOk (files : List (FileUUID × Str)) :
    ∀ s : State,
    (files.map Prod.fst).Nodup →
    files.all (fun fp =>
      match lookupA s.file_uuid_to_metadata fp.1 with
      | none => false
      | some fr => decide (fr.full_file_path = fp.2)) = true →
    ∃ s', delFiles (files.map Prod.fst) s = (.ok (), s') ∧
      (∀ g, g ∈ files.map Prod.fst → lookupA s'.file_uuid_to_metadata g = none) ∧
      (∀ g, g ∉ files.map Prod.fst →
        (lookupA s'.file_uuid_to_metadata g).map FileMetadata.full_file_path =
          (lookupA s.file_uuid_to_metadata g).map FileMetadata.full_file_path) ∧
      (∀ p, p ∈ files.map Prod.snd → lookupA s'.full_file_path_to_uuid p = none) ∧
      (∀ p, p ∉ files.map Prod.snd →
        lookupA s'.full_file_path_to_uuid p = lookupA s.full_file_path_to_uuid p) ∧
      s'.folder_uuid_to_metadata = s.folder_uuid_to_metadata ∧
      s'.full_folder_path_to_uuid = s.full_folder_path_to_uuid ∧
      s'.id_counter = s.id_counter := by
  induction files with
  | nil =>
    intro s _ _
    exact ⟨s, rfl, by simp, fun g _ => rfl, by simp, fun p _ => rfl, rfl, rfl, rfl⟩
  | cons fp rest ih =>
    intro s hnd hall
    obtain ⟨fid, p⟩ := fp
    rw [List.map_cons] at hnd
    rw [List.nodup_cons] at hnd
    obtain ⟨hfid, hndr⟩ := hnd
    rw [List.all_cons, Bool.and_eq_true] at hall
    obtain ⟨hhd0, htl⟩ := hall
    have hhd : (match lookupA s.file_uuid_to_metadata fid with
        | none => false
        | some fr => decide (fr.full_file_path = p)) = true := hhd0
    cases hl : lookupA s.file_uuid_to_metadata fid with
    | none =>
      rw [hl] at hhd
      simp at hhd
    | some fr =>
      rw [hl] at hhd
      have hpath : fr.full_file_path = p := of_decide_eq_true hhd
      obtain ⟨s1, hdel, hgone, hpm, hffi, hfm, hfi, hc⟩ := State.deleteFileOk s fid fr hl
      have hstep : delFiles (((fid, p) :: rest).map Prod.fst) s = delFiles (rest.map Prod.fst) s1 := by
        rw [List.map_cons]
        rw [delFiles, hdel]
      have hall1 : rest.all (fun fp =>
          match lookupA s1.file_uuid_to_metadata fp.1 with
          | none => false
          | some fr => decide (fr.full_file_path = fp.2)) = true := by
        rw [List.all_eq_true] at htl ⊢
        intro fp2 hmem
        have hne : fp2.1 ≠ fid := by
          intro he
          have hx := List.mem_map_of_mem Prod.fst hmem
          rw [he] at hx
          exact hfid hx
        have h2 : (match lookupA s.file_uuid_to_metadata fp2.1 with
            | none => false
            | some fr => decide (fr.full_file_path = fp2.2)) = true := htl fp2 hmem
        show (match lookupA s1.file_uuid_to_metadata fp2.1 with
            | none => false
            | some fr => decide (fr.full_file_path = fp2.2)) = true
        cases hl2 : lookupA s.file_uuid_to_metadata fp2.1 with
        | none =>
          rw [hl2] at h2
          simp at h2
        | some fr2 =>
          rw [hl2] at h2
          have hp2 : fr2.full_file_path = fp2.2 := of_decide_eq_true h2
          have := hpm fp2.1 hne
          rw [hl2] at this
          obtain ⟨fr3, hl3, hp3⟩ := mapPath_some this
          rw [hl3]
          exact decide_eq_true (hp3.trans hp2)
      obtain ⟨s2, hrun, hgone2, hpm2, hpth2, hpthf2, hfm2, hfi2, hc2⟩ := ih s1 hndr hall1
      refine ⟨s2, hstep.trans hrun, ?_, ?_, ?_, ?_, hfm2.trans hfm, hfi2.trans hfi, hc2.trans hc⟩
      · intro g hg
        rw [List.map_cons, List.mem_cons] at hg
        rcases hg with hg | hg
        · subst hg
          apply mapPath_none
          rw [hpm2 g hfid, hgone]
          rfl
        · exact hgone2 g hg
      · intro g hg
        rw [List.map_cons, List.mem_cons] at hg
        push_neg at hg
        rw [hpm2 g hg.2]
        exact hpm g hg.1
      · intro q hq
        rw [List.map_cons, List.mem_cons] at hq
        by_cases hmem : q ∈ rest.map Prod.snd
        · exact hpth2 q hmem
        · rcases hq with hq | hq
          · subst hq
            rw [hpthf2 q hmem, hffi, hpath, lookupA_eraseA_self]
          · exact absurd hq hmem
      · intro q hq
        rw [List.map_cons, List.mem_cons] at hq
        push_neg at hq
        rw [hpthf2 q hq.2, hffi, hpath]
        exact lookupA_eraseA_ne _ _ _ hq.1
/-! ## Transport of `matchesT` along record-preserving state changes -/

/-- Motive: `matchesT` survives any state change that preserves the folder
records of the subtree and the path view of its file records. -/
def MonoT (t : FTree) : Prop := ∀ s s' : State,
  (∀ g ∈ folderIdsT t, lookupA s'.folder_uuid_to_metadata g =
    lookupA s.folder_uuid_to_metadata g) →
  (∀ g ∈ fileIdsT t, (lookupA s'.file_uuid_to_metadata g).map FileMetadata.full_file_path =
    (lookupA s.file_uuid_to_metadata g).map FileMetadata.full_file_path) →
  matchesT s t = true → matchesT s' t = true

def MonoF (ts : FForest) : Prop := ∀ s s' : State,
  (∀ g ∈ folderIdsF ts, lookupA s'.folder_uuid_to_metadata g =
    lookupA s.folder_uuid_to_metadata g) →
  (∀ g ∈ fileIdsF ts, (lookupA s'.file_uuid_to_metadata g).map FileMetadata.full_file_path =
    (lookupA s.file_uuid_to_metadata g).map FileMetadata.full_file_path) →
  matchesF s ts = true → matchesF s' ts = true

theorem monoMk (fid : FolderUUID) (q : Str) (files : List (FileUUID × Str))
    (subs : FForest) (ihsubs : MonoF subs) : MonoT (.mk fid q files subs) := by
  intro s s' hf hg hm
  rw [matchesT] at hm ⊢
  simp only [Bool.and_eq_true] at hm ⊢
  obtain ⟨⟨h1, h2⟩, h3⟩ := hm
  refine ⟨⟨?_, ?_⟩, ?_⟩
  · rw [hf fid (by rw [folderIdsT]; exact List.mem_cons_self _ _)]
    exact h1
  · rw [List.all_eq_true] at h2 ⊢
    intro fp hmem
    have h4 : (match lookupA s.file_uuid_to_metadata fp.1 with
        | none => false
        | some fr => decide (fr.full_file_path = fp.2)) = true := h2 fp hmem
    show (match lookupA s'.file_uuid_to_metadata fp.1 with
        | none => false
        | some fr => decide (fr.full_file_path = fp.2)) = true
    have hmem2 : fp.1 ∈ fileIdsT (FTree.mk fid q files subs) := by
      rw [fileIdsT]
      exact List.mem_append_left _ (List.mem_map_of_mem Prod.fst hmem)
    have h5 := hg fp.1 hmem2
    cases hl : lookupA s.file_uuid_to_metadata fp.1 with
    | none =>
      rw [hl] at h4
      simp at h4
    | some fr =>
      rw [hl] at h4
      have hp : fr.full_file_path = fp.2 := of_decide_eq_true h4
      rw [hl] at h5
      obtain ⟨fr2, hl2, hp2⟩ := mapPath_some h5
      rw [hl2]
      exact decide_eq_true (hp2.trans hp)
  · exact ihsubs s s'
      (fun g hgm => hf g (by rw [folderIdsT]; exact List.mem_cons_of_mem _ hgm))
      (fun g hgm => hg g (by rw [fileIdsT]; exact List.mem_append_right _ hgm)) h3

theorem monoNil : MonoF .nil := by
  intro s s' _ _ hm
  exact hm

theorem monoCons (t : FTree) (ts : FForest) (ih1 : MonoT t) (ih2 : MonoF ts) :
    MonoF (.cons t ts) := by
  intro s s' hf hg hm
  rw [matchesF] at hm ⊢
  simp only [Bool.and_eq_true] at hm ⊢
  obtain ⟨h1, h2⟩ := hm
  refine ⟨?_, ?_⟩
  · exact ih1 s s'
      (fun g hgm => hf g (by rw [folderIdsF]; exact List.mem_append_left _ hgm))
      (fun g hgm => hg g (by rw [fileIdsF]; exact List.mem_append_left _ hgm)) h1
  · exact ih2 s s'
      (fun g hgm => hf g (by rw [folderIdsF]; exact List.mem_append_right _ hgm))
      (fun g hgm => hg g (by rw [fileIdsF]; exact List.mem_append_right _ hgm)) h2

/-- `matchesT`/`matchesF` survive record-preserving state changes. -/
theorem matches_mono : (∀ t, MonoT t) ∧ (∀ ts, MonoF ts) :=
  ⟨fun t => FTree.rec (motive_1 := MonoT) (motive_2 := MonoF)
    (fun fid q files subs ih => monoMk fid q files subs ih)
    monoNil (fun t ts ih1 ih2 => monoCons t ts ih1 ih2) t,
   fun ts => FForest.rec (motive_1 := MonoT) (motive_2 := MonoF)
    (fun fid q files subs ih => monoMk fid q files subs ih)
    monoNil (fun t ts ih1 ih2 => monoCons t ts ih1 ih2) ts⟩
/-! ## C6: the recursive delete purges exactly the subtree -/

/-- Effect of deleting the given folder ids / folder paths / file ids / file
paths: listed folder records get the deleted flag, listed folder paths are
unbound, listed file records and paths are gone, everything else is framed. -/
def DelOut (fids : List FolderUUID) (fpaths : List Str) (gids : List FileUUID)
    (gpaths : List Str) (now : Nat) (s s' : State) : Prop :=
  (∀ g, lookupA s'.folder_uuid_to_metadata g =
    if g ∈ fids then
      (lookupA s.folder_uuid_to_metadata g).map
        (fun r => { r with last_changed_unix_ms := now / 1000000, deleted := true })
    else lookupA s.folder_uuid_to_metadata g) ∧
  (∀ p, lookupA s'.full_folder_path_to_uuid p =
    if p ∈ fpaths then none else lookupA s.full_folder_path_to_uuid p) ∧
  (∀ g, g ∈ gids → lookupA s'.file_uuid_to_metadata g = none) ∧
  (∀ g, g ∉ gids →
    (lookupA s'.file_uuid_to_metadata g).map FileMetadata.full_file_path =
      (lookupA s.file_uuid_to_metadata g).map FileMetadata.full_file_path) ∧
  (∀ p, p ∈ gpaths → lookupA s'.full_file_path_to_uuid p = none) ∧
  (∀ p, p ∉ gpaths →
    lookupA s'.full_file_path_to_uuid p = lookupA s.full_file_path_to_uuid p) ∧
  s'.id_counter = s.id_counter

/-- Motive: `delGo` on a matched subtree succeeds and produces `DelOut` for
the subtree's ids and paths. -/
def PDelT (t : FTree) : Prop := ∀ fuel now s,
  needT t ≤ fuel → matchesT s t = true →
  (folderIdsT t).Nodup → (fileIdsT t).Nodup →
  ∃ s', delGo fuel (rootT t) now s = some (.ok (), s') ∧
    DelOut (folderIdsT t) (folderPathsT t) (fileIdsT t) (filePathsT t) now s s'

def PDelF (ts : FForest) : Prop := ∀ fuel now s,
  needF ts ≤ fuel → matchesF s ts = true →
  (folderIdsF ts).Nodup → (fileIdsF ts).Nodup →
  ∃ s', delSubs fuel (rootsF ts) now s = some (.ok (), s') ∧
    DelOut (folderIdsF ts) (folderPathsF ts) (fileIdsF ts) (filePathsF ts) now s s'

theorem delNil : PDelF .nil := by
  intro fuel now s _ _ _ _
  refine ⟨s, ?_, ?_, ?_, ?_, ?_, ?_, ?_, rfl⟩
  · rw [rootsF]
    cases fuel <;> rfl
  · intro g
    rw [folderIdsF]
    simp
  · intro p
    rw [folderPathsF]
    simp
  · intro g hg
    rw [fileIdsF] at hg
    simp at hg
  · intro g _
    rfl
  · intro p hp
    rw [filePathsF] at hp
    simp at hp
  · intro p _
    rfl
theorem delCons (t : FTree) (ts : FForest) (ih1 : PDelT t) (ih2 : PDelF ts) :
    PDelF (.cons t ts) := by
  intro fuel now s hfuel hm hndf hndg
  rw [needF] at hfuel
  cases fuel with
  | zero => omega
  | succ fu =>
    have hfu1 : needT t ≤ fu := by omega
    have hfu2 : needF ts ≤ fu := by omega
    rw [matchesF, Bool.and_eq_true] at hm
    obtain ⟨hm1, hm2⟩ := hm
    rw [folderIdsF, List.nodup_append] at hndf
    obtain ⟨hndf1, hndf2, hdisf⟩ := hndf
    rw [fileIdsF, List.nodup_append] at hndg
    obtain ⟨hndg1, hndg2, hdisg⟩ := hndg
    obtain ⟨s1, hrun1, hA1, hB1, hC1, hD1, hE1, hF1, hG1⟩ := ih1 fu now s hfu1 hm1 hndf1 hndg1
    have hm2x : matchesF s1 ts = true := by
      apply matches_mono.2 ts s s1 ?_ ?_ hm2
      · intro g hgm
        rw [hA1 g, if_neg (fun hc => hdisf hc hgm)]
      · intro g hgm
        exact hD1 g (fun hc => hdisg hc hgm)
    obtain ⟨s2, hrun2, hA2, hB2, hC2, hD2, hE2, hF2, hG2⟩ := ih2 fu now s1 hfu2 hm2x hndf2 hndg2
    have hstep : delSubs (fu + 1) (rootsF (.cons t ts)) now s =
        delSubs fu (rootsF ts) now s1 := by
      rw [rootsF, delSubs, hrun1]
    refine ⟨s2, hstep.trans hrun2, ?_, ?_, ?_, ?_, ?_, ?_, hG2.trans hG1⟩
    · intro g
      rw [hA2 g, hA1 g]
      by_cases h1 : g ∈ folderIdsT t
      · have h2 : g ∉ folderIdsF ts := fun hc => hdisf h1 hc
        simp [folderIdsF, h1, h2]
      · by_cases h2 : g ∈ folderIdsF ts <;> simp [folderIdsF, h1, h2]
    · intro p
      rw [hB2 p, hB1 p]
      by_cases h1 : p ∈ folderPathsT t <;> by_cases h2 : p ∈ folderPathsF ts <;>
        simp [folderPathsF, h1, h2]
    · intro g hg
      rw [fileIdsF] at hg
      rcases List.mem_append.mp hg with h1 | h1
      · apply mapPath_none
        rw [hD2 g (fun hc => hdisg h1 hc), hC1 g h1]
        rfl
      · exact hC2 g h1
    · intro g hg
      rw [fileIdsF] at hg
      rw [List.mem_append] at hg
      push_neg at hg
      rw [hD2 g hg.2, hD1 g hg.1]
    · intro p hp
      rw [filePathsF] at hp
      by_cases h2 : p ∈ filePathsF ts
      · exact hE2 p h2
      · rcases List.mem_append.mp hp with h1 | h1
        · rw [hF2 p h2]
          exact hE1 p h1
        · exact absurd h1 h2
    · intro p hp
      rw [filePathsF] at hp
      rw [List.mem_append] at hp
      push_neg at hp
      rw [hF2 p hp.2, hF1 p hp.1]
theorem delMk (fid : FolderUUID) (q : Str) (files : List (FileUUID × Str))
    (subs : FForest) (ihsubs : PDelF subs) : PDelT (.mk fid q files subs) := by
  intro fuel now s hfuel hm hndf hndg
  rw [needT] at hfuel
  cases fuel with
  | zero => omega
  | succ fu =>
    have hfu : needF subs ≤ fu := by omega
    rw [matchesT] at hm
    simp only [Bool.and_eq_true] at hm
    obtain ⟨⟨h1, h2⟩, h3⟩ := hm
    cases hl : lookupA s.folder_uuid_to_metadata fid with
    | none =>
      rw [hl] at h1
      simp at h1
    | some r =>
      rw [hl] at h1
      simp only [Bool.and_eq_true, decide_eq_true_eq] at h1
      obtain ⟨⟨hrp, hrf⟩, hrs⟩ := h1
      rw [folderIdsT, List.nodup_cons] at hndf
      obtain ⟨hfidnot, hndfs⟩ := hndf
      rw [fileIdsT, List.nodup_append] at hndg
      obtain ⟨hndg1, hndg2, hdisg⟩ := hndg
      set se : State :=
        { s with full_folder_path_to_uuid :=
            eraseA s.full_folder_path_to_uuid r.full_folder_path } with hse
      have hsef : se.folder_uuid_to_metadata = s.folder_uuid_to_metadata := rfl
      have hseg : se.file_uuid_to_metadata = s.file_uuid_to_metadata := rfl
      have hsei : se.full_folder_path_to_uuid =
        eraseA s.full_folder_path_to_uuid r.full_folder_path := rfl
      have hsefi : se.full_file_path_to_uuid = s.full_file_path_to_uuid := rfl
      have hsec : se.id_counter = s.id_counter := rfl
      have hmse : matchesF se subs = true :=
        matches_mono.2 subs s se (fun g _ => rfl) (fun g _ => rfl) h3
      obtain ⟨s1, hrun1, hA1, hB1, hC1, hD1, hE1, hF1, hG1⟩ :=
        ihsubs fu now se hfu hmse hndfs hndg2
      have hall1 : files.all (fun fp =>
          match lookupA s1.file_uuid_to_metadata fp.1 with
          | none => false
          | some fr => decide (fr.full_file_path = fp.2)) = true := by
        rw [List.all_eq_true] at h2 ⊢
        intro fp hmem
        have h4 : (match lookupA s.file_uuid_to_metadata fp.1 with
            | none => false
            | some fr => decide (fr.full_file_path = fp.2)) = true := h2 fp hmem
        show (match lookupA s1.file_uuid_to_metadata fp.1 with
            | none => false
            | some fr => decide (fr.full_file_path = fp.2)) = true
        have hni : fp.1 ∉ fileIdsF subs :=
          fun hc => hdisg (List.mem_map_of_mem Prod.fst hmem) hc
        have h5 := hD1 fp.1 hni
        rw [hseg] at h5
        cases hl2 : lookupA s.file_uuid_to_metadata fp.1 with
        | none =>
          rw [hl2] at h4
          simp at h4
        | some fr2 =>
          rw [hl2] at h4
          have hp2 : fr2.full_file_path = fp.2 := of_decide_eq_true h4
          rw [hl2] at h5
          obtain ⟨fr3, hl3, hp3⟩ := mapPath_some h5
          rw [hl3]
          exact decide_eq_true (hp3.trans hp2)
      obtain ⟨s2, hrun2, hgone2, hpm2, hpth2, hpthf2, hfm2, hfi2, hc2⟩ :=
        delFilesOk files s1 hndg1 hall1
      have hstep : delGo (fu + 1) (rootT (.mk fid q files subs)) now s =
          some (.ok (), s2.modifyFolder fid (fun f =>
            { f with last_changed_unix_ms := now / 1000000, deleted := true })) := by
        rw [rootT, delGo, hl]
        simp only []
        rw [← hse, hrs, hrun1]
        simp only []
        rw [hrf, hrun2]
      refine ⟨_, hstep, ?_, ?_, ?_, ?_, ?_, ?_, ?_⟩
      · intro g
        rw [State.lookupA_modifyFolder, hfm2]
        by_cases hgf : g = fid
        · subst hgf
          rw [if_pos rfl, hA1 g, if_neg hfidnot, hsef, hl,
            if_pos (show g ∈ folderIdsT (.mk g q files subs) by
              rw [folderIdsT]; exact List.mem_cons_self _ _)]
        · rw [if_neg hgf, hA1 g, hsef]
          by_cases hgs : g ∈ folderIdsF subs
          · rw [if_pos hgs, if_pos (show g ∈ folderIdsT (.mk fid q files subs) by
              rw [folderIdsT]; exact List.mem_cons_of_mem _ hgs)]
          · rw [if_neg hgs, if_neg (show g ∉ folderIdsT (.mk fid q files subs) by
              rw [folderIdsT]
              intro hc
              rcases List.mem_cons.mp hc with hc | hc
              · exact hgf hc
              · exact hgs hc)]
      · intro p
        rw [State.modifyFolder_folder_index, hfi2, hB1 p, hsei, lookupA_eraseA, hrp]
        by_cases h1 : p ∈ folderPathsF subs <;> by_cases h2 : p = q <;>
          simp [folderPathsT, h1, h2]
      · intro g hg
        rw [fileIdsT] at hg
        rw [State.modifyFolder_file_map]
        rcases List.mem_append.mp hg with h1 | h1
        · exact hgone2 g h1
        · apply mapPath_none
          rw [hpm2 g (fun hc => hdisg hc h1), hC1 g h1]
          rfl
      · intro g hg
        rw [fileIdsT, List.mem_append] at hg
        push_neg at hg
        rw [State.modifyFolder_file_map, hpm2 g hg.1, hD1 g hg.2, hseg]
      · intro p hp
        rw [filePathsT] at hp
        rw [State.modifyFolder_file_index]
        by_cases h2 : p ∈ files.map Prod.snd
        · exact hpth2 p h2
        · rcases List.mem_append.mp hp with h1 | h1
          · exact absurd h1 h2
          · rw [hpthf2 p h2]
            exact hE1 p h1
      · intro p hp
        rw [filePathsT, List.mem_append] at hp
        push_neg at hp
        rw [State.modifyFolder_file_index, hpthf2 p hp.1, hF1 p hp.2, hsefi]
      · rw [State.modifyFolder_counter]
        exact hc2.trans (hG1.trans hsec)

/-- `delGo`/`delSubs` on a matched subtree succeed and purge exactly the
subtree. -/
theorem delOk : (∀ t, PDelT t) ∧ (∀ ts, PDelF ts) :=
  ⟨fun t => FTree.rec (motive_1 := PDelT) (motive_2 := PDelF)
    (fun fid q files subs ih => delMk fid q files subs ih)
    delNil (fun t ts ih1 ih2 => delCons t ts ih1 ih2) t,
   fun ts => FForest.rec (motive_1 := PDelT) (motive_2 := PDelF)
    (fun fid q files subs ih => delMk fid q files subs ih)
    delNil (fun t ts ih1 ih2 => delCons t ts ih1 ih2) ts⟩
/-- Motive: every folder id of a matched subtree has a record. -/
def KeysT (t : FTree) : Prop := ∀ s : State, matchesT s t = true →
  ∀ g ∈ folderIdsT t, ∃ r, lookupA s.folder_uuid_to_metadata g = some r

def KeysF (ts : FForest) : Prop := ∀ s : State, matchesF s ts = true →
  ∀ g ∈ folderIdsF ts, ∃ r, lookupA s.folder_uuid_to_metadata g = some r

theorem keysMk (fid : FolderUUID) (q : Str) (files : List (FileUUID × Str))
    (subs : FForest) (ih : KeysF subs) : KeysT (.mk fid q files subs) := by
  intro s hm g hg
  rw [matchesT] at hm
  simp only [Bool.and_eq_true] at hm
  obtain ⟨⟨h1, _⟩, h3⟩ := hm
  rw [folderIdsT] at hg
  rcases List.mem_cons.mp hg with hgf | hgm
  · subst hgf
    cases hl : lookupA s.folder_uuid_to_metadata g with
    | none =>
      rw [hl] at h1
      simp at h1
    | some r => exact ⟨r, rfl⟩
  · exact ih s h3 g hgm

theorem keysNil : KeysF .nil := by
  intro s _ g hg
  rw [folderIdsF] at hg
  simp at hg

theorem keysCons (t : FTree) (ts : FForest) (ih1 : KeysT t) (ih2 : KeysF ts) :
    KeysF (.cons t ts) := by
  intro s hm g hg
  rw [matchesF, Bool.and_eq_true] at hm
  rw [folderIdsF] at hg
  rcases List.mem_append.mp hg with hgm | hgm
  · exact ih1 s hm.1 g hgm
  · exact ih2 s hm.2 g hgm

theorem keys_of_matches : (∀ t, KeysT t) ∧ (∀ ts, KeysF ts) :=
  ⟨fun t => FTree.rec (motive_1 := KeysT) (motive_2 := KeysF)
    (fun fid q files subs ih => keysMk fid q files subs ih)
    keysNil (fun t ts ih1 ih2 => keysCons t ts ih1 ih2) t,
   fun ts => FForest.rec (motive_1 := KeysT) (motive_2 := KeysF)
    (fun fid q files subs ih => keysMk fid q files subs ih)
    keysNil (fun t ts ih1 ih2 => keysCons t ts ih1 ih2) ts⟩

theorem countLenMk (fid : FolderUUID) (q : Str) (files : List (FileUUID × Str))
    (subs : FForest) (ih : (folderIdsF subs).length = countF subs) :
    (folderIdsT (.mk fid q files subs)).length = countT (.mk fid q files subs) := by
  rw [folderIdsT, countT, List.length_cons, ih]

theorem countLenNil : (folderIdsF .nil).length = countF .nil := by
  rw [folderIdsF, countF]
  rfl

theorem countLenCons (t : FTree) (ts : FForest)
    (ih1 : (folderIdsT t).length = countT t)
    (ih2 : (folderIdsF ts).length = countF ts) :
    (folderIdsF (.cons t ts)).length = countF (.cons t ts) := by
  rw [folderIdsF, countF, List.length_append, ih1, ih2]

theorem countLen : (∀ t, (folderIdsT t).length = countT t) ∧
    (∀ ts, (folderIdsF ts).length = countF ts) :=
  ⟨fun t => FTree.rec
    (motive_1 := fun t => (folderIdsT t).length = countT t)
    (motive_2 := fun ts => (folderIdsF ts).length = countF ts)
    (fun fid q files subs ih => countLenMk fid q files subs ih)
    countLenNil (fun t ts ih1 ih2 => countLenCons t ts ih1 ih2) t,
   fun ts => FForest.rec
    (motive_1 := fun t => (folderIdsT t).length = countT t)
    (motive_2 := fun ts => (folderIdsF ts).length = countF ts)
    (fun fid q files subs ih => countLenMk fid q files subs ih)
    countLenNil (fun t ts ih1 ih2 => countLenCons t ts ih1 ih2) ts⟩

/-- A matched subtree with distinct folder ids has no more nodes than the
folder map has entries. -/
theorem countT_le_map_length (s : State) (t : FTree)
    (hm : matchesT s t = true) (hnd : (folderIdsT t).Nodup) :
    countT t ≤ s.folder_uuid_to_metadata.length := by
  have hsub : folderIdsT t ⊆ s.folder_uuid_to_metadata.map Prod.fst := by
    intro g hg
    obtain ⟨r, hr⟩ := keys_of_matches.1 t s hm g hg
    exact List.mem_map_of_mem Prod.fst (lookupA_mem _ _ _ hr)
  have hlen := (List.subperm_of_subset hnd hsub).length_le
  rw [countLen.1 t] at hlen
  rw [List.length_map] at hlen
  exact hlen
/-- C6 (amended): `delete_folder` of a present id can fail (see the
counterexample), but for every folder id whose reachable reference structure
forms a subtree — every referenced subfolder and file has a record at the
recorded path, and the folder ids and the file ids are each pairwise
distinct — `delete_folder(id)` returns `Ok`, purges every descendant file
(record removed from the store and path removed from the file path index),
removes every descendant folder's path from the folder path index, and leaves
the folder and every descendant folder record retrievable by id with the
deleted flag set to `true` and all other fields — in particular the child-id
lists — intact; `delete_folder` of an absent id returns
`Err("Folder not found")`. -/
theorem C6_amended_delete_folder_purges_matched_subtree
    (s : State) (t : FTree) (now : Nat)
    (hm : matchesT s t = true)
    (hndf : (folderIdsT t).Nodup)
    (hndg : (fileIdsT t).Nodup) :
    (∃ s', s.deleteFolder (rootT t) now = some (.ok (), s') ∧
      (∀ g ∈ folderIdsT t, ∃ r, lookupA s.folder_uuid_to_metadata g = some r ∧
        lookupA s'.folder_uuid_to_metadata g =
          some { r with last_changed_unix_ms := now / 1000000, deleted := true }) ∧
      (∀ p ∈ folderPathsT t, lookupA s'.full_folder_path_to_uuid p = none) ∧
      (∀ g ∈ fileIdsT t, lookupA s'.file_uuid_to_metadata g = none) ∧
      (∀ p ∈ filePathsT t, lookupA s'.full_file_path_to_uuid p = none)) ∧
    (∀ g, lookupA s.folder_uuid_to_metadata g = none →
      s.deleteFolder g now = some (.error "Folder not found", s)) := by
  constructor
  · have hcnt := countT_le_map_length s t hm hndf
    have hneed := need_le_two_count.1 t
    have hfuel : needT t ≤ 2 * s.folder_uuid_to_metadata.length + 2 := by omega
    obtain ⟨s', hrun, hA, hB, hC, hD, hE, hF, hG⟩ :=
      delOk.1 t (2 * s.folder_uuid_to_metadata.length + 2) now s hfuel hm hndf hndg
    refine ⟨s', hrun, ?_, ?_, hC, hE⟩
    · intro g hg
      obtain ⟨r, hr⟩ := keys_of_matches.1 t s hm g hg
      refine ⟨r, hr, ?_⟩
      rw [hA g, if_pos hg, hr]
      rfl
    · intro p hp
      rw [hB p, if_pos hp]
  · intro g hg
    unfold State.deleteFolder
    have hfe : 2 * s.folder_uuid_to_metadata.length + 2 =
        2 * s.folder_uuid_to_metadata.length + 1 + 1 := by omega
    rw [hfe, delGo, hg]

/-- A fresh instance after `create_folder("BrowserCache::a/b")` and
`upsert_file("BrowserCache::a/f.txt")`: root folder id 0, folder `a` id 1,
folder `b` id 2, file `f.txt` id 3. -/
def stateABF : State :=
  runOps initState
    [Op.createFolder "BrowserCache::a/b".data StorageLocationEnum.BrowserCache 7 0,
     Op.upsertFile "BrowserCache::a/f.txt".data StorageLocationEnum.BrowserCache 7 0]

/-- The subtree of folder 1 (`BrowserCache::a/`) in `stateABF`. -/
def treeABF : FTree :=
  .mk 1 "BrowserCache::a/".data [(3, "BrowserCache::a/f.txt".data)]
    (.cons (.mk 2 "BrowserCache::a/b/".data [] .nil) .nil)
/-- C6 witness: the amended theorem applied to folder 1 of `stateABF`, whose
subtree holds folder 2 and file 3. -/
theorem C6_amended_witness :
    matchesT stateABF treeABF = true ∧
    (folderIdsT treeABF).Nodup ∧
    (fileIdsT treeABF).Nodup ∧
    ((∃ s', stateABF.deleteFolder (rootT treeABF) 9 = some (.ok (), s') ∧
      (∀ g ∈ folderIdsT treeABF,
        ∃ r, lookupA stateABF.folder_uuid_to_metadata g = some r ∧
          lookupA s'.folder_uuid_to_metadata g =
            some { r with last_changed_unix_ms := 9 / 1000000, deleted := true }) ∧
      (∀ p ∈ folderPathsT treeABF, lookupA s'.full_folder_path_to_uuid p = none) ∧
      (∀ g ∈ fileIdsT treeABF, lookupA s'.file_uuid_to_metadata g = none) ∧
      (∀ p ∈ filePathsT treeABF, lookupA s'.full_file_path_to_uuid p = none)) ∧
    (∀ g, lookupA stateABF.folder_uuid_to_metadata g = none →
      stateABF.deleteFolder g 9 = some (.error "Folder not found", stateABF))) :=
  ⟨by decide, by decide, by decide,
   C6_amended_delete_folder_purges_matched_subtree stateABF treeABF 9
     (by decide) (by decide) (by decide)⟩
/-! ## Machinery for C5: the renamed image of a subtree -/

def pathT : FTree → Str
  | .mk _ q _ _ => q

def filesT : FTree → List (FileUUID × Str)
  | .mk _ _ fs _ => fs

def subsT : FTree → FForest
  | .mk _ _ _ subs => subs

mutual

/-- The renamed image of a subtree whose node is rebound with the pair
`(o, n)`: the node's path `q` becomes `q2 = n ++ q.drop o.length`, and its
files and subfolders are renamed with the node's own pair `(q, q2)`, exactly
mirroring the recursion of `update_subfolder_paths`. -/
def renT : Str → Str → FTree → FTree
  | o, n, .mk fid q files subs =>
    .mk fid (n ++ q.drop o.length)
      (files.map (fun fp => (fp.1, (n ++ q.drop o.length) ++ fp.2.drop q.length)))
      (renF q (n ++ q.drop o.length) subs)

def renF : Str → Str → FForest → FForest
  | _, _, .nil => .nil
  | o, n, .cons t ts => .cons (renT o n t) (renF o n ts)

end

/-- Like `matchesT` but ignoring the node's own path field: the shape
`update_subfolder_paths` sees after the caller has already rebound the node
itself. -/
def matchesBody (s : State) : FTree → Bool
  | .mk fid _ files subs =>
    (match lookupA s.folder_uuid_to_metadata fid with
     | none => false
     | some r =>
       decide (r.file_uuids = files.map Prod.fst) &&
       decide (r.subfolder_uuids = rootsF subs)) &&
    files.all (fun fp =>
      match lookupA s.file_uuid_to_metadata fp.1 with
      | none => false
      | some fr => decide (fr.full_file_path = fp.2)) &&
    matchesF s subs

mutual

/-- Every folder path of the subtree is bound to its id and every file path
to its id. -/
def boundT (s : State) : FTree → Bool
  | .mk fid q files subs =>
    decide (lookupA s.full_folder_path_to_uuid q = some fid) &&
    files.all (fun fp => decide (lookupA s.full_file_path_to_uuid fp.2 = some fp.1)) &&
    boundF s subs

def boundF (s : State) : FForest → Bool
  | .nil => true
  | .cons t ts => boundT s t && boundF s ts

end

/-- `boundT` without the node's own path binding. -/
def boundBody (s : State) : FTree → Bool
  | .mk _ _ files subs =>
    files.all (fun fp => decide (lookupA s.full_file_path_to_uuid fp.2 = some fp.1)) &&
    boundF s subs

/-- On each listed file path, `str::replace` of `o` by `n` behaves as the
prefix substitution. -/
def replFiles (o n : Str) (files : List (FileUUID × Str)) : Bool :=
  files.all (fun fp => decide (replaceStr o n fp.2 = n ++ fp.2.drop o.length))

mutual

/-- On every path of the subtree, `str::replace` with the pair the traversal
passes for it behaves as the prefix substitution. -/
def replT : Str → Str → FTree → Bool
  | o, n, .mk _ q files subs =>
    decide (replaceStr o n q = n ++ q.drop o.length) &&
    replFiles q (n ++ q.drop o.length) files &&
    replF q (n ++ q.drop o.length) subs

def replF : Str → Str → FForest → Bool
  | _, _, .nil => true
  | o, n, .cons t ts => replT o n t && replF o n ts

end

/-- Renaming keeps the root ids of a forest. -/
theorem renRoots : (∀ t, ∀ o n, rootT (renT o n t) = rootT t) ∧
    (∀ ts, ∀ o n, rootsF (renF o n ts) = rootsF ts) :=
  ⟨fun t => FTree.rec
    (motive_1 := fun t => ∀ o n, rootT (renT o n t) = rootT t)
    (motive_2 := fun ts => ∀ o n, rootsF (renF o n ts) = rootsF ts)
    (fun fid q files subs _ o n => by rw [renT, rootT, rootT])
    (fun o n => by rw [renF])
    (fun t ts ih1 ih2 o n => by rw [renF, rootsF, rootsF, ih1, ih2]) t,
   fun ts => FForest.rec
    (motive_1 := fun t => ∀ o n, rootT (renT o n t) = rootT t)
    (motive_2 := fun ts => ∀ o n, rootsF (renF o n ts) = rootsF ts)
    (fun fid q files subs _ o n => by rw [renT, rootT, rootT])
    (fun o n => by rw [renF])
    (fun t ts ih1 ih2 o n => by rw [renF, rootsF, rootsF, ih1, ih2]) ts⟩

/-- Renaming keeps the folder ids of a subtree. -/
theorem renFolderIds : (∀ t, ∀ o n, folderIdsT (renT o n t) = folderIdsT t) ∧
    (∀ ts, ∀ o n, folderIdsF (renF o n ts) = folderIdsF ts) :=
  ⟨fun t => FTree.rec
    (motive_1 := fun t => ∀ o n, folderIdsT (renT o n t) = folderIdsT t)
    (motive_2 := fun ts => ∀ o n, folderIdsF (renF o n ts) = folderIdsF ts)
    (fun fid q files subs ih o n => by
      rw [renT, folderIdsT, folderIdsT, ih])
    (fun o n => by rw [renF])
    (fun t ts ih1 ih2 o n => by rw [renF, folderIdsF, folderIdsF, ih1, ih2]) t,
   fun ts => FForest.rec
    (motive_1 := fun t => ∀ o n, folderIdsT (renT o n t) = folderIdsT t)
    (motive_2 := fun ts => ∀ o n, folderIdsF (renF o n ts) = folderIdsF ts)
    (fun fid q files subs ih o n => by
      rw [renT, folderIdsT, folderIdsT, ih])
    (fun o n => by rw [renF])
    (fun t ts ih1 ih2 o n => by rw [renF, folderIdsF, folderIdsF, ih1, ih2]) ts⟩

/-- Renaming keeps the file ids of a subtree. -/
theorem renFileIds : (∀ t, ∀ o n, fileIdsT (renT o n t) = fileIdsT t) ∧
    (∀ ts, ∀ o n, fileIdsF (renF o n ts) = fileIdsF ts) :=
  ⟨fun t => FTree.rec
    (motive_1 := fun t => ∀ o n, fileIdsT (renT o n t) = fileIdsT t)
    (motive_2 := fun ts => ∀ o n, fileIdsF (renF o n ts) = fileIdsF ts)
    (fun fid q files subs ih o n => by
      rw [renT, fileIdsT, fileIdsT, ih]
      simp [List.map_map, Function.comp])
    (fun o n => by rw [renF])
    (fun t ts ih1 ih2 o n => by rw [renF, fileIdsF, fileIdsF, ih1, ih2]) t,
   fun ts => FForest.rec
    (motive_1 := fun t => ∀ o n, fileIdsT (renT o n t) = fileIdsT t)
    (motive_2 := fun ts => ∀ o n, fileIdsF (renF o n ts) = fileIdsF ts)
    (fun fid q files subs ih o n => by
      rw [renT, fileIdsT, fileIdsT, ih]
      simp [List.map_map, Function.comp])
    (fun o n => by rw [renF])
    (fun t ts ih1 ih2 o n => by rw [renF, fileIdsF, fileIdsF, ih1, ih2]) ts⟩
/-- The file map after `rebindFile`: the record's path is pointed at the new
path, nothing else changes. -/
theorem State.rebindFile_file_lookup (s : State) (fid : FileUUID) (oldp np : Str)
    (g : FileUUID) :
    lookupA (s.rebindFile fid oldp np).file_uuid_to_metadata g =
      if g = fid then
        (lookupA s.file_uuid_to_metadata fid).map (fun f => { f with full_file_path := np })
      else lookupA s.file_uuid_to_metadata g := by
  unfold State.rebindFile
  simp only []
  rw [State.lookupA_modifyFile]

/-- The file path index after `rebindFile`: old binding out, new binding in. -/
theorem State.rebindFile_file_index_eq (s : State) (fid : FileUUID) (oldp np : Str) :
    (s.rebindFile fid oldp np).full_file_path_to_uuid =
      insertA (eraseA s.full_file_path_to_uuid oldp) np fid := by
  unfold State.rebindFile
  simp only []
  rw [State.modifyFile_file_index]

/-- The folder map after `rebindFolder`. -/
theorem State.rebindFolder_folder_lookup (s : State) (fid : FolderUUID)
    (oldp np : Str) (g : FolderUUID) :
    lookupA (s.rebindFolder fid oldp np).folder_uuid_to_metadata g =
      if g = fid then
        (lookupA s.folder_uuid_to_metadata fid).map (fun f => { f with full_folder_path := np })
      else lookupA s.folder_uuid_to_metadata g := by
  unfold State.rebindFolder
  simp only []
  rw [State.lookupA_modifyFolder]

/-- The folder path index after `rebindFolder`. -/
theorem State.rebindFolder_folder_index_eq (s : State) (fid : FolderUUID)
    (oldp np : Str) :
    (s.rebindFolder fid oldp np).full_folder_path_to_uuid =
      insertA (eraseA s.full_folder_path_to_uuid oldp) np fid := by
  unfold State.rebindFolder
  simp only []
  rw [State.modifyFolder_folder_index]

/-- The folder map after `renameBindFolder`. -/
theorem State.renameBindFolder_folder_lookup (s : State) (fid : FolderUUID)
    (nm oldp np : Str) (now : Nat) (g : FolderUUID) :
    lookupA (s.renameBindFolder fid nm oldp np now).folder_uuid_to_metadata g =
      if g = fid then
        (lookupA s.folder_uuid_to_metadata fid).map (fun f =>
          { f with original_folder_name := nm, full_folder_path := np,
                   last_changed_unix_ms := now / 1000000 })
      else lookupA s.folder_uuid_to_metadata g := by
  unfold State.renameBindFolder
  simp only []
  rw [State.lookupA_modifyFolder]

/-- The folder path index after `renameBindFolder`. -/
theorem State.renameBindFolder_folder_index_eq (s : State) (fid : FolderUUID)
    (nm oldp np : Str) (now : Nat) :
    (s.renameBindFolder fid nm oldp np now).full_folder_path_to_uuid =
      insertA (eraseA s.full_folder_path_to_uuid oldp) np fid := by
  unfold State.renameBindFolder
  simp only []
  rw [State.modifyFolder_folder_index]

/-- `renameBindFolder` leaves the file side untouched. -/
theorem State.renameBindFolder_file_map (s : State) (fid : FolderUUID)
    (nm oldp np : Str) (now : Nat) :
    (s.renameBindFolder fid nm oldp np now).file_uuid_to_metadata =
      s.file_uuid_to_metadata := by
  unfold State.renameBindFolder
  simp only []
  rw [State.modifyFolder_file_map]

theorem State.renameBindFolder_file_index (s : State) (fid : FolderUUID)
    (nm oldp np : Str) (now : Nat) :
    (s.renameBindFolder fid nm oldp np now).full_file_path_to_uuid =
      s.full_file_path_to_uuid := by
  unfold State.renameBindFolder
  simp only []
  rw [State.modifyFolder_file_index]
/-- The file loop of `update_subfolder_paths`: with distinct present ids,
prefix-substituting `replace` behavior, and fresh paths, it rebinds every
file from its old path to its new path. -/
theorem uspFilesOk (o n : Str) (files : List (FileUUID × Str)) : ∀ s : State,
    (files.map Prod.fst).Nodup →
    files.all (fun fp =>
      match lookupA s.file_uuid_to_metadata fp.1 with
      | none => false
      | some fr => decide (fr.full_file_path = fp.2)) = true →
    replFiles o n files = true →
    (files.map Prod.snd ++
      (files.map (fun fp => (fp.1, n ++ fp.2.drop o.length))).map Prod.snd).Nodup →
    ∃ s', uspFiles (files.map Prod.fst) o n s = s' ∧
      (files.map (fun fp => (fp.1, n ++ fp.2.drop o.length))).all (fun fp =>
        match lookupA s'.file_uuid_to_metadata fp.1 with
        | none => false
        | some fr => decide (fr.full_file_path = fp.2)) = true ∧
      (files.map (fun fp => (fp.1, n ++ fp.2.drop o.length))).all (fun fp =>
        decide (lookupA s'.full_file_path_to_uuid fp.2 = some fp.1)) = true ∧
      (∀ p ∈ files.map Prod.snd, lookupA s'.full_file_path_to_uuid p = none) ∧
      (∀ g, g ∉ files.map Prod.fst →
        lookupA s'.file_uuid_to_metadata g = lookupA s.file_uuid_to_metadata g) ∧
      (∀ p, p ∉ files.map Prod.snd ++
          (files.map (fun fp => (fp.1, n ++ fp.2.drop o.length))).map Prod.snd →
        lookupA s'.full_file_path_to_uuid p = lookupA s.full_file_path_to_uuid p) ∧
      s'.folder_uuid_to_metadata = s.folder_uuid_to_metadata ∧
      s'.full_folder_path_to_uuid = s.full_folder_path_to_uuid ∧
      s'.id_counter = s.id_counter := by
  induction files with
  | nil =>
    intro s _ _ _ _
    exact ⟨s, rfl, rfl, rfl, by simp, fun g _ => rfl, fun p _ => rfl, rfl, rfl, rfl⟩
  | cons fp rest ih =>
    intro s hnd hall hrepl hpaths
    obtain ⟨fid, p⟩ := fp
    rw [List.map_cons, List.nodup_cons] at hnd
    obtain ⟨hfid, hndr⟩ := hnd
    rw [List.all_cons, Bool.and_eq_true] at hall
    obtain ⟨hhd0, htl⟩ := hall
    have hhd : (match lookupA s.file_uuid_to_metadata fid with
        | none => false
        | some fr => decide (fr.full_file_path = p)) = true := hhd0
    rw [replFiles, List.all_cons, Bool.and_eq_true] at hrepl
    obtain ⟨hrp0, hrpr⟩ := hrepl
    have hrp : replaceStr o n p = n ++ p.drop o.length := of_decide_eq_true hrp0
    rw [List.map_cons, List.map_cons, List.map_cons] at hpaths
    have hpaths' := hpaths
    rw [List.nodup_append] at hpaths'
    obtain ⟨hndl, hndr2, hdis⟩ := hpaths'
    rw [List.nodup_cons] at hndl hndr2
    have hpnotold : p ∉ rest.map Prod.snd := hndl.1
    have hnp0notnew : (n ++ p.drop o.length) ∉
        (rest.map (fun fp => (fp.1, n ++ fp.2.drop o.length))).map Prod.snd := hndr2.1
    have hpne : p ≠ n ++ p.drop o.length :=
      fun he => hdis (List.mem_cons_self _ _) (he ▸ List.mem_cons_self _ _)
    have hpnotnew : p ∉ (rest.map (fun fp => (fp.1, n ++ fp.2.drop o.length))).map Prod.snd :=
      fun hc => hdis (List.mem_cons_self _ _) (List.mem_cons_of_mem _ hc)
    have hnp0notold : (n ++ p.drop o.length) ∉ rest.map Prod.snd :=
      fun hc => hdis (List.mem_cons_of_mem _ hc) (List.mem_cons_self _ _)
    cases hl : lookupA s.file_uuid_to_metadata fid with
    | none =>
      rw [hl] at hhd
      simp at hhd
    | some fr =>
      rw [hl] at hhd
      have hpath : fr.full_file_path = p := of_decide_eq_true hhd
      have hstep : uspFiles (((fid, p) :: rest).map Prod.fst) o n s =
          uspFiles (rest.map Prod.fst) o n
            (s.rebindFile fid p (n ++ p.drop o.length)) := by
        rw [List.map_cons, uspFiles, hl]
        simp only []
        rw [hpath, hrp]
      set s1 := s.rebindFile fid p (n ++ p.drop o.length) with hs1
      have hs1file : ∀ g, lookupA s1.file_uuid_to_metadata g =
          if g = fid then some { fr with full_file_path := n ++ p.drop o.length }
          else lookupA s.file_uuid_to_metadata g := by
        intro g
        rw [hs1, State.rebindFile_file_lookup, hl]
        rfl
      have hs1ffi : s1.full_file_path_to_uuid =
          insertA (eraseA s.full_file_path_to_uuid p) (n ++ p.drop o.length) fid :=
        State.rebindFile_file_index_eq s fid p (n ++ p.drop o.length)
      have hall1 : rest.all (fun fp =>
          match lookupA s1.file_uuid_to_metadata fp.1 with
          | none => false
          | some fr => decide (fr.full_file_path = fp.2)) = true := by
        rw [List.all_eq_true] at htl ⊢
        intro fp2 hmem
        have hne : fp2.1 ≠ fid := by
          intro he
          have hx := List.mem_map_of_mem Prod.fst hmem
          rw [he] at hx
          exact hfid hx
        have h2 : (match lookupA s.file_uuid_to_metadata fp2.1 with
            | none => false
            | some fr => decide (fr.full_file_path = fp2.2)) = true := htl fp2 hmem
        show (match lookupA s1.file_uuid_to_metadata fp2.1 with
            | none => false
            | some fr => decide (fr.full_file_path = fp2.2)) = true
        rw [hs1file, if_neg hne]
        exact h2
      have hpaths1 : (rest.map Prod.snd ++
          (rest.map (fun fp => (fp.1, n ++ fp.2.drop o.length))).map Prod.snd).Nodup := by
        apply List.Nodup.sublist ?_ hpaths
        exact List.Sublist.append (List.sublist_cons_self _ _) (List.sublist_cons_self _ _)
      obtain ⟨s2, hrun, hc1, hc2, hc3, hc4, hc5, hc6, hc7, hc8⟩ :=
        ih s1 hndr hall1 hrpr hpaths1
      refine ⟨s2, hstep.trans hrun, ?_, ?_, ?_, ?_, ?_,
        hc6.trans (State.rebindFile_folder_map s fid p _),
        hc7.trans (State.rebindFile_folder_index s fid p _),
        hc8.trans (State.rebindFile_counter s fid p _)⟩
      · rw [List.map_cons, List.all_cons, Bool.and_eq_true]
        refine ⟨?_, hc1⟩
        show (match lookupA s2.file_uuid_to_metadata fid with
          | none => false
          | some fr2 => decide (fr2.full_file_path = n ++ p.drop o.length)) = true
        rw [hc4 fid hfid, hs1file, if_pos rfl]
        simp
      · rw [List.map_cons, List.all_cons, Bool.and_eq_true]
        refine ⟨?_, hc2⟩
        show decide (lookupA s2.full_file_path_to_uuid (n ++ p.drop o.length) = some fid) = true
        rw [hc5 _ (by
          rw [List.mem_append]
          push_neg
          exact ⟨hnp0notold, hnp0notnew⟩), hs1ffi, lookupA_insertA_self]
        simp
      · intro p2 hp2
        rw [List.map_cons] at hp2
        rcases List.mem_cons.mp hp2 with hp2 | hp2
        · subst hp2
          rw [hc5 _ (by
            rw [List.mem_append]
            push_neg
            exact ⟨hpnotold, hpnotnew⟩), hs1ffi,
            lookupA_insertA_ne _ _ _ _ hpne, lookupA_eraseA_self]
        · exact hc3 p2 hp2
      · intro g hg
        rw [List.map_cons, List.mem_cons] at hg
        push_neg at hg
        rw [hc4 g hg.2, hs1file, if_neg hg.1]
      · intro p2 hp2
        rw [List.map_cons, List.map_cons, List.map_cons, List.mem_append,
          List.mem_cons, List.mem_cons] at hp2
        push_neg at hp2
        obtain ⟨⟨hne1, hni1⟩, hne2, hni2⟩ := hp2
        rw [hc5 _ (by
          rw [List.mem_append]
          push_neg
          exact ⟨hni1, hni2⟩), hs1ffi,
          lookupA_insertA_ne _ _ _ _ hne2, lookupA_eraseA_ne _ _ _ hne1]
/-- Motive: `boundT` survives any state change that preserves the path-index
lookups at the subtree's paths. -/
def BMonoT (t : FTree) : Prop := ∀ s s' : State,
  (∀ p ∈ folderPathsT t, lookupA s'.full_folder_path_to_uuid p =
    lookupA s.full_folder_path_to_uuid p) →
  (∀ p ∈ filePathsT t, lookupA s'.full_file_path_to_uuid p =
    lookupA s.full_file_path_to_uuid p) →
  boundT s t = true → boundT s' t = true

def BMonoF (ts : FForest) : Prop := ∀ s s' : State,
  (∀ p ∈ folderPathsF ts, lookupA s'.full_folder_path_to_uuid p =
    lookupA s.full_folder_path_to_uuid p) →
  (∀ p ∈ filePathsF ts, lookupA s'.full_file_path_to_uuid p =
    lookupA s.full_file_path_to_uuid p) →
  boundF s ts = true → boundF s' ts = true

theorem bmonoMk (fid : FolderUUID) (q : Str) (files : List (FileUUID × Str))
    (subs : FForest) (ihsubs : BMonoF subs) : BMonoT (.mk fid q files subs) := by
  intro s s' hf hg hb
  rw [boundT] at hb ⊢
  simp only [Bool.and_eq_true] at hb ⊢
  obtain ⟨⟨h1, h2⟩, h3⟩ := hb
  refine ⟨⟨?_, ?_⟩, ?_⟩
  · rw [hf q (by rw [folderPathsT]; exact List.mem_cons_self _ _)]
    exact h1
  · rw [List.all_eq_true] at h2 ⊢
    intro fp hmem
    have h4 : decide (lookupA s.full_file_path_to_uuid fp.2 = some fp.1) = true :=
      h2 fp hmem
    show decide (lookupA s'.full_file_path_to_uuid fp.2 = some fp.1) = true
    rw [hg fp.2 (by
      rw [filePathsT]
      exact List.mem_append_left _ (List.mem_map_of_mem Prod.snd hmem))]
    exact h4
  · exact ihsubs s s'
      (fun p hp => hf p (by rw [folderPathsT]; exact List.mem_cons_of_mem _ hp))
      (fun p hp => hg p (by rw [filePathsT]; exact List.mem_append_right _ hp)) h3

theorem bmonoNil : BMonoF .nil := by
  intro s s' _ _ hb
  exact hb

theorem bmonoCons (t : FTree) (ts : FForest) (ih1 : BMonoT t) (ih2 : BMonoF ts) :
    BMonoF (.cons t ts) := by
  intro s s' hf hg hb
  rw [boundF] at hb ⊢
  simp only [Bool.and_eq_true] at hb ⊢
  refine ⟨?_, ?_⟩
  · exact ih1 s s'
      (fun p hp => hf p (by rw [folderPathsF]; exact List.mem_append_left _ hp))
      (fun p hp => hg p (by rw [filePathsF]; exact List.mem_append_left _ hp)) hb.1
  · exact ih2 s s'
      (fun p hp => hf p (by rw [folderPathsF]; exact List.mem_append_right _ hp))
      (fun p hp => hg p (by rw [filePathsF]; exact List.mem_append_right _ hp)) hb.2

/-- `boundT`/`boundF` survive path-index-preserving state changes. -/
theorem bound_mono : (∀ t, BMonoT t) ∧ (∀ ts, BMonoF ts) :=
  ⟨fun t => FTree.rec (motive_1 := BMonoT) (motive_2 := BMonoF)
    (fun fid q files subs ih => bmonoMk fid q files subs ih)
    bmonoNil (fun t ts ih1 ih2 => bmonoCons t ts ih1 ih2) t,
   fun ts => FForest.rec (motive_1 := BMonoT) (motive_2 := BMonoF)
    (fun fid q files subs ih => bmonoMk fid q files subs ih)
    bmonoNil (fun t ts ih1 ih2 => bmonoCons t ts ih1 ih2) ts⟩

/-- `matchesT` is `matchesBody` plus the node's own path field. -/
theorem matchesT_of_body (s : State) (fid : FolderUUID) (q : Str)
    (files : List (FileUUID × Str)) (subs : FForest) (r : FolderMetadata)
    (hb : matchesBody s (.mk fid q files subs) = true)
    (hl : lookupA s.folder_uuid_to_metadata fid = some r)
    (hp : r.full_folder_path = q) :
    matchesT s (.mk fid q files subs) = true := by
  rw [matchesBody] at hb
  rw [matchesT]
  simp only [Bool.and_eq_true] at hb ⊢
  obtain ⟨⟨h1, h2⟩, h3⟩ := hb
  rw [hl] at h1
  refine ⟨⟨?_, h2⟩, h3⟩
  rw [hl]
  simp only [Bool.and_eq_true, decide_eq_true_eq] at h1 ⊢
  exact ⟨⟨hp, h1.1⟩, h1.2⟩

/-- Motive: `update_subfolder_paths` on a matched subtree (whose own node the
caller has already rebound) succeeds and renames the whole subtree. -/
def PUspT : FTree → Prop
  | .mk fid q files subs => ∀ o n fuel (s : State),
    needT (.mk fid q files subs) ≤ fuel →
    matchesBody s (.mk fid q files subs) = true →
    (folderIdsT (.mk fid q files subs)).Nodup →
    (fileIdsT (.mk fid q files subs)).Nodup →
    replFiles o n files = true →
    replF o n subs = true →
    (folderPathsF subs ++ folderPathsF (renF o n subs)).Nodup →
    ((files.map Prod.snd ++ filePathsF subs) ++
      ((files.map (fun fp => (fp.1, n ++ fp.2.drop o.length))).map Prod.snd ++
        filePathsF (renF o n subs))).Nodup →
    ∃ s', uspGo fuel fid o n s = some s' ∧
      matchesBody s' (.mk fid n
        (files.map (fun fp => (fp.1, n ++ fp.2.drop o.length))) (renF o n subs)) = true ∧
      boundBody s' (.mk fid n
        (files.map (fun fp => (fp.1, n ++ fp.2.drop o.length))) (renF o n subs)) = true ∧
      (∀ p ∈ folderPathsF subs, lookupA s'.full_folder_path_to_uuid p = none) ∧
      (∀ p ∈ files.map Prod.snd ++ filePathsF subs,
        lookupA s'.full_file_path_to_uuid p = none) ∧
      (∀ g, g ∉ folderIdsF subs →
        lookupA s'.folder_uuid_to_metadata g = lookupA s.folder_uuid_to_metadata g) ∧
      (∀ g, g ∉ files.map Prod.fst ++ fileIdsF subs →
        lookupA s'.file_uuid_to_metadata g = lookupA s.file_uuid_to_metadata g) ∧
      (∀ p, p ∉ folderPathsF subs ++ folderPathsF (renF o n subs) →
        lookupA s'.full_folder_path_to_uuid p = lookupA s.full_folder_path_to_uuid p) ∧
      (∀ p, p ∉ (files.map Prod.snd ++ filePathsF subs) ++
          ((files.map (fun fp => (fp.1, n ++ fp.2.drop o.length))).map Prod.snd ++
            filePathsF (renF o n subs)) →
        lookupA s'.full_file_path_to_uuid p = lookupA s.full_file_path_to_uuid p) ∧
      s'.id_counter = s.id_counter

def PUspF (ts : FForest) : Prop := ∀ o n fuel (s : State),
  needF ts ≤ fuel →
  matchesF s ts = true →
  (folderIdsF ts).Nodup →
  (fileIdsF ts).Nodup →
  replF o n ts = true →
  (folderPathsF ts ++ folderPathsF (renF o n ts)).Nodup →
  (filePathsF ts ++ filePathsF (renF o n ts)).Nodup →
  ∃ s', uspSubs fuel (rootsF ts) o n s = some s' ∧
    matchesF s' (renF o n ts) = true ∧
    boundF s' (renF o n ts) = true ∧
    (∀ p ∈ folderPathsF ts, lookupA s'.full_folder_path_to_uuid p = none) ∧
    (∀ p ∈ filePathsF ts, lookupA s'.full_file_path_to_uuid p = none) ∧
    (∀ g, g ∉ folderIdsF ts →
      lookupA s'.folder_uuid_to_metadata g = lookupA s.folder_uuid_to_metadata g) ∧
    (∀ g, g ∉ fileIdsF ts →
      lookupA s'.file_uuid_to_metadata g = lookupA s.file_uuid_to_metadata g) ∧
    (∀ p, p ∉ folderPathsF ts ++ folderPathsF (renF o n ts) →
      lookupA s'.full_folder_path_to_uuid p = lookupA s.full_folder_path_to_uuid p) ∧
    (∀ p, p ∉ filePathsF ts ++ filePathsF (renF o n ts) →
      lookupA s'.full_file_path_to_uuid p = lookupA s.full_file_path_to_uuid p) ∧
    s'.id_counter = s.id_counter

theorem uspNil : PUspF .nil := by
  intro o n fuel s _ _ _ _ _ _ _
  refine ⟨s, ?_, ?_, ?_, ?_, ?_, fun g _ => rfl, fun g _ => rfl,
    fun p _ => rfl, fun p _ => rfl, rfl⟩
  · rw [rootsF]
    cases fuel <;> rfl
  · rw [renF]
    rfl
  · rw [renF]
    rfl
  · intro p hp
    rw [folderPathsF] at hp
    simp at hp
  · intro p hp
    rw [filePathsF] at hp
    simp at hp
theorem uspMk (fid : FolderUUID) (q : Str) (files : List (FileUUID × Str))
    (subs : FForest) (ihsubs : PUspF subs) : PUspT (.mk fid q files subs) := by
  intro o n fuel s hfuel hm hndf hndg hrfiles hrsubs hfp hgp
  rw [needT] at hfuel
  cases fuel with
  | zero => omega
  | succ fu =>
    have hfu : needF subs ≤ fu := by omega
    rw [matchesBody] at hm
    simp only [Bool.and_eq_true] at hm
    obtain ⟨⟨h1, h2⟩, h3⟩ := hm
    cases hl : lookupA s.folder_uuid_to_metadata fid with
    | none =>
      rw [hl] at h1
      simp at h1
    | some r =>
      rw [hl] at h1
      simp only [Bool.and_eq_true, decide_eq_true_eq] at h1
      obtain ⟨hrf, hrs⟩ := h1
      rw [folderIdsT, List.nodup_cons] at hndf
      obtain ⟨hfidnot, hndfs⟩ := hndf
      rw [fileIdsT, List.nodup_append] at hndg
      obtain ⟨hndg1, hndg2, hdisg⟩ := hndg
      obtain ⟨hgpL, hgpR, hgpD⟩ := List.nodup_append.mp hgp
      have hgpLD := (List.nodup_append.mp hgpL).2.2
      have hgpRD := (List.nodup_append.mp hgpR).2.2
      have hgpF : (filePathsF subs ++ filePathsF (renF o n subs)).Nodup :=
        List.Nodup.sublist
          (List.Sublist.append (List.sublist_append_right _ _)
            (List.sublist_append_right _ _)) hgp
      obtain ⟨s1, hrun1, hmF, hbF, hofp, hofip, hFf, hFg, hFfp, hFgp, hcnt1⟩ :=
        ihsubs o n fu s hfu h3 hndfs hndg2 hrsubs hfp hgpF
      have hall1 : files.all (fun fp =>
          match lookupA s1.file_uuid_to_metadata fp.1 with
          | none => false
          | some fr => decide (fr.full_file_path = fp.2)) = true := by
        rw [List.all_eq_true] at h2 ⊢
        intro fp hmem
        have h4 : (match lookupA s.file_uuid_to_metadata fp.1 with
            | none => false
            | some fr => decide (fr.full_file_path = fp.2)) = true := h2 fp hmem
        show (match lookupA s1.file_uuid_to_metadata fp.1 with
            | none => false
            | some fr => decide (fr.full_file_path = fp.2)) = true
        rw [hFg fp.1 (fun hc => hdisg (List.mem_map_of_mem Prod.fst hmem) hc)]
        exact h4
      have hgpO : (files.map Prod.snd ++
          (files.map (fun fp => (fp.1, n ++ fp.2.drop o.length))).map Prod.snd).Nodup :=
        List.Nodup.sublist
          (List.Sublist.append (List.sublist_append_left _ _)
            (List.sublist_append_left _ _)) hgp
      obtain ⟨s2, hrun2, hf1, hf2, hf3, hf4, hf5, hf6, hf7, hf8⟩ :=
        uspFilesOk o n files s1 hndg1 hall1 hrfiles hgpO
      have hstep : uspGo (fu + 1) fid o n s = some s2 := by
        rw [uspGo, hl]
        simp only []
        rw [hrs, hrun1]
        simp only []
        rw [hrf, hrun2]
      refine ⟨s2, hstep, ?_, ?_, ?_, ?_, ?_, ?_, ?_, ?_, hf8.trans hcnt1⟩
      · rw [matchesBody]
        simp only [Bool.and_eq_true]
        refine ⟨⟨?_, hf1⟩, ?_⟩
        · have hl2 : lookupA s2.folder_uuid_to_metadata fid = some r := by
            rw [hf6, hFf fid hfidnot, hl]
          rw [hl2]
          simp only [Bool.and_eq_true, decide_eq_true_eq]
          constructor
          · rw [hrf, List.map_map]
            have hcc : (Prod.fst ∘ fun fp : FileUUID × Str =>
                (fp.1, n ++ fp.2.drop o.length)) = Prod.fst := funext (fun fp => rfl)
            rw [hcc]
          · rw [renRoots.2 subs o n]
            exact hrs
        · apply matches_mono.2 (renF o n subs) s1 s2 ?_ ?_ hmF
          · intro g _
            rw [hf6]
          · intro g hg
            rw [renFileIds.2 subs o n] at hg
            rw [hf4 g (fun hc => hdisg hc hg)]
      · rw [boundBody]
        simp only [Bool.and_eq_true]
        refine ⟨hf2, ?_⟩
        apply bound_mono.2 (renF o n subs) s1 s2 ?_ ?_ hbF
        · intro p _
          rw [hf7]
        · intro p hp
          apply hf5
          intro hc
          rcases List.mem_append.mp hc with hc | hc
          · exact hgpD (List.mem_append_left _ hc) (List.mem_append_right _ hp)
          · exact hgpRD hc hp
      · intro p hp
        rw [hf7]
        exact hofp p hp
      · intro p hp
        rcases List.mem_append.mp hp with hp1 | hp1
        · exact hf3 p hp1
        · rw [hf5 p (by
            intro hc
            rcases List.mem_append.mp hc with hc | hc
            · exact hgpLD hc hp1
            · exact hgpD (List.mem_append_right _ hp1) (List.mem_append_left _ hc))]
          exact hofip p hp1
      · intro g hg
        rw [hf6]
        exact hFf g hg
      · intro g hg
        rw [List.mem_append] at hg
        push_neg at hg
        exact (hf4 g hg.1).trans (hFg g hg.2)
      · intro p hp
        rw [hf7]
        exact hFfp p hp
      · intro p hp
        rw [List.mem_append] at hp
        push_neg at hp
        obtain ⟨hp1, hp2⟩ := hp
        rw [List.mem_append] at hp1 hp2
        push_neg at hp1 hp2
        rw [hf5 p (by
          intro hc
          rcases List.mem_append.mp hc with hc | hc
          · exact hp1.1 hc
          · exact hp2.1 hc)]
        exact hFgp p (by
          intro hc
          rcases List.mem_append.mp hc with hc | hc
          · exact hp1.2 hc
          · exact hp2.2 hc)
theorem uspCons (t : FTree) (ts : FForest) (ih1 : PUspT t) (ih2 : PUspF ts) :
    PUspF (.cons t ts) := by
  intro o n fuel s hfuel hm hndf hndg hrepl hfp hgp
  cases t with
  | mk cfid cq cfiles csubs =>
    rw [needF] at hfuel
    cases fuel with
    | zero => omega
    | succ fu =>
      have hfu1 : needT (.mk cfid cq cfiles csubs) ≤ fu := by omega
      have hfu2 : needF ts ≤ fu := by omega
      rw [matchesF, Bool.and_eq_true] at hm
      obtain ⟨hmt, hmrest⟩ := hm
      rw [matchesT] at hmt
      simp only [Bool.and_eq_true] at hmt
      obtain ⟨⟨hc1, hc2⟩, hc3⟩ := hmt
      cases hl : lookupA s.folder_uuid_to_metadata cfid with
      | none =>
        rw [hl] at hc1
        simp at hc1
      | some r =>
        rw [hl] at hc1
        simp only [Bool.and_eq_true, decide_eq_true_eq] at hc1
        obtain ⟨⟨hcq, hcf⟩, hcs⟩ := hc1
        rw [folderIdsF, List.nodup_append] at hndf
        obtain ⟨hndft, hndfr, hdisf⟩ := hndf
        rw [fileIdsF, List.nodup_append] at hndg
        obtain ⟨hndgt, hndgr, hdisg⟩ := hndg
        rw [replF, Bool.and_eq_true] at hrepl
        obtain ⟨hreplt, hreplr⟩ := hrepl
        rw [replT] at hreplt
        simp only [Bool.and_eq_true, decide_eq_true_eq] at hreplt
        obtain ⟨⟨hrq, hrfiles⟩, hrsubs⟩ := hreplt
        simp only [folderPathsF, folderPathsT, renF, renT] at hfp
        simp only [filePathsF, filePathsT, renF, renT] at hgp
        obtain ⟨hfpL, hfpR, hfpD⟩ := List.nodup_append.mp hfp
        obtain ⟨hfpLc, hfpLr, hfpLD⟩ := List.nodup_append.mp hfpL
        obtain ⟨hfpRc, hfpRr, hfpRD⟩ := List.nodup_append.mp hfpR
        obtain ⟨hcqP, hPnd⟩ := List.nodup_cons.mp hfpLc
        obtain ⟨hcq2P2, hP2nd⟩ := List.nodup_cons.mp hfpRc
        obtain ⟨hgpL, hgpR, hgpD⟩ := List.nodup_append.mp hgp
        obtain ⟨hgpLl, hgpLr, hgpLD⟩ := List.nodup_append.mp hgpL
        obtain ⟨hgpRl, hgpRr, hgpRD⟩ := List.nodup_append.mp hgpR
        have hcfidncs : cfid ∉ folderIdsF csubs := by
          have h := hndft
          rw [folderIdsT, List.nodup_cons] at h
          exact h.1
        have hcfidnts : cfid ∉ folderIdsF ts :=
          fun hc => hdisf (by rw [folderIdsT]; exact List.mem_cons_self _ _) hc
        have hcsubsnts : ∀ g ∈ folderIdsF csubs, g ∉ folderIdsF ts :=
          fun g hg hc => hdisf (by rw [folderIdsT]; exact List.mem_cons_of_mem _ hg) hc
        have hcfilesnts : ∀ g ∈ cfiles.map Prod.fst, g ∉ fileIdsF ts :=
          fun g hg hc => hdisg (by rw [fileIdsT]; exact List.mem_append_left _ hg) hc
        have hcsubsfnts : ∀ g ∈ fileIdsF csubs, g ∉ fileIdsF ts :=
          fun g hg hc => hdisg (by rw [fileIdsT]; exact List.mem_append_right _ hg) hc
        have hcqne : cq ≠ n ++ cq.drop o.length := by
          intro he
          apply hfpD (List.mem_append_left _ (List.mem_cons_self _ _))
          rw [← he]
          exact List.mem_append_left _ (List.mem_cons_self _ _)
        have hcqnotPP : cq ∉ folderPathsF csubs ++
            folderPathsF (renF cq (n ++ cq.drop o.length) csubs) := by
          intro hc
          rcases List.mem_append.mp hc with hc | hc
          · exact hcqP hc
          · exact hfpD (List.mem_append_left _ (List.mem_cons_self _ _))
              (List.mem_append_left _ (List.mem_cons_of_mem _ hc))
        have hcqnotRR : cq ∉ folderPathsF ts ++ folderPathsF (renF o n ts) := by
          intro hc
          rcases List.mem_append.mp hc with hc | hc
          · exact hfpLD (List.mem_cons_self _ _) hc
          · exact hfpD (List.mem_append_left _ (List.mem_cons_self _ _))
              (List.mem_append_right _ hc)
        have hcq2notPP : (n ++ cq.drop o.length) ∉ folderPathsF csubs ++
            folderPathsF (renF cq (n ++ cq.drop o.length) csubs) := by
          intro hc
          rcases List.mem_append.mp hc with hc | hc
          · exact hfpD (List.mem_append_left _ (List.mem_cons_of_mem _ hc))
              (List.mem_append_left _ (List.mem_cons_self _ _))
          · exact hcq2P2 hc
        have hcq2notRR : (n ++ cq.drop o.length) ∉ folderPathsF ts ++
            folderPathsF (renF o n ts) := by
          intro hc
          rcases List.mem_append.mp hc with hc | hc
          · exact hfpD (List.mem_append_right _ hc)
              (List.mem_append_left _ (List.mem_cons_self _ _))
          · exact hfpRD (List.mem_cons_self _ _) hc
        have hPnotRR : ∀ p ∈ folderPathsF csubs ++
            folderPathsF (renF cq (n ++ cq.drop o.length) csubs),
            p ∉ folderPathsF ts ++ folderPathsF (renF o n ts) := by
          intro p hp hc
          rcases List.mem_append.mp hp with hp | hp
          · rcases List.mem_append.mp hc with hc | hc
            · exact hfpLD (List.mem_cons_of_mem _ hp) hc
            · exact hfpD (List.mem_append_left _ (List.mem_cons_of_mem _ hp))
                (List.mem_append_right _ hc)
          · rcases List.mem_append.mp hc with hc | hc
            · exact hfpD (List.mem_append_right _ hc)
                (List.mem_append_left _ (List.mem_cons_of_mem _ hp))
            · exact hfpRD (List.mem_cons_of_mem _ hp) hc
        have hABnotRR : ∀ p ∈ cfiles.map Prod.snd ++ filePathsF csubs,
            p ∉ filePathsF ts ++ filePathsF (renF o n ts) := by
          intro p hp hc
          rcases List.mem_append.mp hc with hc | hc
          · exact hgpLD hp hc
          · exact hgpD (List.mem_append_left _ hp) (List.mem_append_right _ hc)
        have hCDnotRR : ∀ p ∈ (cfiles.map (fun fp =>
              (fp.1, (n ++ cq.drop o.length) ++ fp.2.drop cq.length))).map Prod.snd ++
              filePathsF (renF cq (n ++ cq.drop o.length) csubs),
            p ∉ filePathsF ts ++ filePathsF (renF o n ts) := by
          intro p hp hc
          rcases List.mem_append.mp hc with hc | hc
          · exact hgpD (List.mem_append_right _ hc) (List.mem_append_left _ hp)
          · exact hgpRD hp hc
        set s1 : State := s.rebindFolder cfid cq (n ++ cq.drop o.length) with hs1
        have hs1f : ∀ g, lookupA s1.folder_uuid_to_metadata g =
            if g = cfid then some { r with full_folder_path := n ++ cq.drop o.length }
            else lookupA s.folder_uuid_to_metadata g := by
          intro g
          rw [hs1, State.rebindFolder_folder_lookup, hl]
          rfl
        have hs1fi : s1.full_folder_path_to_uuid =
            insertA (eraseA s.full_folder_path_to_uuid cq) (n ++ cq.drop o.length) cfid :=
          State.rebindFolder_folder_index_eq s cfid cq (n ++ cq.drop o.length)
        have hs1g : s1.file_uuid_to_metadata = s.file_uuid_to_metadata :=
          State.rebindFolder_file_map s cfid cq (n ++ cq.drop o.length)
        have hs1gi : s1.full_file_path_to_uuid = s.full_file_path_to_uuid :=
          State.rebindFolder_file_index s cfid cq (n ++ cq.drop o.length)
        have hs1c : s1.id_counter = s.id_counter :=
          State.rebindFolder_counter s cfid cq (n ++ cq.drop o.length)
        have hmb1 : matchesBody s1 (.mk cfid cq cfiles csubs) = true := by
          rw [matchesBody]
          simp only [Bool.and_eq_true]
          refine ⟨⟨?_, ?_⟩, ?_⟩
          · rw [hs1f cfid, if_pos rfl]
            simp only [Bool.and_eq_true, decide_eq_true_eq]
            exact ⟨hcf, hcs⟩
          · rw [List.all_eq_true] at hc2 ⊢
            intro fp hmem
            have h4 : (match lookupA s.file_uuid_to_metadata fp.1 with
                | none => false
                | some fr => decide (fr.full_file_path = fp.2)) = true := hc2 fp hmem
            show (match lookupA s1.file_uuid_to_metadata fp.1 with
                | none => false
                | some fr => decide (fr.full_file_path = fp.2)) = true
            rw [hs1g]
            exact h4
          · apply matches_mono.2 csubs s s1 ?_ ?_ hc3
            · intro g hg
              rw [hs1f g, if_neg (show ¬ g = cfid from
                fun he => hcfidncs (by rw [← he]; exact hg))]
            · intro g _
              rw [hs1g]
        have hfpT : (folderPathsF csubs ++
            folderPathsF (renF cq (n ++ cq.drop o.length) csubs)).Nodup :=
          List.Nodup.sublist (List.Sublist.append
            ((List.sublist_cons_self _ _).trans (List.sublist_append_left _ _))
            ((List.sublist_cons_self _ _).trans (List.sublist_append_left _ _))) hfp
        have hgpT : ((cfiles.map Prod.snd ++ filePathsF csubs) ++
            ((cfiles.map (fun fp =>
              (fp.1, (n ++ cq.drop o.length) ++ fp.2.drop cq.length))).map Prod.snd ++
              filePathsF (renF cq (n ++ cq.drop o.length) csubs))).Nodup :=
          List.Nodup.sublist (List.Sublist.append
            (List.sublist_append_left _ _) (List.sublist_append_left _ _)) hgp
        have hndgt' : (fileIdsT (.mk cfid cq cfiles csubs)).Nodup := hndgt
        obtain ⟨s2, hrun2, hb1, hb2, hb3, hb4, hb5, hb6, hb7, hb8, hb9⟩ :=
          ih1 cq (n ++ cq.drop o.length) fu s1 hfu1 hmb1 hndft hndgt' hrfiles hrsubs
            hfpT hgpT
        have hstep : uspSubs (fu + 1) (rootsF (.cons (.mk cfid cq cfiles csubs) ts)) o n s =
            uspSubs fu (rootsF ts) o n s2 := by
          rw [rootsF, rootT, uspSubs, hl]
          simp only []
          rw [hcq, hrq, ← hs1, hrun2]
        have hmrest2 : matchesF s2 ts = true := by
          apply matches_mono.2 ts s s2 ?_ ?_ hmrest
          · intro g hg
            rw [hb5 g (fun hc => hcsubsnts g hc hg), hs1f g,
              if_neg (show ¬ g = cfid from
                fun he => hcfidnts (by rw [← he]; exact hg))]
          · intro g hg
            rw [hb6 g (fun hc => by
              rcases List.mem_append.mp hc with hc | hc
              · exact hcfilesnts g hc hg
              · exact hcsubsfnts g hc hg), hs1g]
        have hfpRrest : (folderPathsF ts ++ folderPathsF (renF o n ts)).Nodup :=
          List.Nodup.sublist (List.Sublist.append
            (List.sublist_append_right _ _) (List.sublist_append_right _ _)) hfp
        have hgpRest : (filePathsF ts ++ filePathsF (renF o n ts)).Nodup :=
          List.Nodup.sublist (List.Sublist.append
            (List.sublist_append_right _ _) (List.sublist_append_right _ _)) hgp
        obtain ⟨s3, hrun3, hr1, hr2, hr3, hr4, hr5, hr6, hr7, hr8, hr9⟩ :=
          ih2 o n fu s2 hfu2 hmrest2 hndfr hndgr hreplr hfpRrest hgpRest
        refine ⟨s3, hstep.trans hrun3, ?_, ?_, ?_, ?_, ?_, ?_, ?_, ?_,
          hr9.trans (hb9.trans hs1c)⟩
        · rw [renF, renT, matchesF]
          simp only [Bool.and_eq_true]
          refine ⟨?_, hr1⟩
          have hbody3 : matchesBody s3 (.mk cfid (n ++ cq.drop o.length)
              (cfiles.map (fun fp =>
                (fp.1, (n ++ cq.drop o.length) ++ fp.2.drop cq.length)))
              (renF cq (n ++ cq.drop o.length) csubs)) = true := by
            rw [matchesBody] at hb1 ⊢
            simp only [Bool.and_eq_true] at hb1 ⊢
            obtain ⟨⟨hx1, hx2⟩, hx3⟩ := hb1
            refine ⟨⟨?_, ?_⟩, ?_⟩
            · rw [hr5 cfid hcfidnts]
              exact hx1
            · rw [List.all_eq_true] at hx2 ⊢
              intro fp hmem
              have hfst : fp.1 ∈ cfiles.map Prod.fst := by
                obtain ⟨fp0, hfp0, he⟩ := List.mem_map.mp hmem
                have : fp.1 = fp0.1 := by rw [← he]
                rw [this]
                exact List.mem_map_of_mem Prod.fst hfp0
              have h4 : (match lookupA s2.file_uuid_to_metadata fp.1 with
                  | none => false
                  | some fr => decide (fr.full_file_path = fp.2)) = true := hx2 fp hmem
              show (match lookupA s3.file_uuid_to_metadata fp.1 with
                  | none => false
                  | some fr => decide (fr.full_file_path = fp.2)) = true
              rw [hr6 fp.1 (hcfilesnts fp.1 hfst)]
              exact h4
            · apply matches_mono.2 (renF cq (n ++ cq.drop o.length) csubs) s2 s3 ?_ ?_ hx3
              · intro g hg
                rw [renFolderIds.2 csubs _ _] at hg
                exact hr5 g (fun hc => hcsubsnts g hg hc)
              · intro g hg
                rw [renFileIds.2 csubs _ _] at hg
                rw [hr6 g (fun hc => hcsubsfnts g hg hc)]
          have hlk3 : lookupA s3.folder_uuid_to_metadata cfid =
              some { r with full_folder_path := n ++ cq.drop o.length } := by
            rw [hr5 cfid hcfidnts, hb5 cfid hcfidncs, hs1f cfid, if_pos rfl]
          exact matchesT_of_body s3 cfid (n ++ cq.drop o.length) _ _ _ hbody3 hlk3 rfl
        · rw [renF, renT, boundF]
          simp only [Bool.and_eq_true]
          have hb2' := hb2
          rw [boundBody] at hb2'
          simp only [Bool.and_eq_true] at hb2'
          obtain ⟨hb2a, hb2b⟩ := hb2'
          refine ⟨?_, hr2⟩
          rw [boundT]
          simp only [Bool.and_eq_true]
          refine ⟨⟨?_, ?_⟩, ?_⟩
          · apply decide_eq_true
            rw [hr7 _ hcq2notRR, hb7 _ hcq2notPP, hs1fi, lookupA_insertA_self]
          · rw [List.all_eq_true] at hb2a ⊢
            intro fp hmem
            have h4 : decide (lookupA s2.full_file_path_to_uuid fp.2 = some fp.1) = true :=
              hb2a fp hmem
            show decide (lookupA s3.full_file_path_to_uuid fp.2 = some fp.1) = true
            rw [hr8 fp.2 (hCDnotRR fp.2
              (List.mem_append_left _ (List.mem_map_of_mem Prod.snd hmem)))]
            exact h4
          · apply bound_mono.2 (renF cq (n ++ cq.drop o.length) csubs) s2 s3 ?_ ?_ hb2b
            · intro p hp
              exact hr7 p (hPnotRR p (List.mem_append_right _ hp))
            · intro p hp
              exact hr8 p (hCDnotRR p (List.mem_append_right _ hp))
        · intro p hp
          simp only [folderPathsF, folderPathsT] at hp
          rcases List.mem_append.mp hp with hp1 | hp1
          · rcases List.mem_cons.mp hp1 with rfl | hp2
            · rw [hr7 p hcqnotRR, hb7 p hcqnotPP, hs1fi,
                lookupA_insertA_ne _ _ _ _ hcqne, lookupA_eraseA_self]
            · rw [hr7 p (hPnotRR p (List.mem_append_left _ hp2))]
              exact hb3 p hp2
          · exact hr3 p hp1
        · intro p hp
          simp only [filePathsF, filePathsT] at hp
          rcases List.mem_append.mp hp with hp1 | hp1
          · rw [hr8 p (hABnotRR p hp1)]
            exact hb4 p hp1
          · exact hr4 p hp1
        · intro g hg
          simp only [folderIdsF, folderIdsT] at hg
          have hg1 : g ≠ cfid := by
            intro he
            apply hg
            rw [he]
            exact List.mem_append_left _ (List.mem_cons_self _ _)
          have hg2 : g ∉ folderIdsF csubs :=
            fun hc => hg (List.mem_append_left _ (List.mem_cons_of_mem _ hc))
          have hg3 : g ∉ folderIdsF ts := fun hc => hg (List.mem_append_right _ hc)
          rw [hr5 g hg3, hb5 g hg2, hs1f g, if_neg hg1]
        · intro g hg
          simp only [fileIdsF, fileIdsT] at hg
          have hg1 : g ∉ cfiles.map Prod.fst ++ fileIdsF csubs :=
            fun hc => hg (List.mem_append_left _ hc)
          have hg3 : g ∉ fileIdsF ts := fun hc => hg (List.mem_append_right _ hc)
          rw [hr6 g hg3, hb6 g hg1, hs1g]
        · intro p hp
          simp only [folderPathsF, folderPathsT, renF, renT] at hp
          have hp1 : p ≠ cq := by
            intro he
            apply hp
            rw [he]
            exact List.mem_append_left _ (List.mem_append_left _ (List.mem_cons_self _ _))
          have hp2 : p ∉ folderPathsF csubs ++
              folderPathsF (renF cq (n ++ cq.drop o.length) csubs) := by
            intro hc
            apply hp
            rcases List.mem_append.mp hc with hc | hc
            · exact List.mem_append_left _
                (List.mem_append_left _ (List.mem_cons_of_mem _ hc))
            · exact List.mem_append_right _
                (List.mem_append_left _ (List.mem_cons_of_mem _ hc))
          have hp3 : p ≠ n ++ cq.drop o.length := by
            intro he
            apply hp
            rw [he]
            exact List.mem_append_right _ (List.mem_append_left _ (List.mem_cons_self _ _))
          have hp4 : p ∉ folderPathsF ts ++ folderPathsF (renF o n ts) := by
            intro hc
            apply hp
            rcases List.mem_append.mp hc with hc | hc
            · exact List.mem_append_left _ (List.mem_append_right _ hc)
            · exact List.mem_append_right _ (List.mem_append_right _ hc)
          rw [hr7 p hp4, hb7 p hp2, hs1fi,
            lookupA_insertA_ne _ _ _ _ hp3, lookupA_eraseA_ne _ _ _ hp1]
        · intro p hp
          simp only [filePathsF, filePathsT, renF, renT] at hp
          have hp1 : p ∉ (cfiles.map Prod.snd ++ filePathsF csubs) ++
              ((cfiles.map (fun fp =>
                (fp.1, (n ++ cq.drop o.length) ++ fp.2.drop cq.length))).map Prod.snd ++
                filePathsF (renF cq (n ++ cq.drop o.length) csubs)) := by
            intro hc
            apply hp
            rcases List.mem_append.mp hc with hc | hc
            · exact List.mem_append_left _ (List.mem_append_left _ hc)
            · exact List.mem_append_right _ (List.mem_append_left _ hc)
          have hp2 : p ∉ filePathsF ts ++ filePathsF (renF o n ts) := by
            intro hc
            apply hp
            rcases List.mem_append.mp hc with hc | hc
            · exact List.mem_append_left _ (List.mem_append_right _ hc)
            · exact List.mem_append_right _ (List.mem_append_right _ hc)
          rw [hr8 p hp2, hb8 p hp1, hs1gi]
/-- `update_subfolder_paths` renames a matched subtree. -/
theorem uspOk : (∀ t, PUspT t) ∧ (∀ ts, PUspF ts) :=
  ⟨fun t => FTree.rec (motive_1 := PUspT) (motive_2 := PUspF)
    (fun fid q files subs ih => uspMk fid q files subs ih)
    uspNil (fun t ts ih1 ih2 => uspCons t ts ih1 ih2) t,
   fun ts => FForest.rec (motive_1 := PUspT) (motive_2 := PUspF)
    (fun fid q files subs ih => uspMk fid q files subs ih)
    uspNil (fun t ts ih1 ih2 => uspCons t ts ih1 ih2) ts⟩

/-- Like `countT_le_map_length`, from bare key presence. -/
theorem countT_le_of_keys (s : State) (t : FTree)
    (hk : ∀ g ∈ folderIdsT t, ∃ r, lookupA s.folder_uuid_to_metadata g = some r)
    (hnd : (folderIdsT t).Nodup) :
    countT t ≤ s.folder_uuid_to_metadata.length := by
  have hsub : folderIdsT t ⊆ s.folder_uuid_to_metadata.map Prod.fst := by
    intro g hg
    obtain ⟨r, hr⟩ := hk g hg
    exact List.mem_map_of_mem Prod.fst (lookupA_mem _ _ _ hr)
  have hlen := (List.subperm_of_subset hnd hsub).length_le
  rw [countLen.1 t] at hlen
  rw [List.length_map] at hlen
  exact hlen

/-- C5 (amended): `rename_folder` on a top-level folder (its path has no
parent segment) whose subtree is matched, under the conditions that make the
`str::replace` of each traversal step act as a prefix substitution and that
keep all old and new paths distinct: the rename succeeds, every descendant
folder and file record carries its prefix-substituted path, every new
descendant path resolves to the correct descendant id, and every old
descendant path (and the old root path) is unresolvable. -/
theorem C5_amended_rename_folder_renames_subtree
    (s : State) (fid : FolderUUID) (q : Str) (files : List (FileUUID × Str))
    (subs : FForest) (new_name : Str) (now : Nat) (stor restPath np : Str)
    (hm : matchesT s (.mk fid q files subs) = true)
    (hndf : (folderIdsT (.mk fid q files subs)).Nodup)
    (hndg : (fileIdsT (.mk fid q files subs)).Nodup)
    (hsp : splitOnceSub dcolon q = some (stor, restPath))
    (hpar : rsplitOnceChar '/' (trimEndSlashes restPath) = none)
    (hnp : np = stor ++ dcolon ++ new_name ++ ['/'])
    (hfree : lookupA s.full_folder_path_to_uuid np = none)
    (hrfiles : replFiles q np files = true)
    (hrsubs : replF q np subs = true)
    (hfp : (q :: np :: (folderPathsF subs ++ folderPathsF (renF q np subs))).Nodup)
    (hgp : ((files.map Prod.snd ++ filePathsF subs) ++
      ((files.map (fun fp => (fp.1, np ++ fp.2.drop q.length))).map Prod.snd ++
        filePathsF (renF q np subs))).Nodup) :
    ∃ s', s.renameFolder fid new_name now = some (.ok (), s') ∧
      (∃ r, lookupA s.folder_uuid_to_metadata fid = some r ∧
        lookupA s'.folder_uuid_to_metadata fid =
          some { r with
                  original_folder_name := new_name, full_folder_path := np,
                  last_changed_unix_ms := now / 1000000 }) ∧
      matchesT s' (.mk fid np
        (files.map (fun fp => (fp.1, np ++ fp.2.drop q.length)))
        (renF q np subs)) = true ∧
      boundT s' (.mk fid np
        (files.map (fun fp => (fp.1, np ++ fp.2.drop q.length)))
        (renF q np subs)) = true ∧
      lookupA s'.full_folder_path_to_uuid q = none ∧
      (∀ p ∈ folderPathsF subs, lookupA s'.full_folder_path_to_uuid p = none) ∧
      (∀ p ∈ files.map Prod.snd ++ filePathsF subs,
        lookupA s'.full_file_path_to_uuid p = none) := by
  obtain ⟨hqni, hfp2⟩ := List.nodup_cons.mp hfp
  obtain ⟨hnpni, hfpBody⟩ := List.nodup_cons.mp hfp2
  have hqnp : q ≠ np := fun he => hqni (by rw [he]; exact List.mem_cons_self _ _)
  have hqbody : q ∉ folderPathsF subs ++ folderPathsF (renF q np subs) :=
    fun hc => hqni (List.mem_cons_of_mem _ hc)
  rw [matchesT] at hm
  simp only [Bool.and_eq_true] at hm
  obtain ⟨⟨h1, h2⟩, h3⟩ := hm
  cases hl : lookupA s.folder_uuid_to_metadata fid with
  | none =>
    rw [hl] at h1
    simp at h1
  | some r =>
    rw [hl] at h1
    simp only [Bool.and_eq_true, decide_eq_true_eq] at h1
    obtain ⟨⟨hq, hrf⟩, hrs⟩ := h1
    have hfidncs : fid ∉ folderIdsF subs := by
      have h := hndf
      rw [folderIdsT, List.nodup_cons] at h
      exact h.1
    set sR : State := s.renameBindFolder fid new_name q np now with hsR
    have hsRf : ∀ g, lookupA sR.folder_uuid_to_metadata g =
        if g = fid then
          some { r with
                  original_folder_name := new_name, full_folder_path := np,
                  last_changed_unix_ms := now / 1000000 }
        else lookupA s.folder_uuid_to_metadata g := by
      intro g
      rw [hsR, State.renameBindFolder_folder_lookup, hl]
      rfl
    have hsRfi : sR.full_folder_path_to_uuid =
        insertA (eraseA s.full_folder_path_to_uuid q) np fid :=
      State.renameBindFolder_folder_index_eq s fid new_name q np now
    have hsRg : sR.file_uuid_to_metadata = s.file_uuid_to_metadata :=
      State.renameBindFolder_file_map s fid new_name q np now
    have hmb : matchesBody sR (.mk fid q files subs) = true := by
      rw [matchesBody]
      simp only [Bool.and_eq_true]
      refine ⟨⟨?_, ?_⟩, ?_⟩
      · rw [hsRf fid, if_pos rfl]
        simp only [Bool.and_eq_true, decide_eq_true_eq]
        exact ⟨hrf, hrs⟩
      · rw [List.all_eq_true] at h2 ⊢
        intro fp hmem
        have h4 : (match lookupA s.file_uuid_to_metadata fp.1 with
            | none => false
            | some fr => decide (fr.full_file_path = fp.2)) = true := h2 fp hmem
        show (match lookupA sR.file_uuid_to_metadata fp.1 with
            | none => false
            | some fr => decide (fr.full_file_path = fp.2)) = true
        rw [hsRg]
        exact h4
      · apply matches_mono.2 subs s sR ?_ ?_ h3
        · intro g hg
          rw [hsRf g, if_neg (show ¬ g = fid from
            fun he => hfidncs (by rw [← he]; exact hg))]
        · intro g _
          rw [hsRg]
    have hmT : matchesT s (.mk fid q files subs) = true := by
      rw [matchesT]
      simp only [Bool.and_eq_true]
      refine ⟨⟨?_, h2⟩, h3⟩
      rw [hl]
      simp only [Bool.and_eq_true, decide_eq_true_eq]
      exact ⟨⟨hq, hrf⟩, hrs⟩
    have hkeys : ∀ g ∈ folderIdsT (.mk fid q files subs),
        ∃ r2, lookupA sR.folder_uuid_to_metadata g = some r2 := by
      intro g hg
      by_cases hgf : g = fid
      · subst hgf
        exact ⟨_, by rw [hsRf g, if_pos rfl]⟩
      · obtain ⟨r2, hr2⟩ := keys_of_matches.1 (.mk fid q files subs) s hmT g hg
        exact ⟨r2, by rw [hsRf g, if_neg hgf]; exact hr2⟩
    have hcnt := countT_le_of_keys sR (.mk fid q files subs) hkeys hndf
    have hneed := need_le_two_count.1 (.mk fid q files subs)
    have hfuel : needT (.mk fid q files subs) ≤
        2 * sR.folder_uuid_to_metadata.length + 2 := by omega
    obtain ⟨s2, hrun, hb1, hb2, hb3, hb4, hb5, hb6, hb7, hb8, hb9⟩ :=
      uspOk.1 (.mk fid q files subs) q np
        (2 * sR.folder_uuid_to_metadata.length + 2) sR hfuel hmb hndf hndg
        hrfiles hrsubs hfpBody hgp
    have hstep : s.renameFolder fid new_name now = some (.ok (), s2) := by
      unfold State.renameFolder
      rw [hl]
      simp only []
      rw [hq, hsp]
      simp only []
      rw [hpar]
      simp only []
      rw [if_pos (show (([] : Str).isEmpty) = true from rfl)]
      rw [← hnp, hfree]
      rw [if_neg (show ¬ ((none : Option FolderUUID).isSome = true) from by decide)]
      rw [← hsR, hrun]
      simp only []
      rw [if_pos (show (([] : Str).isEmpty) = true from rfl)]
    refine ⟨s2, hstep, ?_, ?_, ?_, ?_, ?_, ?_⟩
    · refine ⟨r, rfl, ?_⟩
      rw [hb5 fid hfidncs, hsRf fid, if_pos rfl]
    · have hlk2 : lookupA s2.folder_uuid_to_metadata fid =
          some { r with
                  original_folder_name := new_name, full_folder_path := np,
                  last_changed_unix_ms := now / 1000000 } := by
        rw [hb5 fid hfidncs, hsRf fid, if_pos rfl]
      exact matchesT_of_body s2 fid np _ _ _ hb1 hlk2 rfl
    · rw [boundT]
      simp only [Bool.and_eq_true]
      have hb2' := hb2
      rw [boundBody] at hb2'
      simp only [Bool.and_eq_true] at hb2'
      refine ⟨⟨?_, hb2'.1⟩, hb2'.2⟩
      apply decide_eq_true
      rw [hb7 np (fun hc => hnpni hc), hsRfi, lookupA_insertA_self]
    · rw [hb7 q hqbody, hsRfi, lookupA_insertA_ne _ _ _ _ hqnp, lookupA_eraseA_self]
    · exact hb3
    · exact hb4
/-- C5 witness: renaming top-level folder 1 (`BrowserCache::a/`, with
subfolder 2 and file 3) to `z` in `stateABF`. -/
theorem C5_amended_witness :
    matchesT stateABF (.mk 1 "BrowserCache::a/".data
      [(3, "BrowserCache::a/f.txt".data)]
      (.cons (.mk 2 "BrowserCache::a/b/".data [] .nil) .nil)) = true ∧
    splitOnceSub dcolon "BrowserCache::a/".data =
      some ("BrowserCache".data, "a/".data) ∧
    rsplitOnceChar '/' (trimEndSlashes "a/".data) = none ∧
    lookupA stateABF.full_folder_path_to_uuid "BrowserCache::z/".data = none ∧
    (∃ s', stateABF.renameFolder 1 "z".data 9 = some (.ok (), s') ∧
      (∃ r, lookupA stateABF.folder_uuid_to_metadata 1 = some r ∧
        lookupA s'.folder_uuid_to_metadata 1 =
          some { r with
                  original_folder_name := "z".data,
                  full_folder_path := "BrowserCache::z/".data,
                  last_changed_unix_ms := 9 / 1000000 }) ∧
      matchesT s' (.mk 1 "BrowserCache::z/".data
        ([(3, "BrowserCache::a/f.txt".data)].map (fun fp =>
          (fp.1, "BrowserCache::z/".data ++ fp.2.drop "BrowserCache::a/".data.length)))
        (renF "BrowserCache::a/".data "BrowserCache::z/".data
          (.cons (.mk 2 "BrowserCache::a/b/".data [] .nil) .nil))) = true ∧
      boundT s' (.mk 1 "BrowserCache::z/".data
        ([(3, "BrowserCache::a/f.txt".data)].map (fun fp =>
          (fp.1, "BrowserCache::z/".data ++ fp.2.drop "BrowserCache::a/".data.length)))
        (renF "BrowserCache::a/".data "BrowserCache::z/".data
          (.cons (.mk 2 "BrowserCache::a/b/".data [] .nil) .nil))) = true ∧
      lookupA s'.full_folder_path_to_uuid "BrowserCache::a/".data = none ∧
      (∀ p ∈ folderPathsF (.cons (.mk 2 "BrowserCache::a/b/".data [] .nil) .nil),
        lookupA s'.full_folder_path_to_uuid p = none) ∧
      (∀ p ∈ [(3, "BrowserCache::a/f.txt".data)].map Prod.snd ++
          filePathsF (.cons (.mk 2 "BrowserCache::a/b/".data [] .nil) .nil),
        lookupA s'.full_file_path_to_uuid p = none)) :=
  ⟨by decide, by decide, by decide, by decide,
   C5_amended_rename_folder_renames_subtree stateABF 1 "BrowserCache::a/".data
     [(3, "BrowserCache::a/f.txt".data)]
     (.cons (.mk 2 "BrowserCache::a/b/".data [] .nil) .nil)
     "z".data 9 "BrowserCache".data "a/".data "BrowserCache::z/".data
     (by decide) (by decide) (by decide) (by decide) (by decide) (by decide)
     (by decide) (by decide) (by decide) (by decide) (by decide)⟩

end OfficeX
